import Mathlib

/-!
# ziglu-rss-reader: the identifier, the storage, the reader and the API

A shallow embedding of `internal/feed/feed.go`, `internal/storage/storage.go`,
`internal/reader/reader.go`, `internal/middleware/uuid.go` and `internal/api/api.go`.

* Go strings are modelled by `String`; their bytes are the UTF-8 encoding.
* `time.Time` is modelled by the instant it denotes, an integer count of clock
  ticks (`After`, `Equal` compare instants only).
* `sync.Map` is modelled by an association list with distinct keys (`AList`);
  `Range` visits the entries in list order.  The order in which the real map is
  ranged is unspecified, so nothing below depends on it: every statement is
  proved for all association lists, hence for all orders.
* `sort.Slice` is modelled by a sort driven by the same `less` function.
* `crypto/md5` is modelled after RFC 1321 and checked on the digests of
  `internal/feed/feed_test.go`.
* What the network, the parsers of the libraries and the clock return is an input of
  the function that asks for it.
* A `*feed.Feed` is an address into a heap of feed objects, which the reader and the
  storage it writes to share.  The claims about the storage alone are stated on
  `InMemoryStorage`, the storage as it is read at one instant, every feed by its value.
* `Update` is a transition system over its goroutines and channels.
-/

set_option linter.dupNamespace false

namespace Reader

/-! ## internal/feed/feed.go -/

/-- A point in time, as `time.Time` compares it. -/
abbrev Time := Int

/-- Go `t.After(u)`. -/
def Time.After (t u : Time) : Bool := decide (u < t)

/-- Go `t.Equal(u)`. -/
def Time.Equal (t u : Time) : Bool := decide (t = u)

/-- Go `time.Time{}`, the zero instant: January 1 of year 1, in seconds since the Unix
epoch. -/
def zeroTime : Time := -62135596800

/-- The type `uuid.UUID`, a 16 byte array, kept as the list of its bytes. -/
abbrev UUID := List Nat

/-- The struct `feed.Image`. -/
structure Image where
  Title : String
  URL : String
deriving DecidableEq, Repr

/-- The struct `feed.Feed`; `FeedLink` holds the rendering `FeedLink.String()` of the URL. -/
structure Feed where
  FeedLink : String
  ModifiedAt : Time
  Title : String
  Link : String
deriving DecidableEq, Repr

/-- The struct `feed.Article`. -/
structure Article where
  GUID : String
  Link : String
  Published : Time
  Title : String
  Description : String
  Image : Option Image
deriving DecidableEq, Repr

/-! ### crypto/md5 (RFC 1321), used by `UUIDFromString` -/

/-- Truncation to a 32 bit word. -/
def w32 (n : Nat) : Nat := n % 2 ^ 32

/-- Bitwise complement of a 32 bit word. -/
def not32 (n : Nat) : Nat := 2 ^ 32 - 1 - w32 n

/-- Rotate a 32 bit word left by `s` bits. -/
def rotl32 (x s : Nat) : Nat := w32 (x <<< s) ||| (w32 x >>> (32 - s))

/-- Per-round shift amounts of MD5. -/
def md5Shifts : List Nat :=
  [7, 12, 17, 22, 7, 12, 17, 22, 7, 12, 17, 22, 7, 12, 17, 22,
   5, 9, 14, 20, 5, 9, 14, 20, 5, 9, 14, 20, 5, 9, 14, 20,
   4, 11, 16, 23, 4, 11, 16, 23, 4, 11, 16, 23, 4, 11, 16, 23,
   6, 10, 15, 21, 6, 10, 15, 21, 6, 10, 15, 21, 6, 10, 15, 21]

/-- The sine table of MD5: entry `i` is `floor (2^32 * |sin (i + 1)|)`. -/
def md5Table : List Nat :=
  [0xd76aa478, 0xe8c7b756, 0x242070db, 0xc1bdceee,
   0xf57c0faf, 0x4787c62a, 0xa8304613, 0xfd469501,
   0x698098d8, 0x8b44f7af, 0xffff5bb1, 0x895cd7be,
   0x6b901122, 0xfd987193, 0xa679438e, 0x49b40821,
   0xf61e2562, 0xc040b340, 0x265e5a51, 0xe9b6c7aa,
   0xd62f105d, 0x02441453, 0xd8a1e681, 0xe7d3fbc8,
   0x21e1cde6, 0xc33707d6, 0xf4d50d87, 0x455a14ed,
   0xa9e3e905, 0xfcefa3f8, 0x676f02d9, 0x8d2a4c8a,
   0xfffa3942, 0x8771f681, 0x6d9d6122, 0xfde5380c,
   0xa4beea44, 0x4bdecfa9, 0xf6bb4b60, 0xbebfbc70,
   0x289b7ec6, 0xeaa127fa, 0xd4ef3085, 0x04881d05,
   0xd9d4d039, 0xe6db99e5, 0x1fa27cf8, 0xc4ac5665,
   0xf4292244, 0x432aff97, 0xab9423a7, 0xfc93a039,
   0x655b59c3, 0x8f0ccc92, 0xffeff47d, 0x85845dd1,
   0x6fa87e4f, 0xfe2ce6e0, 0xa3014314, 0x4e0811a1,
   0xf7537e82, 0xbd3af235, 0x2ad7d2bb, 0xeb86d391]

/-- The four chaining words of MD5. -/
structure MD5State where
  a : Nat
  b : Nat
  c : Nat
  d : Nat
deriving DecidableEq, Repr

/-- Little-endian 32 bit word number `i` of a block of bytes. -/
def leWord (bs : List Nat) (i : Nat) : Nat :=
  bs.getD (4 * i) 0 + bs.getD (4 * i + 1) 0 <<< 8 + bs.getD (4 * i + 2) 0 <<< 16
    + bs.getD (4 * i + 3) 0 <<< 24

/-- One of the 64 operations of the MD5 compression function, on message words `m`. -/
def md5Step (m : List Nat) (st : MD5State) (i : Nat) : MD5State :=
  let f :=
    if i < 16 then (st.b &&& st.c) ||| (not32 st.b &&& st.d)
    else if i < 32 then (st.d &&& st.b) ||| (not32 st.d &&& st.c)
    else if i < 48 then st.b ^^^ st.c ^^^ st.d
    else st.c ^^^ (st.b ||| not32 st.d)
  let g :=
    if i < 16 then i
    else if i < 32 then (5 * i + 1) % 16
    else if i < 48 then (3 * i + 5) % 16
    else (7 * i) % 16
  let f2 := w32 (f + st.a + md5Table.getD i 0 + m.getD g 0)
  { a := st.d, d := st.c, c := st.b, b := w32 (st.b + rotl32 f2 (md5Shifts.getD i 0)) }

/-- The MD5 compression function on one 64 byte block. -/
def md5Block (st : MD5State) (block : List Nat) : MD5State :=
  let m := (List.range 16).map (leWord block)
  let r := (List.range 64).foldl (md5Step m) st
  { a := w32 (st.a + r.a), b := w32 (st.b + r.b), c := w32 (st.c + r.c), d := w32 (st.d + r.d) }

/-- Compress the first `n` 64 byte blocks of `msg`. -/
def md5Blocks : Nat → MD5State → List Nat → MD5State
  | 0, st, _ => st
  | n + 1, st, msg => md5Blocks n (md5Block st (msg.take 64)) (msg.drop 64)

/-- The `width` low bytes of `n`, least significant first. -/
def leBytes (width : Nat) (n : Nat) : List Nat :=
  (List.range width).map fun i => (n >>> (8 * i)) % 256

/-- MD5 padding: a `0x80` byte, zeros up to 56 modulo 64, the bit length on 8 bytes. -/
def md5Pad (msg : List Nat) : List Nat :=
  let zeros := (55 + 64 - msg.length % 64) % 64
  msg ++ [0x80] ++ List.replicate zeros 0 ++ leBytes 8 ((8 * msg.length) % 2 ^ 64)

/-- Go `md5.Sum(data)`: the 16 byte MD5 digest of a byte string. -/
def md5Sum (msg : List Nat) : List Nat :=
  let p := md5Pad msg
  let st := md5Blocks (p.length / 64) ⟨0x67452301, 0xefcdab89, 0x98badcfe, 0x10325476⟩ p
  leBytes 4 st.a ++ leBytes 4 st.b ++ leBytes 4 st.c ++ leBytes 4 st.d

/-- Go `[]byte(s)`: the UTF-8 bytes of a string. -/
def utf8Bytes (s : String) : List Nat :=
  s.data.flatMap fun c => (String.utf8EncodeChar c).map UInt8.toNat

/-- Go `uuid.FromBytes(b)`: a UUID from a slice, an error unless it has 16 bytes. -/
def uuidFromBytes (b : List Nat) : Except String UUID :=
  if b.length = 16 then .ok b else .error "invalid UUID (got bytes)"

/-- Go `feed.UUIDFromString`: the MD5 of the string turned into a UUID, the error ignored
(on an error `uuid.FromBytes` leaves the zero UUID). -/
def UUIDFromString (s : String) : UUID :=
  let res := md5Sum (utf8Bytes s)
  match uuidFromBytes res with
  | .ok uuid => uuid
  | .error _ => List.replicate 16 0

/-- Go `(*Feed).UUID`. -/
def Feed.UUID (f : Feed) : UUID := UUIDFromString f.FeedLink

/-- Go `(*Article).UUID`: from the GUID when there is one, else from the link. -/
def Article.UUID (a : Article) : UUID :=
  if a.GUID ≠ "" then UUIDFromString a.GUID else UUIDFromString a.Link

/-- Canonical 8-4-4-4-12 rendering of a UUID, Go `uuid.UUID.String`. -/
def UUID.toCanonical (u : UUID) : String :=
  let hex := fun (n : Nat) => String.mk [Nat.digitChar (n / 16 % 16), Nat.digitChar (n % 16)]
  let part := fun (i j : Nat) => String.join (((u.drop i).take (j - i)).map hex)
  part 0 4 ++ "-" ++ part 4 6 ++ "-" ++ part 6 8 ++ "-" ++ part 8 10 ++ "-" ++ part 10 16

/-! ## internal/storage/storage.go -/

/-- Go `sort.Slice(xs, less)`: the slice reordered so that no element is `less` than one
before it.  `sort.Slice` is not stable: how it orders elements none of which is `less` than
the other is left open.  The sort below keeps them in input order, and the input order is
arbitrary in every statement, so every outcome of `sort.Slice` is covered. -/
def sortSlice {α : Type} (less : α → α → Bool) (xs : List α) : List α :=
  xs.insertionSort (fun a b => less b a = false)

/-- A `sync.Map` keyed by UUIDs. -/
abbrev SyncMap (V : Type) := AList (fun _ : UUID => V)

/-- The values of a `sync.Map` in `Range` order. -/
def SyncMap.values {V : Type} (m : SyncMap V) : List V := m.entries.map (fun e => e.2)

/-- The struct `storage.InMemoryStorage`; `minLatest` is a Go `uint` (64 bit).  The
`feeds` map is kept with the feed every pointer points to in place of the pointer;
`InMemoryStorageRef` below keeps the pointers. -/
structure InMemoryStorage where
  feeds : SyncMap Feed
  articles : SyncMap (SyncMap Article)
  minLatest : Nat

/-- Go `NewInMemoryStorage`. -/
def NewInMemoryStorage (maxLatest : Nat) : InMemoryStorage :=
  let maxLatest := if maxLatest = 0 then 10 else maxLatest
  { minLatest := maxLatest, feeds := ∅, articles := ∅ }

/-- Go `(*InMemoryStorage).Store`: the new storage and the returned error (always nil). -/
def InMemoryStorage.Store (s : InMemoryStorage) (feed : Feed) (articles : List Article) :
    InMemoryStorage × Option String :=
  let feeds := s.feeds.insert feed.UUID feed
  let am : SyncMap Article :=
    match s.articles.lookup feed.UUID with
    | some am => am
    | none => ∅
  let am := articles.foldl (fun am a => am.insert a.UUID a) am
  ({ s with feeds := feeds, articles := s.articles.insert feed.UUID am }, none)

/-- Go string comparison `a < b`: lexicographic on the bytes. -/
def stringLess (a b : String) : Bool := decide (utf8Bytes a < utf8Bytes b)

/-- Go `(*InMemoryStorage).Feeds`. -/
def InMemoryStorage.Feeds (s : InMemoryStorage) : Except String (List Feed) :=
  let feeds := s.feeds.values
  .ok (sortSlice (fun a b => stringLess a.Title b.Title) feeds)

/-- Go `n - 1` on `uint`, a 64 bit unsigned integer: it wraps around at zero. -/
def uintPred (n : Nat) : Nat := (n + 2 ^ 64 - 1) % 2 ^ 64

/-- The loop of `latest` over the sorted slice: `articles` is what is left from index `i`
on, `latestArticles` what was appended so far.  `s.minLatest-1` is computed on 64 bit
unsigned integers; `len(latestArticles)` is below `2^63`, so its conversion is exact. -/
def latestLoop (minLatest : Nat) (offset : Time) :
    List Article → List Article → List Article
  | [], latestArticles => latestArticles
  | a :: rest, latestArticles =>
    if !offset.After a.Published then
      latestLoop minLatest offset rest latestArticles
    else
      let latestArticles := latestArticles ++ [a]
      let sameAsNext :=
        match rest with
        | [] => false
        | b :: _ => a.Published.Equal b.Published
      if sameAsNext then
        latestLoop minLatest offset rest latestArticles
      else if latestArticles.length > uintPred minLatest then
        latestArticles
      else
        latestLoop minLatest offset rest latestArticles

/-- Go `(*InMemoryStorage).latest`. -/
def InMemoryStorage.latest (s : InMemoryStorage) (articles : List Article) (offset : Time) :
    Except String (List Article) :=
  let articles := sortSlice (fun a b => a.Published.After b.Published) articles
  .ok (latestLoop s.minLatest offset articles [])

/-- Go `(*InMemoryStorage).Latest`. -/
def InMemoryStorage.Latest (s : InMemoryStorage) (offset : Time) :
    Except String (List Article) :=
  let articles := s.articles.values.flatMap fun am => am.values
  s.latest articles offset

/-- Go `(*InMemoryStorage).LatestFromFeed`. -/
def InMemoryStorage.LatestFromFeed (s : InMemoryStorage) (id : UUID) (offset : Time) :
    Except String (List Article) :=
  match s.articles.lookup id with
  | none => .error "feed not found"
  | some f => s.latest f.values offset

/-- The `Range` of `Article`: the first partition, in `Range` order, that holds `id`. -/
def findArticle (id : UUID) : List (SyncMap Article) → Option Article
  | [] => none
  | am :: rest =>
    match am.lookup id with
    | some a => some a
    | none => findArticle id rest

/-- Go `(*InMemoryStorage).Article`. -/
def InMemoryStorage.Article (s : InMemoryStorage) (id : UUID) : Except String Article :=
  match findArticle id s.articles.values with
  | none => .error "article not found"
  | some article => .ok article

/-- Equality of Go results `(value, error)` can be decided. -/
instance instDecidableEqExcept {ε α : Type} [DecidableEq ε] [DecidableEq α] :
    DecidableEq (Except ε α)
  | .ok a, .ok b =>
    if h : a = b then isTrue (by rw [h]) else isFalse (by intro h2; cases h2; exact h rfl)
  | .error a, .error b =>
    if h : a = b then isTrue (by rw [h]) else isFalse (by intro h2; cases h2; exact h rfl)
  | .ok _, .error _ => isFalse (by intro h; cases h)
  | .error _, .ok _ => isFalse (by intro h; cases h)

/-- The storage after the `Store` calls `calls`, made in that order on the storage
`NewInMemoryStorage maxLatest`; each call is given by its feed and its articles. -/
def storageAfter (maxLatest : Nat) (calls : List (Feed × List Article)) : InMemoryStorage :=
  calls.foldl (fun s c => (s.Store c.1 c.2).1) (NewInMemoryStorage maxLatest)

/-! ## The pagination rule in the words of the specification -/

/-- The order `sortSlice` leaves the articles in: later ones first. -/
abbrev PublishedDesc (a b : Article) : Prop := (b.Published.After a.Published) = false

/-- The articles published strictly before `offset`, in descending order of publication. -/
def eligibleDesc (articles : List Article) (offset : Time) : List Article :=
  (sortSlice (fun a b => a.Published.After b.Published) articles).filter
    (fun a => offset.After a.Published)

/-- The stop rule of the specification, over the eligible articles in descending order:
append; after each append stop if the result is longer than `threshold` and the next
candidate is published at another instant; the end of the list stops as well. -/
def stopRule (threshold : Nat) : List Article → List Article → List Article
  | [], result => result
  | a :: rest, result =>
    let result := result ++ [a]
    match rest with
    | [] => result
    | next :: _ =>
      if threshold < result.length ∧ next.Published ≠ a.Published then result
      else stopRule threshold rest result

/-- The stop condition of the rule after `k` articles of `eligible` were appended to a
result that held `base` articles: there is a next candidate, the result is longer than
`threshold`, and the next candidate is published at another instant than the last one. -/
def StopsAfter (threshold base : Nat) (eligible : List Article) (k : Nat) : Prop :=
  0 < k ∧ k < eligible.length ∧ threshold < base + k ∧
    (eligible.get? k).map Article.Published ≠ (eligible.get? (k - 1)).map Article.Published

/-! ## The storage of `internal/api/api_test.go` -/

/-- An article as `newTestAPI` builds them: no GUID, no image. -/
def mockArticle (link : String) (published : Time) (title description : String) : Article :=
  { GUID := "", Link := link, Published := published, Title := title,
    Description := description, Image := none }

/-- The instant 2010-01-01T01:01:01Z, in seconds since the Unix epoch. -/
def t2010 : Time := 1262307661

/-- The instant 2020-01-01T01:01:01Z, in seconds since the Unix epoch. -/
def t2020 : Time := 1577840461

/-- Article 1 of the first mock feed. -/
def mockArticle11 : Article :=
  mockArticle "https://mock.local/article/1" t2010 "Article 1" "This is the first article"

/-- Article 2 of the first mock feed. -/
def mockArticle12 : Article :=
  mockArticle "https://mock.local/article/2" t2020 "Article 2" "This is the second article"

/-- Article 1 of the second mock feed. -/
def mockArticle21 : Article :=
  mockArticle "https://mock2.local/article/1" (t2010 + 1) "Article 1"
    "This is the first article in second feed"

/-- Article 2 of the second mock feed. -/
def mockArticle22 : Article :=
  mockArticle "https://mock2.local/article/2" (t2020 + 1) "Article 2"
    "This is the second article in second feed"

/-- The first mock feed. -/
def mockFeed1 : Feed :=
  { FeedLink := "https://mock.local", ModifiedAt := zeroTime, Title := "Mock Feed",
    Link := "https://mock.local" }

/-- The second mock feed. -/
def mockFeed2 : Feed :=
  { FeedLink := "https://mock2.local", ModifiedAt := zeroTime, Title := "Mock Feed 2",
    Link := "https://mock2.local" }

/-- The four articles of the mock feeds. -/
def mockArticles : List Article := [mockArticle11, mockArticle12, mockArticle21, mockArticle22]

/-- The storage `newTestAPI(t, latest)` builds: two feeds of two articles each. -/
def mockStorage (latest : Nat) : InMemoryStorage :=
  (((NewInMemoryStorage latest).Store mockFeed1 [mockArticle11, mockArticle12]).1.Store
    mockFeed2 [mockArticle21, mockArticle22]).1

/-! ## The feed objects and the storage that points to them

`Store` is given a `*feed.Feed` and keeps the pointer, and the reader writes to the feed
object afterwards.  `InMemoryStorage` above holds every feed by value: it is the storage as
a caller reads it at one instant.  Next to the reader the `feeds` map holds addresses, and
the feed objects live in a heap. -/

/-- A `*feed.Feed`: the address of a feed object. -/
abbrev FeedPtr := Nat

/-- The feed objects of the program: what every `*feed.Feed` points to. -/
abbrev Heap := FeedPtr → Feed

/-- The heap after a write to the feed object at `p`, which becomes `f`. -/
def Heap.write (heap : Heap) (p : FeedPtr) (f : Feed) : Heap :=
  fun q => if q = p then f else heap q

/-- A `sync.Map` with every value replaced by what `g` makes of it, under the same key. -/
def SyncMap.mapValues {V W : Type} (g : V → W) (m : SyncMap V) : SyncMap W :=
  ⟨m.entries.map (fun e => ⟨e.1, g e.2⟩), by
    have h := m.nodupKeys
    unfold List.NodupKeys at h ⊢
    have hk : (m.entries.map (fun e => (⟨e.1, g e.2⟩ : Sigma (fun _ : UUID => W)))).keys
        = m.entries.keys := by
      simp [List.keys, List.map_map, Function.comp_def]
    rw [hk]
    exact h⟩

/-- The struct `storage.InMemoryStorage` with its `feeds` map as `Store` fills it: the
values are the `*feed.Feed` it was given.  The articles are built by the reader for one
`Store` call and nothing writes to them afterwards, so they are held by value. -/
structure InMemoryStorageRef where
  feeds : SyncMap FeedPtr
  articles : SyncMap (SyncMap Article)
  minLatest : Nat

/-- Go `NewInMemoryStorage`, for the storage that holds pointers. -/
def NewInMemoryStorageRef (maxLatest : Nat) : InMemoryStorageRef :=
  let maxLatest := if maxLatest = 0 then 10 else maxLatest
  { minLatest := maxLatest, feeds := ∅, articles := ∅ }

/-- Go `(*InMemoryStorage).Store`: `feed.UUID()` reads the feed object, the `feeds` map
keeps the pointer.  The new storage and the returned error (always nil). -/
def InMemoryStorageRef.Store (s : InMemoryStorageRef) (heap : Heap) (feed : FeedPtr)
    (articles : List Article) : InMemoryStorageRef × Option String :=
  let feeds := s.feeds.insert (heap feed).UUID feed
  let am : SyncMap Article :=
    match s.articles.lookup (heap feed).UUID with
    | some am => am
    | none => ∅
  let am := articles.foldl (fun am a => am.insert a.UUID a) am
  ({ s with feeds := feeds, articles := s.articles.insert (heap feed).UUID am }, none)

/-- Go `(*InMemoryStorage).Feeds`: the pointers held, sorted by the titles the feed objects
have when it is called. -/
def InMemoryStorageRef.Feeds (s : InMemoryStorageRef) (heap : Heap) :
    Except String (List FeedPtr) :=
  let feeds := s.feeds.values
  .ok (sortSlice (fun a b => stringLess (heap a).Title (heap b).Title) feeds)

/-- Go `(*InMemoryStorage).latest`, for the storage that holds pointers. -/
def InMemoryStorageRef.latest (s : InMemoryStorageRef) (articles : List Article)
    (offset : Time) : Except String (List Article) :=
  let articles := sortSlice (fun a b => a.Published.After b.Published) articles
  .ok (latestLoop s.minLatest offset articles [])

/-- Go `(*InMemoryStorage).Latest`, for the storage that holds pointers. -/
def InMemoryStorageRef.Latest (s : InMemoryStorageRef) (offset : Time) :
    Except String (List Article) :=
  let articles := s.articles.values.flatMap fun am => am.values
  s.latest articles offset

/-- Go `(*InMemoryStorage).LatestFromFeed`, for the storage that holds pointers. -/
def InMemoryStorageRef.LatestFromFeed (s : InMemoryStorageRef) (id : UUID) (offset : Time) :
    Except String (List Article) :=
  match s.articles.lookup id with
  | none => .error "feed not found"
  | some f => s.latest f.values offset

/-- Go `(*InMemoryStorage).Article`, for the storage that holds pointers. -/
def InMemoryStorageRef.Article (s : InMemoryStorageRef) (id : UUID) : Except String Article :=
  match findArticle id s.articles.values with
  | none => .error "article not found"
  | some article => .ok article

/-- The storage as a caller reads it while the feed objects are as in `heap`: every pointer
of the `feeds` map replaced by the feed object it points to. -/
def InMemoryStorageRef.deref (s : InMemoryStorageRef) (heap : Heap) : InMemoryStorage :=
  { feeds := SyncMap.mapValues heap s.feeds, articles := s.articles, minLatest := s.minLatest }

/-! ## The storage interface -/

/-- The interface `storage.Storage`: the methods of an implementation whose state has
type `σ`.  A method is given the state, and the heap when it takes or returns a
`*feed.Feed`; when it writes it returns the new state.  An implementation may keep the
pointers it is given; it does not write to a feed object. -/
structure Storage (σ : Type) where
  Store : σ → Heap → FeedPtr → List Article → σ × Option String
  Feeds : σ → Heap → Except String (List FeedPtr)
  Latest : σ → Time → Except String (List Article)
  LatestFromFeed : σ → UUID → Time → Except String (List Article)
  Article : σ → UUID → Except String Article

/-- The implementation `*InMemoryStorage` of `storage.Storage`. -/
def inMemoryStorage : Storage InMemoryStorageRef :=
  { Store := InMemoryStorageRef.Store
    Feeds := InMemoryStorageRef.Feeds
    Latest := InMemoryStorageRef.Latest
    LatestFromFeed := InMemoryStorageRef.LatestFromFeed
    Article := InMemoryStorageRef.Article }

/-! ## internal/reader/reader.go -/

/-- Go `time.Duration`: a signed 64 bit count of nanoseconds. -/
abbrev Duration := Int

/-- Go `time.Second`. -/
def Second : Duration := 1000000000

/-- The value a signed 64 bit integer takes after an arithmetic operation: the result
modulo `2^64`, in the range from `-2^63` to `2^63 - 1`. -/
def wrapInt64 (x : Int) : Int := (x + 2 ^ 63) % 2 ^ 64 - 2 ^ 63

/-- The values of type `error` the reader handles: its sentinel `ErrNotModified`,
`gofeed.HTTPError`, and every other error, kept by its message. -/
inductive Error where
  | ErrNotModified
  | HTTPError (StatusCode : Int) (Status : String)
  | other (msg : String)
deriving DecidableEq, Repr

/-- An `*http.Client`, kept as an opaque value: what a client answers is an input of
`getFeedContent`. -/
structure HTTPClient where
  name : String
deriving DecidableEq, Repr

/-- The struct `reader.Reader`.  `s` is the storage interface value, `c` a pointer (nil
before an option sets it), `workers` a Go `uint`.  The parser `p`, which has no state the
reader reads, and the unused field `f` are left out. -/
structure Reader (σ : Type) where
  s : Storage σ
  c : Option HTTPClient
  workers : Nat
  retry : Duration
  retryNotModified : Duration
  retryAfterError : Duration

/-- Go `type Option func(*Reader)`. -/
abbrev ReaderOption (σ : Type) := Reader σ → Reader σ

/-- Go `WithHTTPClient`. -/
def WithHTTPClient {σ : Type} (client : HTTPClient) : ReaderOption σ :=
  fun reader => { reader with c := some client }

/-- Go `WithWorkers`; `workers` is a `uint`. -/
def WithWorkers {σ : Type} (workers : Nat) : ReaderOption σ :=
  fun reader =>
    if workers ≤ 0 then { reader with workers := 1 } else { reader with workers := workers }

/-- Go `WithRetryDuration`. -/
def WithRetryDuration {σ : Type} (retry : Duration) : ReaderOption σ :=
  fun reader => { reader with retry := retry }

/-- Go `WithRetryNotModifiedDuration`. -/
def WithRetryNotModifiedDuration {σ : Type} (retry : Duration) : ReaderOption σ :=
  fun reader => { reader with retryNotModified := retry }

/-- Go `WithRetryAfterErrorDuration`. -/
def WithRetryAfterErrorDuration {σ : Type} (retry : Duration) : ReaderOption σ :=
  fun reader => { reader with retryAfterError := retry }

/-- The client `&http.Client{}`. -/
def defaultHTTPClient : HTTPClient := { name := "http.Client{}" }

/-- Go `NewReader`: the zero reader over `s`, then the default options, then the given
ones, applied in that order. -/
def NewReader {σ : Type} (s : Storage σ) (options : List (ReaderOption σ)) : Reader σ :=
  let r : Reader σ :=
    { s := s, c := none, workers := 0, retry := 0, retryNotModified := 0, retryAfterError := 0 }
  let defaultOptions : List (ReaderOption σ) :=
    [ WithWorkers 8,
      WithHTTPClient defaultHTTPClient,
      WithRetryDuration (60 * Second),
      WithRetryNotModifiedDuration (120 * Second),
      WithRetryAfterErrorDuration (300 * Second) ]
  (defaultOptions ++ options).foldl (fun r opt => opt r) r

/-- The struct `reader.queuedFeed`; `f` is a `*feed.Feed`. -/
structure queuedFeed where
  f : FeedPtr
  d : Duration
deriving DecidableEq, Repr

/-- Go `newQueuedFeed`. -/
def newQueuedFeed (f : FeedPtr) (d : Duration) : queuedFeed := { f := f, d := d }

/-- The struct `ext.Extension` of gofeed, with the field the reader reads; a Go map is
kept as the list of its entries. -/
structure GofeedExtension where
  Attrs : List (String × String)
deriving DecidableEq, Repr

/-- The struct `gofeed.Image`. -/
structure GofeedImage where
  URL : String
  Title : String
deriving DecidableEq, Repr

/-- The struct `gofeed.Item`, with the fields the reader reads; `PublishedParsed` and
`Image` are pointers, `Extensions` a map of maps of slices. -/
structure GofeedItem where
  GUID : String
  Title : String
  Description : String
  Link : String
  PublishedParsed : Option Time
  Image : Option GofeedImage
  Extensions : List (String × List (String × List GofeedExtension))
deriving DecidableEq, Repr

/-- The struct `gofeed.Feed`, with the fields the reader reads. -/
structure GofeedFeed where
  Title : String
  Link : String
  Items : List GofeedItem
deriving DecidableEq, Repr

/-- The struct `reader.cachedParsedFeed`; `f` is a pointer. -/
structure cachedParsedFeed where
  f : Option GofeedFeed
  d : Duration
deriving DecidableEq, Repr

/-- The body of the loop of `mapParsedFeedToFeedAndArticles`: the article of one item. -/
def mapItem (a : GofeedItem) : Article :=
  let published := match a.PublishedParsed with
    | some t => t
    | none => zeroTime
  let article : Article :=
    { GUID := a.GUID, Published := published, Title := a.Title,
      Description := a.Description, Link := a.Link, Image := none }
  match a.Image with
  | some image => { article with Image := some { Title := image.Title, URL := image.URL } }
  | none =>
    match a.Extensions.lookup "media" with
    | some media =>
      match media.lookup "thumbnail" with
      | some thumb =>
        match thumb with
        | first :: _ =>
          match first.Attrs.lookup "url" with
          | some url => { article with Image := some { Title := "Thumbnail", URL := url } }
          | none => article
        | [] => article
      | none => article
    | none => article

/-- Go `(*Reader).mapParsedFeedToFeedAndArticles`. -/
def mapParsedFeedToFeedAndArticles (pf : GofeedFeed) (f : Feed) : Feed × List Article :=
  let f := { f with Title := pf.Title, Link := pf.Link }
  (f, pf.Items.map mapItem)

/-- The struct `cacheobject.ResponseCacheDirectives`, with the field the reader reads:
`MaxAge` is a 32 bit count of seconds, `-1` when the header has no `max-age`. -/
structure Directives where
  MaxAge : Int
deriving DecidableEq, Repr

/-- What `getFeedContent` reads of an `*http.Response`: the status, what
`cacheobject.ParseResponseCacheControl` makes of its `Cache-Control` header, what the
parser makes of its body, and what `Body.Close()` returns. -/
structure Response where
  StatusCode : Int
  Status : String
  cacheControl : Except Error Directives
  parse : Except Error GofeedFeed
  close : Option Error
deriving Repr

/-- Go `(*Reader).getFeedContent`.  `newRequest` is the error of
`http.NewRequestWithContext`, `doResult` what `r.c.Do(req)` returns.  The deferred function
replaces the returned error by the error of `Body.Close()` when there is one. -/
def Reader.getFeedContent {σ : Type} (r : Reader σ) (_f : Feed) (newRequest : Option Error)
    (doResult : Except Error Response) : cachedParsedFeed × Option Error :=
  let feed : cachedParsedFeed := { f := none, d := r.retryAfterError }
  match newRequest with
  | some err => (feed, some err)
  | none =>
    match doResult with
    | .error err => (feed, some err)
    | .ok resp =>
      let deferred := fun (res : cachedParsedFeed × Option Error) =>
        match resp.close with
        | some ce => (res.1, some ce)
        | none => res
      let feed :=
        match resp.cacheControl with
        | .ok directives =>
          if directives.MaxAge > 0 then
            { feed with d := wrapInt64 (Second * directives.MaxAge) }
          else
            { feed with d := r.retry }
        | .error _ => feed
      if resp.StatusCode < 200 ∨ resp.StatusCode ≥ 300 then
        if resp.StatusCode = 304 then
          let feed := if r.retryNotModified > feed.d then
            { feed with d := r.retryNotModified } else feed
          deferred (feed, some Error.ErrNotModified)
        else
          deferred (feed, some (Error.HTTPError resp.StatusCode resp.Status))
      else
        match resp.parse with
        | .ok pf => deferred ({ feed with f := some pf }, none)
        | .error err => deferred ({ feed with f := none }, some err)

/-- What one iteration of the loop of a worker of `Update` does: the feed objects after
the iteration, the storage after it, the `Store` calls made, what it sends on `queuedChan`
and what it sends on `errChan`, each in order. -/
structure WorkerResult (σ : Type) where
  heap : Heap
  storage : σ
  stored : List (FeedPtr × List Article)
  queued : List queuedFeed
  errors : List Error

/-- The body of the loop of a worker of `Update`, after the context was found open:
fetch, stamp, map, store, queue again.  `f` is the `*feed.Feed` received; the stamp
`f.ModifiedAt = time.Now()` and the writes of `mapParsedFeedToFeedAndArticles` go to the
feed object it points to.  `now` is what `time.Now()` returns.  The result is `none` when
the iteration would dereference a nil parsed feed. -/
def Reader.processFeed {σ : Type} (r : Reader σ) (storage : σ) (heap : Heap) (f : FeedPtr)
    (newRequest : Option Error) (doResult : Except Error Response) (now : Time) :
    Option (WorkerResult σ) :=
  let (cf, err) := r.getFeedContent (heap f) newRequest doResult
  let heap := Heap.write heap f { heap f with ModifiedAt := now }
  match err with
  | some err =>
    some { heap := heap, storage := storage, stored := [], queued := [newQueuedFeed f cf.d],
           errors := [err] }
  | none =>
    match cf.f with
    | none => none
    | some pf =>
      let (mapped, articles) := mapParsedFeedToFeedAndArticles pf (heap f)
      let heap := Heap.write heap f mapped
      match r.s.Store storage heap f articles with
      | (storage, some err) =>
        some { heap := heap, storage := storage, stored := [(f, articles)],
               queued := [newQueuedFeed f cf.d], errors := [Error.other err] }
      | (storage, none) =>
        some { heap := heap, storage := storage, stored := [(f, articles)],
               queued := [newQueuedFeed f cf.d], errors := [] }

/-! ## internal/middleware/uuid.go and internal/api/api.go -/

/-- What a handler writes: the body of a response, a value encoded as JSON or, from the
router, a plain text. -/
inductive Body where
  | feeds (feeds : List Feed)
  | articles (articles : List Article)
  | article (article : Article)
  | message (Message : String)
  | text (text : String)
deriving DecidableEq, Repr

/-- What a handler leaves in the `http.ResponseWriter`: the status and the body. -/
structure HTTPResponse where
  code : Nat
  body : Body
deriving DecidableEq, Repr

/-- Go `http.StatusOK`. -/
def StatusOK : Nat := 200

/-- Go `http.StatusBadRequest`. -/
def StatusBadRequest : Nat := 400

/-- Go `http.StatusNotFound`. -/
def StatusNotFound : Nat := 404

/-- Go `http.StatusInternalServerError`. -/
def StatusInternalServerError : Nat := 500

/-- Go `response.WithMessage`: the status, then the message as the body. -/
def WithMessage (status : Nat) (message : String) : HTTPResponse :=
  { code := status, body := Body.message message }

/-- A request `GET /article/...` or `GET /latest/...` as the router and the handlers read
it: `uuid` is the rest of the path after the second slash, which the router binds to the
parameter `{uuid}` of the pattern when it matches, and `offset` the `offset` parameter of
the query as `time.Parse(OffsetTimeFormat, offset)` returns it. -/
structure Request where
  uuid : String
  offset : Except Error Time

/-- Go `http.NotFound`, what the router answers to a request no pattern matches. -/
def NotFound : HTTPResponse :=
  { code := StatusNotFound, body := Body.text "404 page not found\n" }

/-- Whether the parameter `{uuid}` of a pattern of the router matches the rest of the
path: a parameter stands for one path segment that is not empty. -/
def matchesParam (segment : String) : Bool :=
  decide (segment ≠ "") && !segment.data.contains '/'

/-- Go `middleware.UUID`: the value the context holds under `uuidKey` when the handler
runs, given `uuid.Parse`; nothing when the parameter does not parse. -/
def middlewareUUID (parse : String → Except Error UUID) (r : Request) : Option UUID :=
  match parse r.uuid with
  | .ok u => some u
  | .error _ => none

/-- Go `middleware.UUIDFromContext`, on the value the context holds under `uuidKey`. -/
def UUIDFromContext (ctx : Option UUID) : Except Error UUID :=
  match ctx with
  | some u => .ok u
  | none => .error (Error.other "no UUID found")

/-- Go `timeOffsetFromRequest`; `now` is what `time.Now()` returns. -/
def timeOffsetFromRequest (r : Request) (now : Time) : Time :=
  match r.offset with
  | .ok t => t
  | .error _ => now

/-- The instant 0000-01-01T00:00:00Z, in seconds since the Unix epoch. -/
def yearZero : Time := -62167219200

/-- The instant 10000-01-01T00:00:00Z, in seconds since the Unix epoch. -/
def year10000 : Time := 253402300800

/-- Go `time.Time.MarshalJSON`: an error when the year is outside [0,9999]; the year is
taken in UTC. -/
def marshalTime (t : Time) : Option Error :=
  if t < yearZero ∨ year10000 ≤ t then
    some (Error.other "Time.MarshalJSON: year outside of range [0,9999]")
  else none

/-- The error of `json.Marshal` on the values the handlers encode: the strings of a feed,
an article or a message always encode, a time only when its year has four digits, and a
slice fails with the error of its first element that fails.  `(*Feed).MarshalJSON` and
`(*Article).MarshalJSON` add the UUID, a string. -/
def jsonEncode : Body → Option Error
  | Body.feeds feeds => (feeds.filterMap fun f => marshalTime f.ModifiedAt).head?
  | Body.articles articles => (articles.filterMap fun a => marshalTime a.Published).head?
  | Body.article article => marshalTime article.Published
  | Body.message _ => none
  | Body.text _ => none

/-- Go `json.NewEncoder(w).Encode(v)` followed by the handling of its error: when
encoding succeeds the value is the body, with the status 200 the first write sets; when
the value cannot be marshalled nothing was written and the handler answers with a
message.  `encode` gives the error of marshalling the value, if any, `jsonEncode` in the
program; a failure of the connection while writing is outside the model. -/
def encodeOr (encode : Body → Option Error) (v : Body) : HTTPResponse :=
  match encode v with
  | none => { code := StatusOK, body := v }
  | some _ => WithMessage StatusInternalServerError "could not generate response"

/-- The struct `api.API` over a storage whose state is `storage`. -/
structure API (σ : Type) where
  s : Storage σ

/-- Go `(*API).Feeds`; the encoder reads the feed objects the pointers point to. -/
def API.Feeds {σ : Type} (a : API σ) (storage : σ) (heap : Heap)
    (encode : Body → Option Error) : HTTPResponse :=
  match a.s.Feeds storage heap with
  | .error _ => WithMessage StatusInternalServerError "could not retrieve feeds"
  | .ok feeds => encodeOr encode (Body.feeds (feeds.map heap))

/-- Go `(*API).Latest`. -/
def API.Latest {σ : Type} (a : API σ) (storage : σ) (encode : Body → Option Error)
    (r : Request) (now : Time) : HTTPResponse :=
  match a.s.Latest storage (timeOffsetFromRequest r now) with
  | .error _ =>
    WithMessage StatusInternalServerError "could not retrieve latest articles from feed"
  | .ok articles => encodeOr encode (Body.articles articles)

/-- Go `(*API).LatestFromFeed`; `ctx` is the value the context holds under `uuidKey`. -/
def API.LatestFromFeed {σ : Type} (a : API σ) (storage : σ) (encode : Body → Option Error)
    (ctx : Option UUID) (r : Request) (now : Time) : HTTPResponse :=
  match UUIDFromContext ctx with
  | .error _ => WithMessage StatusBadRequest "UUID not found"
  | .ok u =>
    match a.s.LatestFromFeed storage u (timeOffsetFromRequest r now) with
    | .error _ =>
      WithMessage StatusInternalServerError "could not retrieve latest articles from feed"
    | .ok articles => encodeOr encode (Body.articles articles)

/-- Go `(*API).Article`; `ctx` is the value the context holds under `uuidKey`. -/
def API.Article {σ : Type} (a : API σ) (storage : σ) (encode : Body → Option Error)
    (ctx : Option UUID) : HTTPResponse :=
  match UUIDFromContext ctx with
  | .error _ => WithMessage StatusBadRequest "UUID not found"
  | .ok u =>
    match a.s.Article storage u with
    | .error _ => WithMessage StatusInternalServerError "could not retrieve article"
    | .ok article => encodeOr encode (Body.article article)

/-- The route `GET /latest/{uuid}` of `NewAPI`: when the pattern matches, the middleware,
then the handler; the answer of the router when it does not. -/
def routeLatestFromFeed {σ : Type} (a : API σ) (storage : σ) (encode : Body → Option Error)
    (parse : String → Except Error UUID) (r : Request) (now : Time) : HTTPResponse :=
  if matchesParam r.uuid then a.LatestFromFeed storage encode (middlewareUUID parse r) r now
  else NotFound

/-- The route `GET /article/{uuid}` of `NewAPI`: when the pattern matches, the middleware,
then the handler; the answer of the router when it does not. -/
def routeArticle {σ : Type} (a : API σ) (storage : σ) (encode : Body → Option Error)
    (parse : String → Except Error UUID) (r : Request) : HTTPResponse :=
  if matchesParam r.uuid then a.Article storage encode (middlewareUUID parse r)
  else NotFound

/-! ## `Update` as a transition system

The goroutines of `Update` and its channels, one step at a time.  Time is not modelled:
a timer may fire at any step.  The context may be cancelled at any step. -/

/-- Where the goroutine that stages the queued feeds stands. -/
inductive DispatcherPC where
  | ranging
  | selecting (qf : queuedFeed)
  | closingErr
  | closingFeed
  | closingQueued
  | returned
deriving DecidableEq, Repr

/-- Where a goroutine that waits for the delay of one queued feed stands. -/
inductive WaiterPC where
  | waiting (qf : queuedFeed)
  | sending (f : FeedPtr)
  | returned
deriving DecidableEq, Repr

/-- Where a worker stands: at `range feedChan`, at the check of the context, inside
`getFeedContent`, at the sends that end an iteration, or returned. -/
inductive WorkerPC where
  | ranging
  | selecting (f : FeedPtr)
  | fetching (f : FeedPtr)
  | sending (queued : List queuedFeed) (errors : List Error)
  | returned
deriving DecidableEq, Repr

/-- The state of a run of `Update`: the context, the three channels (`queuedChan` with
its buffer, `feedChan` and `errChan` unbuffered), what the reader of `errChan` received,
the goroutines, the feed objects, the storage, and whether a goroutine panicked. -/
structure UpdateState (σ : Type) where
  ctxDone : Bool
  queuedChan : List queuedFeed
  queuedCap : Nat
  queuedClosed : Bool
  feedClosed : Bool
  errClosed : Bool
  errors : List Error
  dispatcher : DispatcherPC
  waiters : List WaiterPC
  workers : List WorkerPC
  heap : Heap
  storage : σ
  panicked : Bool

/-- Go `(*Reader).Update` up to its return: the channels made, the feeds queued with the
delay `r.retry`, the staging goroutine and the `r.workers` workers started.  `feeds` is the
slice of `*feed.Feed` given, `heap` the feed objects and `storage` the storage at the call. -/
def Reader.Update {σ : Type} (r : Reader σ) (ctxDone : Bool) (feeds : List FeedPtr)
    (heap : Heap) (storage : σ) : UpdateState σ :=
  { ctxDone := ctxDone
    queuedChan := feeds.map (fun f => newQueuedFeed f r.retry)
    queuedCap := feeds.length
    queuedClosed := false
    feedClosed := false
    errClosed := false
    errors := []
    dispatcher := DispatcherPC.ranging
    waiters := []
    workers := List.replicate r.workers WorkerPC.ranging
    heap := heap
    storage := storage
    panicked := false }

/-- One step of one goroutine of `Update`, or the cancellation of the context. -/
inductive Transition {σ : Type} (r : Reader σ) : UpdateState σ → UpdateState σ → Prop where
  /-- The context is cancelled. -/
  | cancel (s : UpdateState σ) : Transition r s { s with ctxDone := true }
  /-- `for qf := range queuedChan` receives. -/
  | dispatcherReceive (s : UpdateState σ) (qf : queuedFeed) (rest : List queuedFeed) :
      s.dispatcher = DispatcherPC.ranging → s.queuedChan = qf :: rest →
      Transition r s { s with dispatcher := DispatcherPC.selecting qf, queuedChan := rest }
  /-- `range queuedChan` ends: the channel is closed and empty. -/
  | dispatcherRangeEnd (s : UpdateState σ) :
      s.dispatcher = DispatcherPC.ranging → s.queuedChan = [] → s.queuedClosed = true →
      Transition r s { s with dispatcher := DispatcherPC.closingErr }
  /-- The `select` of the staging goroutine takes `<-ctx.Done()`: return. -/
  | dispatcherCancelled (s : UpdateState σ) (qf : queuedFeed) :
      s.dispatcher = DispatcherPC.selecting qf → s.ctxDone = true →
      Transition r s { s with dispatcher := DispatcherPC.closingErr }
  /-- The `select` takes `default`: a waiter is started for the queued feed. -/
  | dispatcherSpawn (s : UpdateState σ) (qf : queuedFeed) :
      s.dispatcher = DispatcherPC.selecting qf → s.ctxDone = false →
      Transition r s { s with dispatcher := DispatcherPC.ranging,
                              waiters := s.waiters ++ [WaiterPC.waiting qf] }
  /-- The deferred `close(errChan)`. -/
  | dispatcherCloseErr (s : UpdateState σ) :
      s.dispatcher = DispatcherPC.closingErr →
      Transition r s { s with dispatcher := DispatcherPC.closingFeed, errClosed := true }
  /-- The deferred `close(feedChan)`. -/
  | dispatcherCloseFeed (s : UpdateState σ) :
      s.dispatcher = DispatcherPC.closingFeed →
      Transition r s { s with dispatcher := DispatcherPC.closingQueued, feedClosed := true }
  /-- The deferred `close(queuedChan)`. -/
  | dispatcherCloseQueued (s : UpdateState σ) :
      s.dispatcher = DispatcherPC.closingQueued →
      Transition r s { s with dispatcher := DispatcherPC.returned, queuedClosed := true }
  /-- The `select` of a waiter takes `<-ctx.Done()`: return. -/
  | waiterCancelled (s : UpdateState σ) (i : Nat) (qf : queuedFeed) :
      s.waiters.get? i = some (WaiterPC.waiting qf) → s.ctxDone = true →
      Transition r s { s with waiters := s.waiters.set i WaiterPC.returned }
  /-- The `select` of a waiter takes the timer. -/
  | waiterFired (s : UpdateState σ) (i : Nat) (qf : queuedFeed) :
      s.waiters.get? i = some (WaiterPC.waiting qf) →
      Transition r s { s with waiters := s.waiters.set i (WaiterPC.sending qf.f) }
  /-- `feedChan <- qf.f` on the closed channel panics. -/
  | waiterSendClosed (s : UpdateState σ) (i : Nat) (f : FeedPtr) :
      s.waiters.get? i = some (WaiterPC.sending f) → s.feedClosed = true →
      Transition r s { s with panicked := true }
  /-- `feedChan <- qf.f` meets the `range feedChan` of a worker. -/
  | handOver (s : UpdateState σ) (i j : Nat) (f : FeedPtr) :
      s.waiters.get? i = some (WaiterPC.sending f) → s.feedClosed = false →
      s.workers.get? j = some WorkerPC.ranging →
      Transition r s { s with waiters := s.waiters.set i WaiterPC.returned,
                              workers := s.workers.set j (WorkerPC.selecting f) }
  /-- `range feedChan` of a worker ends: the channel is closed. -/
  | workerRangeEnd (s : UpdateState σ) (j : Nat) :
      s.workers.get? j = some WorkerPC.ranging → s.feedClosed = true →
      Transition r s { s with workers := s.workers.set j WorkerPC.returned }
  /-- The `select` of a worker takes `<-ctx.Done()`: return. -/
  | workerCancelled (s : UpdateState σ) (j : Nat) (f : FeedPtr) :
      s.workers.get? j = some (WorkerPC.selecting f) → s.ctxDone = true →
      Transition r s { s with workers := s.workers.set j WorkerPC.returned }
  /-- The `select` of a worker takes `default`: it enters `getFeedContent`. -/
  | workerFetch (s : UpdateState σ) (j : Nat) (f : FeedPtr) :
      s.workers.get? j = some (WorkerPC.selecting f) → s.ctxDone = false →
      Transition r s { s with workers := s.workers.set j (WorkerPC.fetching f) }
  /-- The fetch ends; the worker stamps the feed, maps and stores what was parsed. -/
  | workerProcessed (s : UpdateState σ) (j : Nat) (f : FeedPtr) (newRequest : Option Error)
      (doResult : Except Error Response) (now : Time) (res : WorkerResult σ) :
      s.workers.get? j = some (WorkerPC.fetching f) →
      r.processFeed s.storage s.heap f newRequest doResult now = some res →
      Transition r s { s with heap := res.heap, storage := res.storage,
                              workers := s.workers.set j (WorkerPC.sending res.queued res.errors) }
  /-- The fetch ends without an error and without a parsed feed: nil dereference. -/
  | workerNilFeed (s : UpdateState σ) (j : Nat) (f : FeedPtr) (newRequest : Option Error)
      (doResult : Except Error Response) (now : Time) :
      s.workers.get? j = some (WorkerPC.fetching f) →
      r.processFeed s.storage s.heap f newRequest doResult now = none →
      Transition r s { s with panicked := true }
  /-- `queuedChan <- newQueuedFeed(f, cf.d)` when the buffer has room. -/
  | workerQueue (s : UpdateState σ) (j : Nat) (qf : queuedFeed) (queued : List queuedFeed)
      (errors : List Error) :
      s.workers.get? j = some (WorkerPC.sending (qf :: queued) errors) →
      s.queuedClosed = false → s.queuedChan.length < s.queuedCap →
      Transition r s { s with queuedChan := s.queuedChan ++ [qf],
                              workers := s.workers.set j (WorkerPC.sending queued errors) }
  /-- `queuedChan <- newQueuedFeed(f, cf.d)` on the closed channel panics. -/
  | workerQueueClosed (s : UpdateState σ) (j : Nat) (qf : queuedFeed)
      (queued : List queuedFeed) (errors : List Error) :
      s.workers.get? j = some (WorkerPC.sending (qf :: queued) errors) →
      s.queuedClosed = true →
      Transition r s { s with panicked := true }
  /-- `errChan <- err` meets the receive of the caller. -/
  | workerEmit (s : UpdateState σ) (j : Nat) (err : Error) (errors : List Error) :
      s.workers.get? j = some (WorkerPC.sending [] (err :: errors)) → s.errClosed = false →
      Transition r s { s with errors := s.errors ++ [err],
                              workers := s.workers.set j (WorkerPC.sending [] errors) }
  /-- `errChan <- err` on the closed channel panics. -/
  | workerEmitClosed (s : UpdateState σ) (j : Nat) (err : Error) (errors : List Error) :
      s.workers.get? j = some (WorkerPC.sending [] (err :: errors)) → s.errClosed = true →
      Transition r s { s with panicked := true }
  /-- The iteration of a worker ends: back to `range feedChan`. -/
  | workerContinue (s : UpdateState σ) (j : Nat) :
      s.workers.get? j = some (WorkerPC.sending [] []) →
      Transition r s { s with workers := s.workers.set j WorkerPC.ranging }

/-- A step of a run of `Update`: a transition of a program that has not panicked. -/
def Step {σ : Type} (r : Reader σ) (s s2 : UpdateState σ) : Prop :=
  s.panicked = false ∧ Transition r s s2

/-- The states a run of `Update` goes through, from the state `Update` returns in. -/
def Reachable {σ : Type} (r : Reader σ) (ctxDone : Bool) (feeds : List FeedPtr)
    (heap : Heap) (storage : σ) (s : UpdateState σ) : Prop :=
  Relation.ReflTransGen (Step r) (r.Update ctxDone feeds heap storage) s

/-- How many steps of the staging goroutine are left before `errChan` is closed, on its
way to returning. -/
def stepsToClose {σ : Type} (s : UpdateState σ) : Nat :=
  match s.dispatcher with
  | DispatcherPC.ranging => 3
  | DispatcherPC.selecting _ => 2
  | DispatcherPC.closingErr => 1
  | _ => 0

/-! ## Notions of the specification about the reader -/

/-- The options the package offers: the values of the five `With...` functions. -/
inductive IsOption {σ : Type} : ReaderOption σ → Prop where
  | httpClient (client : HTTPClient) : IsOption (WithHTTPClient client)
  | workers (workers : Nat) : IsOption (WithWorkers workers)
  | retry (retry : Duration) : IsOption (WithRetryDuration retry)
  | retryNotModified (retry : Duration) : IsOption (WithRetryNotModifiedDuration retry)
  | retryAfterError (retry : Duration) : IsOption (WithRetryAfterErrorDuration retry)

/-- The delay the specification derives from a response: `max-age` seconds when the
`Cache-Control` header yields a positive `max-age`, else `retry`; `retry_after_error` when
the header fails to parse. -/
def responseDelay {σ : Type} (r : Reader σ) (resp : Response) : Duration :=
  match resp.cacheControl with
  | .ok directives => if 0 < directives.MaxAge then directives.MaxAge * Second else r.retry
  | .error _ => r.retryAfterError

/-- The feed objects after an iteration of a worker on `f` that ends in an error of the
fetch: the object `f` points to is stamped, nothing else is written. -/
def stampedHeap (heap : Heap) (f : FeedPtr) (now : Time) : Heap :=
  Heap.write heap f { heap f with ModifiedAt := now }

/-- The feed objects after an iteration of a worker on `f` that fetched `pf`: the object
`f` points to is stamped and takes its title and its link from `pf`. -/
def mappedHeap (heap : Heap) (f : FeedPtr) (now : Time) (pf : GofeedFeed) : Heap :=
  Heap.write heap f { heap f with ModifiedAt := now, Title := pf.Title, Link := pf.Link }

/-- The `Cache-Control` directives of a response have a `max-age` that fits the 32 bit
type `DeltaSeconds` of `cacheobject`. -/
def MaxAgeInRange (resp : Response) : Prop :=
  ∀ directives, resp.cacheControl = .ok directives →
    -(2 ^ 31) ≤ directives.MaxAge ∧ directives.MaxAge < 2 ^ 31

/-- The feed objects of `newTestAPI`: the first mock feed at address 0, the second one
at the other addresses. -/
def mockHeap : Heap := fun p => if p = 0 then mockFeed1 else mockFeed2

/-- The storage `newTestAPI(t, latest)` builds, holding the pointers it was given. -/
def mockStorageRef (latest : Nat) : InMemoryStorageRef :=
  (((NewInMemoryStorageRef latest).Store mockHeap 0 [mockArticle11, mockArticle12]).1.Store
    mockHeap 1 [mockArticle21, mockArticle22]).1

/-- The instant -0100-01-01T00:00:00Z, a hundred years before the year 0, in seconds since
the Unix epoch. -/
def tAncient : Time := -65322892800

/-- An article as `newTestAPI` builds them, dated before the year 0. -/
def ancientArticle : Article :=
  mockArticle "https://mock.local/article/3" tAncient "Article 3" "This is the third article"

/-- The storage of `newTestAPI` after one more `Store` call, which gives the first mock
feed an article dated before the year 0. -/
def ancientStorage : InMemoryStorageRef :=
  ((mockStorageRef 4).Store mockHeap 0 [ancientArticle]).1

/-- The API of `newTestAPI`, over the in-memory storage. -/
def mockAPI : API InMemoryStorageRef := { s := inMemoryStorage }

/-- The reader `NewReader(s)` of the tests, over the in-memory storage. -/
def mockReader : Reader InMemoryStorageRef := NewReader inMemoryStorage []

/-- The feed of `TestReader_getFeedContent`. -/
def rssFeed : Feed :=
  { FeedLink := "http://rss.local", ModifiedAt := zeroTime, Title := "", Link := "" }

/-- The second feed of `TestReader_Update_ConcurrentWorkers`. -/
def rss2Feed : Feed :=
  { FeedLink := "https://rss2.local", ModifiedAt := zeroTime, Title := "", Link := "" }

/-- The feed objects of the runs below: the feed of the tests at address 0, the second
feed at the other addresses. -/
def rssHeap : Heap := fun p => if p = 0 then rssFeed else rss2Feed

/-- The storage at the call of `Update` in `cmd/reader` and in
`TestReader_Update_ClosedWithContext`: it was given the feed object, with no article, and
`Update` is given the pointers `Feeds` returns. -/
def rssStorage : InMemoryStorageRef := ((NewInMemoryStorageRef 10).Store rssHeap 0 []).1

/-- What gofeed parses of the body of the test `successful feed`. -/
def w3schoolsFeed : GofeedFeed :=
  { Title := "W3Schools Home Page"
    Link := "https://www.w3schools.com"
    Items :=
      [ { GUID := "", Title := "RSS Tutorial", Description := "New RSS tutorial on W3Schools",
          Link := "https://www.w3schools.com/xml/xml_rss.asp", PublishedParsed := none,
          Image := none, Extensions := [] },
        { GUID := "", Title := "XML Tutorial", Description := "New XML tutorial on W3Schools",
          Link := "https://www.w3schools.com/xml", PublishedParsed := none, Image := none,
          Extensions := [("media", [("thumbnail", [{ Attrs := [("url", "http://image")] }])])] } ] }

/-- A response with status 200 and no `Cache-Control` header, its body parsed as `parse`. -/
def response200 (parse : Except Error GofeedFeed) : Response :=
  { StatusCode := 200, Status := "200 OK", cacheControl := .ok { MaxAge := -1 },
    parse := parse, close := none }

/-- A response with status 200 and the header `Cache-Control: max-age=123`, whose body
parses as the feed of the tests and whose `Close` fails. -/
def responseCloseFails : Response :=
  { StatusCode := 200, Status := "200 OK", cacheControl := .ok { MaxAge := 123 },
    parse := .ok w3schoolsFeed, close := some (Error.other "close failed") }

/-- A response with status 304 and no `Cache-Control` header, whose `Close` fails. -/
def response304CloseFails : Response :=
  { StatusCode := 304, Status := "304 Not Modified", cacheControl := .ok { MaxAge := -1 },
    parse := .error (Error.other "EOF"), close := some (Error.other "close failed") }

/-- A response with status 200 whose `Cache-Control` header does not parse (such as
`max-age=abc`), whose body parses as the feed of the tests and closes without error. -/
def responseBadCacheControl : Response :=
  { StatusCode := 200, Status := "200 OK",
    cacheControl := .error (Error.other "Failed to parse delta-seconds in max-age"),
    parse := .ok w3schoolsFeed, close := none }

/-- A response with status 304 and no `Cache-Control` header. -/
def response304 : Response :=
  { StatusCode := 304, Status := "304 Not Modified", cacheControl := .ok { MaxAge := -1 },
    parse := .error (Error.other "EOF"), close := none }

/-- A response with status 500 and no `Cache-Control` header. -/
def response500 : Response :=
  { StatusCode := 500, Status := "500 Internal Server Error",
    cacheControl := .ok { MaxAge := -1 }, parse := .error (Error.other "EOF"),
    close := none }

/-- What holds all along a run of `Update` started with a cancelled context over the
feed objects `heap` and the storage `storage`: no waiter, idle workers, no error received,
no panic, the feed objects and the storage untouched, and `errChan` open exactly as long as
the staging goroutine has not closed it. -/
def CancelledRun {σ : Type} (heap : Heap) (storage : σ) (s : UpdateState σ) : Prop :=
  s.ctxDone = true ∧ s.waiters = [] ∧
  (∀ w ∈ s.workers, w = WorkerPC.ranging ∨ w = WorkerPC.returned) ∧
  s.errors = [] ∧ s.panicked = false ∧ (s.heap = heap ∧ s.storage = storage) ∧
  (s.dispatcher = DispatcherPC.ranging → s.queuedChan ≠ []) ∧
  (s.errClosed = true ↔ stepsToClose s = 0)

/-- The value of a hexadecimal digit. -/
def hexDigit (c : Char) : Option Nat :=
  if '0' ≤ c ∧ c ≤ '9' then some (c.toNat - '0'.toNat)
  else if 'a' ≤ c ∧ c ≤ 'f' then some (c.toNat - 'a'.toNat + 10)
  else if 'A' ≤ c ∧ c ≤ 'F' then some (c.toNat - 'A'.toNat + 10)
  else none

/-- The byte two hexadecimal digits at position `x` of `cs` spell. -/
def hexByte (cs : List Char) (x : Nat) : Option Nat :=
  match cs.get? x, cs.get? (x + 1) with
  | some hi, some lo =>
    match hexDigit hi, hexDigit lo with
    | some h, some l => some (16 * h + l)
    | _, _ => none
  | _, _ => none

/-- The parser of the tests, for `uuid.Parse`: it reads the canonical form
`xxxxxxxx-xxxx-xxxx-xxxx-xxxxxxxxxxxx`, the one `uuid.UUID.String` writes.  The handlers
take the parser as an argument, so nothing proved about them depends on it. -/
def parseCanonical (s : String) : Except Error UUID :=
  let cs := s.data
  if cs.length = 36 ∧ cs.get? 8 = some '-' ∧ cs.get? 13 = some '-' ∧ cs.get? 18 = some '-'
      ∧ cs.get? 23 = some '-' then
    match ([0, 2, 4, 6, 9, 11, 14, 16, 19, 21, 24, 26, 28, 30, 32, 34].map (hexByte cs)).allSome with
    | some bytes => .ok bytes
    | none => .error (Error.other "invalid UUID format")
  else .error (Error.other "invalid UUID format")

/-! ## Notions of the specification about a run of `Update` -/

/-- Whether a worker is inside `getFeedContent`. -/
def WorkerPC.isFetching : WorkerPC → Bool
  | WorkerPC.fetching _ => true
  | _ => false

/-- The number of feeds being fetched: the workers inside `getFeedContent`. -/
def fetchingCount {σ : Type} (s : UpdateState σ) : Nat :=
  (s.workers.filter WorkerPC.isFetching).length

/-- The feeds the staging goroutine holds: one between its receive and its `select`. -/
def DispatcherPC.held : DispatcherPC → Nat
  | DispatcherPC.selecting _ => 1
  | _ => 0

/-- The feeds a waiter holds: one until it has handed it over or returned. -/
def WaiterPC.held : WaiterPC → Nat
  | WaiterPC.waiting _ => 1
  | WaiterPC.sending _ => 1
  | WaiterPC.returned => 0

/-- The feeds a worker holds: one from its receive to its send on `queuedChan`. -/
def WorkerPC.held : WorkerPC → Nat
  | WorkerPC.selecting _ => 1
  | WorkerPC.fetching _ => 1
  | WorkerPC.sending queued _ => queued.length
  | _ => 0

/-- The feeds in the pipeline: in the buffer of `queuedChan` or held by a goroutine. -/
def feedsInFlight {σ : Type} (s : UpdateState σ) : Nat :=
  s.queuedChan.length + s.dispatcher.held + (s.waiters.map WaiterPC.held).sum
    + (s.workers.map WorkerPC.held).sum

/-- The staging goroutine is in its loop: it has not started to return. -/
def DispatcherPC.inLoop : DispatcherPC → Bool
  | DispatcherPC.ranging => true
  | DispatcherPC.selecting _ => true
  | _ => false

/-- What holds all along every run of `Update` of `r` over `feeds`: the workers are the
`r.workers` started, the feeds in the pipeline are at most the feeds given, which is the
capacity of `queuedChan`, and as long as the staging goroutine is in its loop, which it
is while the context is open, no channel is closed and no goroutine has panicked. -/
def RunInvariant {σ : Type} (r : Reader σ) (feeds : List FeedPtr) (s : UpdateState σ) :
    Prop :=
  s.workers.length = r.workers ∧ s.queuedCap = feeds.length ∧
  feedsInFlight s ≤ feeds.length ∧
  (s.ctxDone = false → s.dispatcher.inLoop = true) ∧
  (s.dispatcher.inLoop = true →
    s.queuedClosed = false ∧ s.feedClosed = false ∧ s.errClosed = false ∧
    s.panicked = false)

/-- A state of the run of `mockReader` over the feed of the tests, the context open: the
staging goroutine has started the waiter of the feed, the timer has fired, the first
worker has received the feed and is inside `getFeedContent`. -/
def runFetching : UpdateState InMemoryStorageRef :=
  { mockReader.Update false [0] rssHeap rssStorage with
    queuedChan := []
    waiters := [WaiterPC.returned]
    workers := (List.replicate 8 WorkerPC.ranging).set 0 (WorkerPC.fetching 0) }

/-- A state of the run of `mockReader` over two feeds, the context open: the first worker
has received the first feed and is inside `getFeedContent`, the second feed is still in
`queuedChan`. -/
def runFetchingOfTwo : UpdateState InMemoryStorageRef :=
  { mockReader.Update false [0, 1] rssHeap rssStorage with
    queuedChan := [newQueuedFeed 1 (60 * Second)]
    waiters := [WaiterPC.returned]
    workers := (List.replicate 8 WorkerPC.ranging).set 0 (WorkerPC.fetching 0) }

/-- The state after `runFetching` when the feed answers 500 at the instant `t2020`: the
feed object is stamped, and the first worker is about to send the feed on `queuedChan`,
then the error on `errChan`. -/
def runSending : UpdateState InMemoryStorageRef :=
  { runFetching with
    heap := Heap.write rssHeap 0 { rssFeed with ModifiedAt := t2020 }
    workers := (List.replicate 8 WorkerPC.ranging).set 0
      (WorkerPC.sending [newQueuedFeed 0 (60 * Second)]
        [Error.HTTPError 500 "500 Internal Server Error"]) }

/-! ## Pagination: `latest` -/


theorem publishedDesc_iff (a b : Article) : PublishedDesc a b ↔ b.Published ≤ a.Published := by
  simp [PublishedDesc, Time.After]

theorem sortSlice_published_sorted (articles : List Article) :
    (sortSlice (fun a b => a.Published.After b.Published) articles).Sorted PublishedDesc := by
  haveI : IsTotal Article PublishedDesc :=
    ⟨fun a b => by simp only [publishedDesc_iff]; exact le_total _ _⟩
  haveI : IsTrans Article PublishedDesc :=
    ⟨fun a b c => by simp only [publishedDesc_iff]; exact fun h1 h2 => le_trans h2 h1⟩
  exact List.sorted_insertionSort PublishedDesc articles

theorem sortSlice_perm {α : Type} (less : α → α → Bool) (xs : List α) :
    (sortSlice less xs).Perm xs :=
  List.perm_insertionSort _ xs

theorem eligibleDesc_sorted (articles : List Article) (offset : Time) :
    (eligibleDesc articles offset).Sorted PublishedDesc :=
  (sortSlice_published_sorted articles).filter _

theorem mem_eligibleDesc {articles : List Article} {offset : Time} {a : Article} :
    a ∈ eligibleDesc articles offset ↔ a ∈ articles ∧ a.Published < offset := by
  simp [eligibleDesc, List.mem_filter, (sortSlice_perm _ articles).mem_iff, Time.After]

/-- On a slice in descending order the loop of `latest` is the stop rule run over the
eligible articles. -/
theorem latestLoop_eq_stopRule (minLatest : Nat) (offset : Time) :
    ∀ (l : List Article), l.Sorted PublishedDesc → ∀ acc : List Article,
      latestLoop minLatest offset l acc
        = stopRule (uintPred minLatest) (l.filter (fun a => offset.After a.Published)) acc := by
  intro l
  induction l with
  | nil => intro _ acc; simp [latestLoop, stopRule]
  | cons a rest ih =>
    intro hs acc
    have hrest : rest.Sorted PublishedDesc := hs.of_cons
    by_cases ha : offset.After a.Published = true
    · have hall : ∀ b ∈ rest, offset.After b.Published = true := by
        intro b hb
        have h1 := (publishedDesc_iff a b).1 (List.rel_of_sorted_cons hs b hb)
        simp only [Time.After, decide_eq_true_eq] at ha ⊢
        exact lt_of_le_of_lt h1 ha
      have hfr : rest.filter (fun a => offset.After a.Published) = rest :=
        List.filter_eq_self.2 hall
      have ih2 := ih hrest (acc ++ [a])
      rw [hfr] at ih2
      have hfc : (a :: rest).filter (fun a => offset.After a.Published) = a :: rest := by
        rw [List.filter_eq_self]
        intro b hb
        rcases List.mem_cons.1 hb with h | h
        · rw [h]; exact ha
        · exact hall b h
      rw [hfc]
      cases rest with
      | nil => simp [latestLoop, stopRule, ha]
      | cons b r =>
        rw [latestLoop, stopRule]
        simp only [ha, Bool.not_true, Bool.false_eq_true, if_false]
        rw [ih2]
        by_cases he : a.Published = b.Published
        · simp [Time.Equal, he]
        · have he2 : ¬ b.Published = a.Published := fun h => he h.symm
          simp [Time.Equal, he, he2]
    · have hfc : (a :: rest).filter (fun a => offset.After a.Published)
          = rest.filter (fun a => offset.After a.Published) := by
        simp [List.filter_cons, ha]
      have hl : latestLoop minLatest offset (a :: rest) acc
          = latestLoop minLatest offset rest acc := by
        simp [latestLoop, ha]
      rw [hfc, hl]
      exact ih hrest acc

theorem latest_eq_stopRule (s : InMemoryStorage) (articles : List Article) (offset : Time) :
    s.latest articles offset
      = .ok (stopRule (uintPred s.minLatest) (eligibleDesc articles offset) []) := by
  simp only [InMemoryStorage.latest, eligibleDesc]
  rw [latestLoop_eq_stopRule _ _ _ (sortSlice_published_sorted articles)]

theorem stopsAfter_succ {T base : Nat} {a : Article} {rest : List Article} {k : Nat}
    (hk : 0 < k) :
    StopsAfter T base (a :: rest) (k + 1) ↔ StopsAfter T (base + 1) rest k := by
  obtain ⟨j, rfl⟩ : ∃ j, k = j + 1 := ⟨k - 1, by omega⟩
  simp only [StopsAfter, List.length_cons, List.get?_cons_succ, Nat.add_sub_cancel]
  constructor
  · rintro ⟨_, h2, h3, h4⟩
    exact ⟨by omega, by omega, by omega, h4⟩
  · rintro ⟨_, h2, h3, h4⟩
    exact ⟨by omega, by omega, by omega, h4⟩

/-- The stop rule returns the shortest front part of the eligible list after which the
stop condition holds, or the whole list when it holds nowhere. -/
theorem stopRule_take (T : Nat) :
    ∀ (E acc : List Article), ∃ n, n ≤ E.length ∧ stopRule T E acc = acc ++ E.take n ∧
      (n = E.length ∨ StopsAfter T acc.length E n) ∧
      ∀ k, k < n → ¬ StopsAfter T acc.length E k := by
  intro E
  induction E with
  | nil =>
    intro acc
    exact ⟨0, le_refl _, by simp [stopRule], Or.inl rfl, fun k hk => by omega⟩
  | cons a rest ih =>
    intro acc
    cases rest with
    | nil =>
      refine ⟨1, le_refl _, by simp [stopRule], Or.inl rfl, ?_⟩
      intro k hk hst
      have := hst.1
      omega
    | cons b r =>
      by_cases hc : T < (acc ++ [a]).length ∧ b.Published ≠ a.Published
      · have hstop : stopRule T (a :: b :: r) acc = acc ++ List.take 1 (a :: b :: r) := by
          rw [stopRule]
          simp only [hc, and_self, if_true, ne_eq, not_false_eq_true, List.take_succ_cons,
            List.take_zero]
        refine ⟨1, by simp, hstop, Or.inr ?_, ?_⟩
        · refine ⟨by omega, by simp, ?_, ?_⟩
          · have := hc.1
            simpa using this
          · simpa using hc.2
        · intro k hk hst
          have := hst.1
          omega
      · obtain ⟨n, hn, heq, hor, hmin⟩ := ih (acc ++ [a])
        have hlen : (acc ++ [a]).length = acc.length + 1 := by simp
        rw [hlen] at hor hmin
        refine ⟨n + 1, by simpa using hn, ?_, ?_, ?_⟩
        · rw [stopRule]
          simp only [hc, if_false]
          rw [heq]
          simp
        · rcases hor with h | h
          · left; simp [h]
          · right
            exact (stopsAfter_succ h.1).2 h
        · intro k hk hst
          have hk0 := hst.1
          obtain ⟨j, rfl⟩ : ∃ j, k = j + 1 := ⟨k - 1, by omega⟩
          rcases Nat.eq_zero_or_pos j with hj | hj
          · subst hj
            apply hc
            obtain ⟨_, _, h3, h4⟩ := hst
            refine ⟨by simpa using h3, ?_⟩
            simpa using h4
          · exact hmin j (by omega) ((stopsAfter_succ hj).1 hst)

/-- Across a place where the stop condition holds, every article before the cut is
published strictly later than every article after it. -/
theorem stopsAfter_strict {T base n : Nat} {E : List Article} (hsorted : E.Sorted PublishedDesc)
    (hstop : StopsAfter T base E n) {a b : Article} (ha : a ∈ E.take n) (hb : b ∈ E.drop n) :
    b.Published < a.Published := by
  obtain ⟨h0, h1, _, h4⟩ := hstop
  have hlt1 : n - 1 < E.length := by omega
  rw [List.get?_eq_get h1, List.get?_eq_get hlt1] at h4
  simp only [Option.map_some', ne_eq, Option.some.injEq] at h4
  have hcut : (E.get ⟨n, h1⟩).Published ≤ (E.get ⟨n - 1, hlt1⟩).Published :=
    (publishedDesc_iff _ _).1
      (hsorted.rel_get_of_lt (a := ⟨n - 1, hlt1⟩) (b := ⟨n, h1⟩) (by simp; omega))
  have hcut2 : (E.get ⟨n, h1⟩).Published < (E.get ⟨n - 1, hlt1⟩).Published :=
    lt_of_le_of_ne hcut h4
  -- every article before the cut is at least as late as the last one before it
  have ha2 : (E.get ⟨n - 1, hlt1⟩).Published ≤ a.Published := by
    obtain ⟨i, hi⟩ := List.get_of_mem ha
    have hi1 : i.1 < n := by
      have := i.2
      simp only [List.length_take] at this
      omega
    have hi2 : i.1 < E.length := by omega
    have hai : a = E.get ⟨i.1, hi2⟩ := by
      rw [← hi]
      simp [List.get_eq_getElem, List.getElem_take]
    rcases Nat.lt_or_ge i.1 (n - 1) with hlt | hge
    · rw [hai]
      exact (publishedDesc_iff _ _).1
        (hsorted.rel_get_of_lt (a := ⟨i.1, hi2⟩) (b := ⟨n - 1, hlt1⟩) hlt)
    · have : i.1 = n - 1 := by omega
      rw [hai]
      simp [this]
  -- every article after the cut is at most as late as the first one after it
  have hb2 : b.Published ≤ (E.get ⟨n, h1⟩).Published := by
    obtain ⟨i, hi⟩ := List.get_of_mem hb
    have hi0 := i.2
    simp only [List.length_drop] at hi0
    have hi2 : n + i.1 < E.length := by omega
    have hbi : b = E.get ⟨n + i.1, hi2⟩ := by
      rw [← hi]
      simp [List.get_eq_getElem, List.getElem_drop]
    rcases Nat.eq_zero_or_pos i.1 with hz | hp
    · rw [hbi]
      simp [hz]
    · rw [hbi]
      exact (publishedDesc_iff _ _).1
        (hsorted.rel_get_of_lt (a := ⟨n, h1⟩) (b := ⟨n + i.1, hi2⟩) (by simp; omega))
  exact lt_of_lt_of_le (lt_of_le_of_lt hb2 hcut2) ha2


theorem uintPred_of_pos {m : Nat} (h1 : 1 ≤ m) (h2 : m < 2 ^ 64) : uintPred m = m - 1 := by
  unfold uintPred
  omega

/-- The page `latest` returns is a front part of the eligible articles in descending
order, cut at the first place where the stop condition holds. -/
theorem latest_take (s : InMemoryStorage) (articles : List Article) (offset : Time) :
    ∃ n, n ≤ (eligibleDesc articles offset).length ∧
      s.latest articles offset = .ok ((eligibleDesc articles offset).take n) ∧
      (n = (eligibleDesc articles offset).length ∨
        StopsAfter (uintPred s.minLatest) 0 (eligibleDesc articles offset) n) ∧
      ∀ k, k < n → ¬ StopsAfter (uintPred s.minLatest) 0 (eligibleDesc articles offset) k := by
  obtain ⟨n, hn, heq, hor, hmin⟩ :=
    stopRule_take (uintPred s.minLatest) (eligibleDesc articles offset) []
  refine ⟨n, hn, ?_, by simpa using hor, by simpa using hmin⟩
  rw [latest_eq_stopRule, heq]
  simp

theorem latest_before (s : InMemoryStorage) (articles : List Article) (offset : Time) :
    ∃ res, s.latest articles offset = .ok res ∧
      ∀ a ∈ res, a ∈ articles ∧ a.Published < offset := by
  obtain ⟨n, _, heq, _, _⟩ := latest_take s articles offset
  exact ⟨_, heq, fun a ha => mem_eligibleDesc.1 (List.mem_of_mem_take ha)⟩

/-- Claim C1: every article returned by `latest`, and so by `Latest` and `LatestFromFeed`,
is published strictly before `offset`; an article published exactly at `offset` is never
returned. -/
theorem latest_published_before_offset (s : InMemoryStorage) (articles : List Article)
    (offset : Time) :
    (∃ res, s.latest articles offset = .ok res ∧
      ∀ a ∈ res, a.Published < offset ∧ a.Published ≠ offset) ∧
    (∃ res, s.Latest offset = .ok res ∧
      ∀ a ∈ res, a.Published < offset ∧ a.Published ≠ offset) ∧
    (∀ id res, s.LatestFromFeed id offset = .ok res →
      ∀ a ∈ res, a.Published < offset ∧ a.Published ≠ offset) := by
  refine ⟨?_, ?_, ?_⟩
  · obtain ⟨res, heq, h⟩ := latest_before s articles offset
    exact ⟨res, heq, fun a ha => ⟨(h a ha).2, ne_of_lt (h a ha).2⟩⟩
  · obtain ⟨res, heq, h⟩ :=
      latest_before s (s.articles.values.flatMap fun am => am.values) offset
    exact ⟨res, heq, fun a ha => ⟨(h a ha).2, ne_of_lt (h a ha).2⟩⟩
  · intro id res hres a ha
    unfold InMemoryStorage.LatestFromFeed at hres
    cases hl : s.articles.lookup id with
    | none => rw [hl] at hres; cases hres
    | some f =>
      rw [hl] at hres
      obtain ⟨res2, heq, h⟩ := latest_before s f.values offset
      simp only at hres
      rw [heq] at hres
      cases hres
      exact ⟨(h a ha).2, ne_of_lt (h a ha).2⟩

/-- Claim C2: the list returned by `latest` is in descending order of publication: for
positions `i < j` of the result, the article at `i` is not published before the one at `j`. -/
theorem latest_sorted_descending (s : InMemoryStorage) (articles : List Article)
    (offset : Time) :
    ∃ res, s.latest articles offset = .ok res ∧
      ∀ (i j : Nat) (a b : Article), i < j → res.get? i = some a → res.get? j = some b →
        ¬ a.Published < b.Published := by
  obtain ⟨n, _, heq, _, _⟩ := latest_take s articles offset
  refine ⟨_, heq, ?_⟩
  have hs : ((eligibleDesc articles offset).take n).Sorted PublishedDesc :=
    (eligibleDesc_sorted articles offset).sublist (List.take_sublist _ _)
  intro i j a b hij hi hj
  obtain ⟨hi1, hi2⟩ := List.get?_eq_some.1 hi
  obtain ⟨hj1, hj2⟩ := List.get?_eq_some.1 hj
  have h := hs.rel_get_of_lt (a := ⟨i, hi1⟩) (b := ⟨j, hj1⟩) hij
  rw [hi2, hj2] at h
  exact not_lt.2 ((publishedDesc_iff a b).1 h)

/-- Claim C3: `latest` never splits a group of equally timestamped articles: if `a` is
returned and the input article `b` is published at the same instant, `b` is returned too,
whatever the input, the offset and the minimum. -/
theorem latest_keeps_ties_together (s : InMemoryStorage) (articles : List Article)
    (offset : Time) :
    ∃ res, s.latest articles offset = .ok res ∧
      ∀ a ∈ res, ∀ b ∈ articles, b.Published = a.Published → b ∈ res := by
  obtain ⟨n, hn, heq, hor, _⟩ := latest_take s articles offset
  refine ⟨_, heq, ?_⟩
  intro a ha b hb hab
  have haE := mem_eligibleDesc.1 (List.mem_of_mem_take ha)
  have hbE : b ∈ eligibleDesc articles offset := mem_eligibleDesc.2 ⟨hb, hab ▸ haE.2⟩
  rw [← List.take_append_drop n (eligibleDesc articles offset), List.mem_append] at hbE
  rcases hbE with h | h
  · exact h
  · exfalso
    rcases hor with hlen | hstop
    · rw [hlen, List.drop_length] at h
      cases h
    · have hlt := stopsAfter_strict (eligibleDesc_sorted articles offset) hstop ha h
      rw [hab] at hlt
      exact lt_irrefl _ hlt

/-- Claim C4 as stated fails: with minimum 1 and four articles at distinct instants the
code returns the newest article only, while the rule that waits until the result is longer
than the minimum returns two. -/
theorem latest_stop_rule_as_stated_fails :
    (NewInMemoryStorage 1).latest mockArticles
        (t2020 + 10) = .ok [mockArticle22] ∧
    stopRule (NewInMemoryStorage 1).minLatest
        (eligibleDesc mockArticles (t2020 + 10)) []
      = [mockArticle22, mockArticle12] ∧
    (NewInMemoryStorage 1).latest mockArticles
        (t2020 + 10)
      ≠ .ok (stopRule (NewInMemoryStorage 1).minLatest
          (eligibleDesc mockArticles
            (t2020 + 10)) []) := by
  decide

/-- Claim C4, amended: for a minimum `m` with `1 ≤ m`, `latest` is the stop rule run
with threshold `m - 1`, that is, it stops after an append exactly when the result holds at
least `m` articles and the next candidate is published at another instant, or when the
list ends; so the result is the shortest front part of the eligible list after which that
condition holds, or the whole eligible list when it holds nowhere. -/
theorem latest_stop_rule (s : InMemoryStorage) (articles : List Article) (offset : Time)
    (h1 : 1 ≤ s.minLatest) (h2 : s.minLatest < 2 ^ 64) :
    s.latest articles offset
      = .ok (stopRule (s.minLatest - 1) (eligibleDesc articles offset) []) ∧
    ∃ n, n ≤ (eligibleDesc articles offset).length ∧
      s.latest articles offset = .ok ((eligibleDesc articles offset).take n) ∧
      (n = (eligibleDesc articles offset).length ∨
        StopsAfter (s.minLatest - 1) 0 (eligibleDesc articles offset) n) ∧
      ∀ k, k < n → ¬ StopsAfter (s.minLatest - 1) 0 (eligibleDesc articles offset) k := by
  have h := latest_take s articles offset
  have h3 := latest_eq_stopRule s articles offset
  rw [uintPred_of_pos h1 h2] at h h3
  exact ⟨h3, h⟩

/-- The amended stop rule at minimum 1 on three of the mock articles. -/
theorem latest_stop_rule_witness :
    1 ≤ (NewInMemoryStorage 1).minLatest ∧ (NewInMemoryStorage 1).minLatest < 2 ^ 64 ∧
    ((NewInMemoryStorage 1).latest [mockArticle11, mockArticle12, mockArticle21] (t2020 + 10)
      = .ok (stopRule ((NewInMemoryStorage 1).minLatest - 1)
          (eligibleDesc [mockArticle11, mockArticle12, mockArticle21] (t2020 + 10)) []) ∧
    ∃ n, n ≤ (eligibleDesc [mockArticle11, mockArticle12, mockArticle21] (t2020 + 10)).length ∧
      (NewInMemoryStorage 1).latest [mockArticle11, mockArticle12, mockArticle21] (t2020 + 10)
        = .ok ((eligibleDesc [mockArticle11, mockArticle12, mockArticle21] (t2020 + 10)).take n) ∧
      (n = (eligibleDesc [mockArticle11, mockArticle12, mockArticle21] (t2020 + 10)).length ∨
        StopsAfter ((NewInMemoryStorage 1).minLatest - 1) 0
          (eligibleDesc [mockArticle11, mockArticle12, mockArticle21] (t2020 + 10)) n) ∧
      ∀ k, k < n → ¬ StopsAfter ((NewInMemoryStorage 1).minLatest - 1) 0
          (eligibleDesc [mockArticle11, mockArticle12, mockArticle21] (t2020 + 10)) k) :=
  ⟨by decide, by decide,
    latest_stop_rule (NewInMemoryStorage 1) [mockArticle11, mockArticle12, mockArticle21]
      (t2020 + 10) (by decide) (by decide)⟩

/-- With pairwise distinct instants the stop rule keeps exactly `threshold + 1` articles,
or all of them when there are fewer. -/
theorem take_length_of_distinct {T n : Nat} {E : List Article}
    (hd : E.Pairwise (fun a b => a.Published ≠ b.Published)) (hn : n ≤ E.length)
    (hor : n = E.length ∨ StopsAfter T 0 E n)
    (hmin : ∀ k, k < n → ¬ StopsAfter T 0 E k) :
    n = min (T + 1) E.length := by
  have hne : ∀ k, 0 < k → ∀ hk : k < E.length,
      (E.get? k).map Article.Published ≠ (E.get? (k - 1)).map Article.Published := by
    intro k h0 hk
    have hk1 : k - 1 < E.length := by omega
    rw [List.get?_eq_get hk, List.get?_eq_get hk1]
    simp only [Option.map_some', ne_eq, Option.some.injEq]
    have := List.pairwise_iff_get.1 hd ⟨k - 1, hk1⟩ ⟨k, hk⟩ (by simp; omega)
    exact fun h => this h.symm
  have hupper : n ≤ T + 1 := by
    by_contra hcon
    have hT : T + 1 < n := by omega
    exact hmin (T + 1) hT ⟨by omega, by omega, by omega, hne (T + 1) (by omega) (by omega)⟩
  rcases hor with h | h
  · omega
  · have := h.2.2.1
    omega

/-- Claim C5: for a minimum `m` with `1 ≤ m`, when the stored articles published before
`offset` have pairwise distinct instants and there are `n` of them, `Latest` returns
exactly the `min m n` newest of them: that many articles, all stored and published before
`offset`, in strictly descending order, and every such article left out is older than
every article returned. -/
theorem latest_distinct_times (s : InMemoryStorage) (offset : Time)
    (h1 : 1 ≤ s.minLatest) (h2 : s.minLatest < 2 ^ 64)
    (hd : ((s.articles.values.flatMap fun am => am.values).filter
        (fun a => decide (a.Published < offset))).Pairwise
          (fun a b => a.Published ≠ b.Published)) :
    ∃ res, s.Latest offset = .ok res ∧
      res.length = min s.minLatest
        ((s.articles.values.flatMap fun am => am.values).filter
          (fun a => decide (a.Published < offset))).length ∧
      (∀ a ∈ res, a ∈ s.articles.values.flatMap (fun am => am.values) ∧ a.Published < offset) ∧
      res.Sorted (fun a b => b.Published < a.Published) ∧
      (∀ a ∈ res, ∀ b ∈ s.articles.values.flatMap (fun am => am.values),
        b.Published < offset → b ∉ res → b.Published < a.Published) := by
  set stored := s.articles.values.flatMap fun am => am.values with hstored
  set E := eligibleDesc stored offset with hE
  have hperm : E.Perm (stored.filter (fun a => decide (a.Published < offset))) := by
    have : (fun a : Article => offset.After a.Published)
        = (fun a : Article => decide (a.Published < offset)) := by
      funext a; simp [Time.After]
    rw [hE, eligibleDesc, this]
    exact (sortSlice_perm _ stored).filter _
  have hdE : E.Pairwise (fun a b => a.Published ≠ b.Published) :=
    (hperm.pairwise_iff (fun {a b} (h : a.Published ≠ b.Published) => h.symm)).2 hd
  have hsorted : E.Sorted PublishedDesc := eligibleDesc_sorted stored offset
  have hstrict : E.Sorted (fun a b => b.Published < a.Published) := by
    have := hsorted.and hdE
    exact this.imp (fun {a b} h => lt_of_le_of_ne ((publishedDesc_iff a b).1 h.1) (Ne.symm h.2))
  obtain ⟨n, hn, heq, hor, hmin⟩ := latest_take s stored offset
  rw [uintPred_of_pos h1 h2] at hor hmin
  have hlen := take_length_of_distinct hdE hn hor hmin
  have hm : s.minLatest - 1 + 1 = s.minLatest := by omega
  rw [hm] at hlen
  refine ⟨E.take n, heq, ?_, ?_, ?_, ?_⟩
  · rw [List.length_take, ← hperm.length_eq, min_eq_left hn, hlen]
  · intro a ha
    exact mem_eligibleDesc.1 (List.mem_of_mem_take ha)
  · exact hstrict.sublist (List.take_sublist _ _)
  · intro a ha b hb hbo hbres
    have hbE : b ∈ E := mem_eligibleDesc.2 ⟨hb, hbo⟩
    rw [← List.take_append_drop n E, List.mem_append] at hbE
    rcases hbE with h | h
    · exact absurd h hbres
    · exact hstrict.rel_of_mem_take_of_mem_drop ha h

set_option maxRecDepth 100000 in
/-- Minimum 1 over the four mock articles. -/
theorem latest_distinct_times_witness :
    1 ≤ (mockStorage 1).minLatest ∧ (mockStorage 1).minLatest < 2 ^ 64 ∧
    (∃ res, (mockStorage 1).Latest (t2020 + 10) = .ok res ∧
      res.length = min (mockStorage 1).minLatest
        (((mockStorage 1).articles.values.flatMap fun am => am.values).filter
          (fun a => decide (a.Published < t2020 + 10))).length ∧
      (∀ a ∈ res, a ∈ (mockStorage 1).articles.values.flatMap (fun am => am.values) ∧
        a.Published < t2020 + 10) ∧
      res.Sorted (fun a b => b.Published < a.Published) ∧
      (∀ a ∈ res, ∀ b ∈ (mockStorage 1).articles.values.flatMap (fun am => am.values),
        b.Published < t2020 + 10 → b ∉ res → b.Published < a.Published)) :=
  ⟨by decide, by decide, latest_distinct_times (mockStorage 1) (t2020 + 10) (by decide) (by decide)
    (by decide)⟩


/-! ## `Store` -/

/-- Keys of a partition after the articles of a `Store` call were put in. -/
theorem mem_foldl_insert (articles : List Article) :
    ∀ (am : SyncMap Article) (k : UUID),
      k ∈ articles.foldl (fun am a => am.insert a.UUID a) am
        ↔ k ∈ am ∨ ∃ a ∈ articles, a.UUID = k := by
  induction articles with
  | nil => intro am k; simp
  | cons a rest ih =>
    intro am k
    rw [List.foldl_cons, ih, AList.mem_insert]
    constructor
    · rintro ((h | h) | ⟨b, hb, h⟩)
      · exact Or.inr ⟨a, List.mem_cons_self _ _, h.symm⟩
      · exact Or.inl h
      · exact Or.inr ⟨b, List.mem_cons_of_mem _ hb, h⟩
    · rintro (h | ⟨b, hb, h⟩)
      · exact Or.inl (Or.inr h)
      · rcases List.mem_cons.1 hb with hba | hbr
        · exact Or.inl (Or.inl (by rw [← h, hba]))
        · exact Or.inr ⟨b, hbr, h⟩

/-- A key that is the identity of none of the articles keeps what it held. -/
theorem lookup_foldl_insert_of_ne (articles : List Article) :
    ∀ (am : SyncMap Article) (k : UUID), (∀ a ∈ articles, a.UUID ≠ k) →
      (articles.foldl (fun am a => am.insert a.UUID a) am).lookup k = am.lookup k := by
  induction articles with
  | nil => intro am k _; rfl
  | cons a rest ih =>
    intro am k h
    rw [List.foldl_cons, ih _ _ (fun b hb => h b (List.mem_cons_of_mem _ hb))]
    exact AList.lookup_insert_ne (fun hk => h a (List.mem_cons_self _ _) hk.symm)

/-- The last article of an identity is the one the partition holds. -/
theorem lookup_foldl_insert_last (pre post : List Article) (a : Article)
    (am : SyncMap Article) (h : ∀ b ∈ post, b.UUID ≠ a.UUID) :
    ((pre ++ a :: post).foldl (fun am a => am.insert a.UUID a) am).lookup a.UUID = some a := by
  rw [List.foldl_append, List.foldl_cons, lookup_foldl_insert_of_ne post _ _ h]
  exact AList.lookup_insert _

/-- The partitions after a `Store` call. -/
theorem lookup_articles_Store (s : InMemoryStorage) (feed : Feed) (articles : List Article)
    (id : UUID) :
    (s.Store feed articles).1.articles.lookup id
      = if id = feed.UUID then
          some (articles.foldl (fun am a => am.insert a.UUID a)
            ((s.articles.lookup feed.UUID).getD ∅))
        else s.articles.lookup id := by
  unfold InMemoryStorage.Store
  by_cases h : id = feed.UUID
  · subst h
    simp only [if_true]
    rw [AList.lookup_insert]
    cases s.articles.lookup feed.UUID <;> rfl
  · simp only [h, if_false]
    exact AList.lookup_insert_ne h

/-- Claim C6: after `Store(feed, articles)` on any storage, the partition of `feed.UUID()`
has as keys the keys it had before together with the identities of the given articles;
a key that is the identity of none of them holds what it held before; and the identity of
each given article holds that article, the last one in the list when the identity is
repeated.  `Store` returns no error. -/
theorem Store_accumulates (s : InMemoryStorage) (feed : Feed) (articles : List Article) :
    (s.Store feed articles).2 = none ∧
    ∃ am, (s.Store feed articles).1.articles.lookup feed.UUID = some am ∧
      (∀ k, k ∈ am ↔
        k ∈ (s.articles.lookup feed.UUID).getD ∅ ∨ ∃ a ∈ articles, a.UUID = k) ∧
      (∀ k, (∀ a ∈ articles, a.UUID ≠ k) →
        am.lookup k = ((s.articles.lookup feed.UUID).getD ∅).lookup k) ∧
      (∀ pre a post, articles = pre ++ a :: post → (∀ b ∈ post, b.UUID ≠ a.UUID) →
        am.lookup a.UUID = some a) := by
  refine ⟨rfl, articles.foldl (fun am a => am.insert a.UUID a)
    ((s.articles.lookup feed.UUID).getD ∅), ?_, ?_, ?_, ?_⟩
  · rw [lookup_articles_Store, if_pos rfl]
  · exact mem_foldl_insert articles _
  · exact lookup_foldl_insert_of_ne articles _
  · intro pre a post hl hp
    rw [hl]
    exact lookup_foldl_insert_last pre post a _ hp


/-! ## `Feeds` -/

/-- The order `Feeds` leaves the feeds in: no later title is smaller, byte by byte. -/
theorem titleOrder_iff (a b : Feed) :
    stringLess b.Title a.Title = false ↔ utf8Bytes a.Title ≤ utf8Bytes b.Title := by
  simp [stringLess]

theorem sortSlice_title_sorted (feeds : List Feed) :
    (sortSlice (fun a b => stringLess a.Title b.Title) feeds).Sorted
      (fun a b => stringLess b.Title a.Title = false) := by
  haveI : IsTotal Feed (fun a b => stringLess b.Title a.Title = false) :=
    ⟨fun a b => by simp only [titleOrder_iff]; exact le_total _ _⟩
  haveI : IsTrans Feed (fun a b => stringLess b.Title a.Title = false) :=
    ⟨fun a b c => by simp only [titleOrder_iff]; exact le_trans⟩
  exact List.sorted_insertionSort _ feeds

/-- Every character takes at least one byte. -/
theorem utf8EncodeChar_ne_nil (c : Char) : String.utf8EncodeChar c ≠ [] := by
  unfold String.utf8EncodeChar
  simp only
  split
  · simp
  · split
    · simp
    · split <;> simp

/-- Only the empty string has no bytes. -/
theorem utf8Bytes_eq_nil {s : String} (h : utf8Bytes s = []) : s = "" := by
  unfold utf8Bytes at h
  cases hd : s.data with
  | nil =>
    apply String.ext
    rw [hd]
  | cons c cs =>
    rw [hd] at h
    simp only [List.flatMap_cons, List.append_eq_nil, List.map_eq_nil_iff] at h
    exact absurd h.1 (utf8EncodeChar_ne_nil c)

/-- Claim C7: `Feeds` returns exactly the feeds stored, one for each feed identity, none
missing and none twice, in ascending order of `Title` compared byte by byte, so that the
feeds with an empty title come first. -/
theorem Feeds_all_sorted_by_title (s : InMemoryStorage) :
    ∃ res, s.Feeds = .ok res ∧
      res.Perm s.feeds.values ∧
      res.length = s.feeds.keys.length ∧
      (∀ f, f ∈ res ↔ ∃ id, s.feeds.lookup id = some f) ∧
      (∀ (i j : Nat) (a b : Feed), i < j → res.get? i = some a → res.get? j = some b →
        ¬ utf8Bytes b.Title < utf8Bytes a.Title) ∧
      (∀ (i j : Nat) (a b : Feed), i < j → res.get? i = some a → res.get? j = some b →
        b.Title = "" → a.Title = "") := by
  have hsorted := sortSlice_title_sorted s.feeds.values
  have hperm := sortSlice_perm (fun a b : Feed => stringLess a.Title b.Title) s.feeds.values
  have hidx : ∀ (i j : Nat) (a b : Feed), i < j →
      (sortSlice (fun a b => stringLess a.Title b.Title) s.feeds.values).get? i = some a →
      (sortSlice (fun a b => stringLess a.Title b.Title) s.feeds.values).get? j = some b →
      utf8Bytes a.Title ≤ utf8Bytes b.Title := by
    intro i j a b hij hi hj
    obtain ⟨hi1, hi2⟩ := List.get?_eq_some.1 hi
    obtain ⟨hj1, hj2⟩ := List.get?_eq_some.1 hj
    have h := hsorted.rel_get_of_lt (a := ⟨i, hi1⟩) (b := ⟨j, hj1⟩) hij
    rw [hi2, hj2] at h
    exact (titleOrder_iff a b).1 h
  refine ⟨_, rfl, hperm, ?_, ?_, ?_, ?_⟩
  · rw [hperm.length_eq]
    simp [SyncMap.values, AList.keys, List.keys]
  · intro f
    rw [hperm.mem_iff]
    simp only [SyncMap.values, List.mem_map]
    constructor
    · rintro ⟨e, he, rfl⟩
      exact ⟨e.1, AList.mem_lookup_iff.2 he⟩
    · rintro ⟨id, hid⟩
      exact ⟨⟨id, f⟩, AList.mem_lookup_iff.1 hid, rfl⟩
  · intro i j a b hij hi hj
    exact not_lt.2 (hidx i j a b hij hi hj)
  · intro i j a b hij hi hj hb
    have h := hidx i j a b hij hi hj
    rw [hb] at h
    have h0 : utf8Bytes "" = [] := by decide
    rw [h0] at h
    exact utf8Bytes_eq_nil (le_antisymm h List.nil_le)


/-! ## `Article` and `LatestFromFeed` -/

theorem mem_values_iff {V : Type} (m : SyncMap V) (v : V) :
    v ∈ m.values ↔ ∃ k, m.lookup k = some v := by
  simp only [SyncMap.values, List.mem_map]
  constructor
  · rintro ⟨e, he, rfl⟩
    exact ⟨e.1, AList.mem_lookup_iff.2 he⟩
  · rintro ⟨k, hk⟩
    exact ⟨⟨k, v⟩, AList.mem_lookup_iff.1 hk, rfl⟩

/-- The search of `Article` over the partitions finds nothing exactly when no partition
holds the key. -/
theorem findArticle_eq_none (id : UUID) (l : List (SyncMap Article)) :
    findArticle id l = none ↔ ∀ am ∈ l, am.lookup id = none := by
  induction l with
  | nil => simp [findArticle]
  | cons am rest ih =>
    rw [findArticle]
    cases h : am.lookup id with
    | none => simp [ih, h]
    | some a => simp [h]

/-- What the search of `Article` finds is held under the key by one of the partitions. -/
theorem findArticle_eq_some (id : UUID) (l : List (SyncMap Article)) (a : Article)
    (h : findArticle id l = some a) : ∃ am ∈ l, am.lookup id = some a := by
  induction l with
  | nil => simp [findArticle] at h
  | cons am rest ih =>
    rw [findArticle] at h
    cases hl : am.lookup id with
    | none =>
      rw [hl] at h
      obtain ⟨am2, h1, h2⟩ := ih h
      exact ⟨am2, List.mem_cons_of_mem _ h1, h2⟩
    | some b =>
      rw [hl] at h
      simp only [Option.some.injEq] at h
      exact ⟨am, List.mem_cons_self _ _, by rw [hl, h]⟩

/-- What a partition holds after a `Store` call was given in the call or held before. -/
theorem lookup_foldl_insert_some (articles : List Article) :
    ∀ (am : SyncMap Article) (k : UUID) (a : Article),
      (articles.foldl (fun am a => am.insert a.UUID a) am).lookup k = some a →
        (a ∈ articles ∧ a.UUID = k) ∨ am.lookup k = some a := by
  induction articles with
  | nil => intro am k a h; exact Or.inr h
  | cons b rest ih =>
    intro am k a h
    rw [List.foldl_cons] at h
    rcases ih _ _ _ h with ⟨h1, h2⟩ | h1
    · exact Or.inl ⟨List.mem_cons_of_mem _ h1, h2⟩
    · by_cases hk : k = b.UUID
      · subst hk
        rw [AList.lookup_insert] at h1
        simp only [Option.some.injEq] at h1
        exact Or.inl ⟨by rw [← h1]; exact List.mem_cons_self _ _, by rw [← h1]⟩
      · rw [AList.lookup_insert_ne hk] at h1
        exact Or.inr h1

theorem storageAfter_append (maxLatest : Nat) (calls : List (Feed × List Article))
    (c : Feed × List Article) :
    storageAfter maxLatest (calls ++ [c])
      = ((storageAfter maxLatest calls).Store c.1 c.2).1 := by
  simp [storageAfter, List.foldl_append]

/-- A partition exists exactly for the feeds `Store` was called for. -/
theorem storageAfter_mem_articles (maxLatest : Nat) (calls : List (Feed × List Article))
    (id : UUID) :
    (storageAfter maxLatest calls).articles.lookup id ≠ none ↔ ∃ c ∈ calls, c.1.UUID = id := by
  induction calls using List.reverseRecOn with
  | nil =>
    simp only [storageAfter, List.foldl_nil, NewInMemoryStorage, AList.lookup_empty,
      List.not_mem_nil, false_and, exists_false, ne_eq, not_true_eq_false]
  | append_singleton calls c ih =>
    rw [storageAfter_append, lookup_articles_Store]
    by_cases h : id = c.1.UUID
    · simp only [h, if_true, ne_eq, not_false_eq_true, true_iff, reduceCtorEq]
      exact ⟨c, by simp, rfl⟩
    · simp only [h, if_false, ih, List.mem_append, List.mem_singleton]
      constructor
      · rintro ⟨d, hd, hid⟩
        exact ⟨d, Or.inl hd, hid⟩
      · rintro ⟨d, hd | hd, hid⟩
        · exact ⟨d, hd, hid⟩
        · exact absurd (by rw [← hid, hd]) h

/-- Every article of a partition is held under its identity and was given in a `Store`
call for the feed of the partition. -/
theorem storageAfter_partition (maxLatest : Nat) (calls : List (Feed × List Article)) :
    ∀ (fid : UUID) (am : SyncMap Article),
      (storageAfter maxLatest calls).articles.lookup fid = some am →
      ∀ (k : UUID) (a : Article), am.lookup k = some a →
        a.UUID = k ∧ ∃ c ∈ calls, c.1.UUID = fid ∧ a ∈ c.2 := by
  induction calls using List.reverseRecOn with
  | nil =>
    intro fid am h
    simp [storageAfter, NewInMemoryStorage, AList.lookup_empty] at h
  | append_singleton calls c ih =>
    intro fid am h k a hk
    rw [storageAfter_append, lookup_articles_Store] at h
    by_cases hf : fid = c.1.UUID
    · rw [if_pos hf] at h
      simp only [Option.some.injEq] at h
      rw [← h] at hk
      rcases lookup_foldl_insert_some _ _ _ _ hk with ⟨h1, h2⟩ | h1
      · exact ⟨h2, c, by simp, hf.symm, h1⟩
      · cases hp : (storageAfter maxLatest calls).articles.lookup c.1.UUID with
        | none =>
          rw [hp] at h1
          simp [AList.lookup_empty] at h1
        | some am0 =>
          rw [hp] at h1
          simp only [Option.getD_some] at h1
          obtain ⟨h2, d, hd, hd1, hd2⟩ := ih _ _ hp k a h1
          exact ⟨h2, d, by simp [hd], by rw [hd1, hf], hd2⟩
    · rw [if_neg hf] at h
      obtain ⟨h2, d, hd, hd1, hd2⟩ := ih _ _ h k a hk
      exact ⟨h2, d, by simp [hd], hd1, hd2⟩

/-- Claim C8: `Article(id)` fails with the not-found error exactly when no feed partition
holds an article under `id`; when it succeeds, the article returned is held under `id` by
some partition; and in a storage filled by `Store` calls that article has the identity
`id` and was given in one of the calls. -/
theorem Article_not_found_iff :
    (∀ (s : InMemoryStorage) (id : UUID),
      (s.Article id = .error "article not found" ↔
        ∀ fid am, s.articles.lookup fid = some am → am.lookup id = none) ∧
      (s.Article id = .error "article not found" ∨ ∃ a, s.Article id = .ok a) ∧
      (∀ a, s.Article id = .ok a →
        ∃ fid am, s.articles.lookup fid = some am ∧ am.lookup id = some a)) ∧
    (∀ (maxLatest : Nat) (calls : List (Feed × List Article)) (id : UUID) (a : Article),
      (storageAfter maxLatest calls).Article id = .ok a →
        a.UUID = id ∧ ∃ c ∈ calls, a ∈ c.2) := by
  have hgen : ∀ (s : InMemoryStorage) (id : UUID) (a : Article), s.Article id = .ok a →
      ∃ fid am, s.articles.lookup fid = some am ∧ am.lookup id = some a := by
    intro s id a h
    unfold InMemoryStorage.Article at h
    cases hf : findArticle id s.articles.values with
    | none => rw [hf] at h; cases h
    | some b =>
      rw [hf] at h
      simp only [Except.ok.injEq] at h
      obtain ⟨am, ham, hl⟩ := findArticle_eq_some _ _ _ hf
      obtain ⟨fid, hfid⟩ := (mem_values_iff _ _).1 ham
      exact ⟨fid, am, hfid, by rw [hl, h]⟩
  refine ⟨fun s id => ⟨?_, ?_, hgen s id⟩, ?_⟩
  · unfold InMemoryStorage.Article
    cases hf : findArticle id s.articles.values with
    | none =>
      simp only [true_iff]
      intro fid am h
      exact (findArticle_eq_none _ _).1 hf am ((mem_values_iff _ _).2 ⟨fid, h⟩)
    | some b =>
      simp only [reduceCtorEq, false_iff]
      intro h
      have := (findArticle_eq_none id s.articles.values).2
        (fun am ham => by
          obtain ⟨fid, hfid⟩ := (mem_values_iff _ _).1 ham
          exact h fid am hfid)
      rw [hf] at this
      cases this
  · unfold InMemoryStorage.Article
    cases hf : findArticle id s.articles.values with
    | none => exact Or.inl rfl
    | some b => exact Or.inr ⟨b, rfl⟩
  · intro maxLatest calls id a h
    obtain ⟨fid, am, h1, h2⟩ := hgen _ _ _ h
    obtain ⟨h3, c, hc, _, hc2⟩ := storageAfter_partition maxLatest calls fid am h1 id a h2
    exact ⟨h3, c, hc, hc2⟩


/-- Claim C9: on a storage filled by `Store` calls, `LatestFromFeed(id, offset)` fails with
the not-found error exactly when no `Store` call was made for a feed of identity `id`;
otherwise it returns what the pagination rule `latest` gives on the articles of the
partition of `id`, so every article returned was given in a `Store` call for that feed, and
the result is the empty list, not an error, when those calls gave no article. -/
theorem LatestFromFeed_not_found_iff (maxLatest : Nat) (calls : List (Feed × List Article))
    (id : UUID) (offset : Time) :
    ((storageAfter maxLatest calls).LatestFromFeed id offset = .error "feed not found" ↔
      ∀ c ∈ calls, c.1.UUID ≠ id) ∧
    ((∃ c ∈ calls, c.1.UUID = id) →
      ∃ am res, (storageAfter maxLatest calls).articles.lookup id = some am ∧
        (storageAfter maxLatest calls).latest am.values offset = .ok res ∧
        (storageAfter maxLatest calls).LatestFromFeed id offset = .ok res ∧
        (∀ a ∈ res, ∃ c ∈ calls, c.1.UUID = id ∧ a ∈ c.2) ∧
        ((∀ c ∈ calls, c.1.UUID = id → c.2 = []) → res = [])) := by
  have hmem := storageAfter_mem_articles maxLatest calls id
  constructor
  · unfold InMemoryStorage.LatestFromFeed
    cases hl : (storageAfter maxLatest calls).articles.lookup id with
    | none =>
      simp only [true_iff]
      intro c hc hid
      exact (hmem.2 ⟨c, hc, hid⟩) hl
    | some am =>
      obtain ⟨res, hres, _⟩ := latest_before (storageAfter maxLatest calls) am.values offset
      simp only [hres, reduceCtorEq, false_iff]
      intro h
      obtain ⟨c, hc, hid⟩ := hmem.1 (by rw [hl]; simp)
      exact h c hc hid
  · intro hex
    cases hl : (storageAfter maxLatest calls).articles.lookup id with
    | none => exact absurd hl (hmem.2 hex)
    | some am =>
      obtain ⟨res, hres, hin⟩ := latest_before (storageAfter maxLatest calls) am.values offset
      have hfrom : ∀ a ∈ res, ∃ c ∈ calls, c.1.UUID = id ∧ a ∈ c.2 := by
        intro a ha
        obtain ⟨k, hk⟩ := (mem_values_iff _ _).1 (hin a ha).1
        exact (storageAfter_partition maxLatest calls id am hl k a hk).2
      refine ⟨am, res, rfl, hres, ?_, hfrom, ?_⟩
      · unfold InMemoryStorage.LatestFromFeed
        rw [hl]
        exact hres
      · intro hempty
        cases res with
        | nil => rfl
        | cons a rest =>
          obtain ⟨c, hc, hid, hac⟩ := hfrom a (List.mem_cons_self _ _)
          rw [hempty c hc hid] at hac
          cases hac

set_option maxRecDepth 100000 in
/-- The feed of the second mock feed in the mock storage. -/
theorem LatestFromFeed_not_found_iff_witness :
    (∃ c ∈ [(mockFeed1, [mockArticle11, mockArticle12]), (mockFeed2, ([] : List Article))],
      c.1.UUID = mockFeed2.UUID) ∧
    ∃ am res,
      (storageAfter 4 [(mockFeed1, [mockArticle11, mockArticle12]),
        (mockFeed2, [])]).articles.lookup mockFeed2.UUID = some am ∧
      (storageAfter 4 [(mockFeed1, [mockArticle11, mockArticle12]),
        (mockFeed2, [])]).latest am.values (t2020 + 10) = .ok res ∧
      (storageAfter 4 [(mockFeed1, [mockArticle11, mockArticle12]),
        (mockFeed2, [])]).LatestFromFeed mockFeed2.UUID (t2020 + 10) = .ok res ∧
      (∀ a ∈ res, ∃ c ∈ [(mockFeed1, [mockArticle11, mockArticle12]),
        (mockFeed2, ([] : List Article))], c.1.UUID = mockFeed2.UUID ∧ a ∈ c.2) ∧
      ((∀ c ∈ [(mockFeed1, [mockArticle11, mockArticle12]), (mockFeed2, ([] : List Article))],
        c.1.UUID = mockFeed2.UUID → c.2 = []) → res = []) :=
  ⟨by decide,
    (LatestFromFeed_not_found_iff 4
      [(mockFeed1, [mockArticle11, mockArticle12]), (mockFeed2, [])]
      mockFeed2.UUID (t2020 + 10)).2 (by decide)⟩


/-! ## `UUIDFromString` -/

theorem length_leBytes (width n : Nat) : (leBytes width n).length = width := by
  simp [leBytes]

theorem length_md5Sum (msg : List Nat) : (md5Sum msg).length = 16 := by
  simp [md5Sum, length_leBytes]

theorem md5Sum_lt (msg : List Nat) : ∀ b ∈ md5Sum msg, b < 256 := by
  intro b hb
  simp only [md5Sum, leBytes, List.mem_append, List.mem_map] at hb
  rcases hb with ((⟨i, _, rfl⟩ | ⟨i, _, rfl⟩) | ⟨i, _, rfl⟩) | ⟨i, _, rfl⟩ <;>
    exact Nat.mod_lt _ (by norm_num)

set_option maxRecDepth 100000 in
/-- Claim C10: for every string `s`, `UUIDFromString s` is the MD5 digest of the UTF-8
bytes of `s`, 16 bytes, taken as a UUID (the error of `uuid.FromBytes` never occurs); in
particular `hello world` gives 5eb63bbb-e01e-eed0-93cb-22bb8f5acdc3 and `good bye` gives
2ff61394-2f0c-135c-7007-802a19494ad0. -/
theorem UUIDFromString_is_md5 :
    (∀ s : String, uuidFromBytes (md5Sum (utf8Bytes s)) = .ok (UUIDFromString s) ∧
      UUIDFromString s = md5Sum (utf8Bytes s) ∧
      (UUIDFromString s).length = 16 ∧ ∀ b ∈ UUIDFromString s, b < 256) ∧
    UUIDFromString "hello world"
      = [0x5e, 0xb6, 0x3b, 0xbb, 0xe0, 0x1e, 0xee, 0xd0,
         0x93, 0xcb, 0x22, 0xbb, 0x8f, 0x5a, 0xcd, 0xc3] ∧
    UUID.toCanonical (UUIDFromString "hello world") = "5eb63bbb-e01e-eed0-93cb-22bb8f5acdc3" ∧
    UUIDFromString "good bye"
      = [0x2f, 0xf6, 0x13, 0x94, 0x2f, 0x0c, 0x13, 0x5c,
         0x70, 0x07, 0x80, 0x2a, 0x19, 0x49, 0x4a, 0xd0] ∧
    UUID.toCanonical (UUIDFromString "good bye") = "2ff61394-2f0c-135c-7007-802a19494ad0" := by
  have hgen : ∀ s : String, UUIDFromString s = md5Sum (utf8Bytes s) := by
    intro s
    simp [UUIDFromString, uuidFromBytes, length_md5Sum]
  refine ⟨fun s => ⟨?_, hgen s, ?_, ?_⟩, by decide, by decide, by decide, by decide⟩
  · simp [hgen, uuidFromBytes, length_md5Sum]
  · rw [hgen]; exact length_md5Sum _
  · rw [hgen]; exact md5Sum_lt _

/-! ## The tests of `internal/api/api_test.go`, replayed on the model -/

set_option maxRecDepth 100000 in
/-- Test `getting feeds`: the two mock feeds in the order of their titles. -/
theorem test_getting_feeds : (mockStorage 2).Feeds = .ok [mockFeed1, mockFeed2] := by
  decide

set_option maxRecDepth 100000 in
/-- Test `getting latest`: minimum 4, all four articles, newest first. -/
theorem test_getting_latest :
    (mockStorage 4).Latest (t2020 + 1000)
      = .ok [mockArticle22, mockArticle12, mockArticle21, mockArticle11] := by
  decide

set_option maxRecDepth 100000 in
/-- Test `getting latest with offset`: only the articles before the offset. -/
theorem test_getting_latest_with_offset :
    (mockStorage 4).Latest (t2010 + 1000) = .ok [mockArticle21, mockArticle11] := by
  decide

set_option maxRecDepth 100000 in
/-- Test `getting latest with offset on exact time`: the article at the offset is left out. -/
theorem test_getting_latest_on_exact_time :
    (mockStorage 4).Latest (t2010 + 1) = .ok [mockArticle11] := by
  decide

set_option maxRecDepth 100000 in
/-- Test `getting latest with 1 article`: minimum 1, the newest article only. -/
theorem test_getting_latest_with_1_article :
    (mockStorage 1).Latest (t2020 + 1000) = .ok [mockArticle22] := by
  decide

set_option maxRecDepth 100000 in
/-- Test `getting latest from specific feed`. -/
theorem test_getting_latest_from_feed :
    (mockStorage 4).LatestFromFeed (UUIDFromString "https://mock2.local") (t2020 + 1000)
      = .ok [mockArticle22, mockArticle21] := by
  decide

set_option maxRecDepth 100000 in
/-- Tests `getting specific article` and `getting non-existant article`. -/
theorem test_getting_article :
    (mockStorage 4).Article (UUIDFromString "https://mock2.local/article/2")
      = .ok mockArticle22 ∧
    (mockStorage 4).Article (UUIDFromString "oops") = .error "article not found" := by
  decide

set_option maxRecDepth 100000 in
/-- Test `getting latest from non-existant feed`. -/
theorem test_getting_latest_from_missing_feed :
    (mockStorage 4).LatestFromFeed (UUIDFromString "oops") (t2020 + 1000)
      = .error "feed not found" := by
  decide

/-! ## The constructors: `NewInMemoryStorage`, `NewReader` -/

/-- Claim C16: `NewInMemoryStorage(n)` builds an empty storage whose minimum is 10 when
`n = 0` and `n` otherwise; so the minimum is at least 1 and, `n` being a `uint`, the
subtraction `minLatest-1` of `latest` does not wrap around. -/
theorem NewInMemoryStorage_minLatest (n : Nat) :
    (NewInMemoryStorage n).feeds = ∅ ∧ (NewInMemoryStorage n).articles = ∅ ∧
    (NewInMemoryStorage n).minLatest = (if n = 0 then 10 else n) ∧
    (NewInMemoryStorage 0).minLatest = 10 ∧ (NewInMemoryStorage 7).minLatest = 7 ∧
    1 ≤ (NewInMemoryStorage n).minLatest ∧
    (n < 2 ^ 64 →
      uintPred (NewInMemoryStorage n).minLatest + 1 = (NewInMemoryStorage n).minLatest) := by
  refine ⟨rfl, rfl, rfl, rfl, rfl, ?_, ?_⟩
  · simp only [NewInMemoryStorage]
    split <;> omega
  · intro hn
    simp only [NewInMemoryStorage, uintPred]
    split <;> omega

theorem foldl_options_workers {σ : Type} (options : List (ReaderOption σ))
    (h : ∀ o ∈ options, IsOption o) :
    ∀ r : Reader σ, 1 ≤ r.workers → 1 ≤ (options.foldl (fun r opt => opt r) r).workers := by
  induction options with
  | nil => intro r hr; exact hr
  | cons o rest ih =>
    intro r hr
    rw [List.foldl_cons]
    apply ih (fun o2 ho2 => h o2 (List.mem_cons_of_mem _ ho2))
    cases h o (List.mem_cons_self _ _) with
    | httpClient client => exact hr
    | workers workers =>
      simp only [WithWorkers]
      split
      · exact le_refl 1
      · show 1 ≤ workers
        omega
    | retry retry => exact hr
    | retryNotModified retry => exact hr
    | retryAfterError retry => exact hr

/-- Claim C17: `NewReader(s, options...)` has the defaults (8 workers, retry 60 s, retry
after a 304 120 s, retry after an error 300 s) when no option is given, and in general is
the given options applied in order to the reader of the defaults; each option sets its own
field and no other, `WithWorkers(0)` sets the workers to 1, and a reader built from the
options of the package has at least one worker. -/
theorem NewReader_defaults_then_options {σ : Type} (s : Storage σ)
    (options : List (ReaderOption σ)) :
    ((NewReader s []).workers = 8 ∧ (NewReader s []).retry = 60 * Second ∧
      (NewReader s []).retryNotModified = 120 * Second ∧
      (NewReader s []).retryAfterError = 300 * Second ∧
      (NewReader s []).c = some defaultHTTPClient) ∧
    NewReader s options = options.foldl (fun r opt => opt r) (NewReader s []) ∧
    (∀ (r : Reader σ) (n : Nat),
      WithWorkers n r = { r with workers := if n = 0 then 1 else n }) ∧
    (∀ (r : Reader σ) (d : Duration), WithRetryDuration d r = { r with retry := d }) ∧
    (∀ (r : Reader σ) (d : Duration),
      WithRetryNotModifiedDuration d r = { r with retryNotModified := d }) ∧
    (∀ (r : Reader σ) (d : Duration),
      WithRetryAfterErrorDuration d r = { r with retryAfterError := d }) ∧
    (∀ (r : Reader σ) (c : HTTPClient), WithHTTPClient c r = { r with c := some c }) ∧
    (NewReader s [WithWorkers 0]).workers = 1 ∧
    ((∀ o ∈ options, IsOption o) → 1 ≤ (NewReader s options).workers) := by
  refine ⟨⟨rfl, rfl, rfl, rfl, rfl⟩, ?_, ?_, fun _ _ => rfl, fun _ _ => rfl, fun _ _ => rfl,
    fun _ _ => rfl, rfl, ?_⟩
  · simp only [NewReader, List.foldl_append, List.foldl_cons, List.foldl_nil]
  · intro r n
    simp only [WithWorkers]
    by_cases hn : n = 0
    · simp [hn]
    · have : ¬ n ≤ 0 := by omega
      simp [hn, this]
  · intro h
    have hd : NewReader s options = options.foldl (fun r opt => opt r) (NewReader s []) := by
      simp only [NewReader, List.foldl_append, List.foldl_cons, List.foldl_nil]
    rw [hd]
    exact foldl_options_workers options h _ (show 1 ≤ 8 by omega)

/-- The reader of the test `with custom options` and the one of `with 0 workers`. -/
theorem NewReader_defaults_then_options_witness :
    (∀ o ∈ ([WithWorkers 10, WithRetryDuration (40 * Second),
        WithRetryNotModifiedDuration (80 * Second),
        WithRetryAfterErrorDuration (120 * Second)] : List (ReaderOption InMemoryStorageRef)),
      IsOption o) ∧
    1 ≤ (NewReader inMemoryStorage [WithWorkers 10, WithRetryDuration (40 * Second),
        WithRetryNotModifiedDuration (80 * Second),
        WithRetryAfterErrorDuration (120 * Second)]).workers :=
  have h : ∀ o ∈ ([WithWorkers 10, WithRetryDuration (40 * Second),
        WithRetryNotModifiedDuration (80 * Second),
        WithRetryAfterErrorDuration (120 * Second)] : List (ReaderOption InMemoryStorageRef)),
      IsOption o := by
    intro o ho
    simp only [List.mem_cons, List.mem_singleton, List.not_mem_nil, or_false] at ho
    rcases ho with rfl | rfl | rfl | rfl
    · exact IsOption.workers 10
    · exact IsOption.retry _
    · exact IsOption.retryNotModified _
    · exact IsOption.retryAfterError _
  ⟨h, (NewReader_defaults_then_options inMemoryStorage _).2.2.2.2.2.2.2.2 h⟩

/-- Test `with custom options` of `TestNewReader`. -/
theorem test_NewReader_custom_options :
    (NewReader inMemoryStorage [WithWorkers 10, WithRetryDuration (40 * Second),
        WithRetryNotModifiedDuration (80 * Second),
        WithRetryAfterErrorDuration (120 * Second)]).workers = 10 ∧
    (NewReader inMemoryStorage [WithWorkers 10, WithRetryDuration (40 * Second),
        WithRetryNotModifiedDuration (80 * Second),
        WithRetryAfterErrorDuration (120 * Second)]).retry = 40 * Second ∧
    (NewReader inMemoryStorage [WithWorkers 10, WithRetryDuration (40 * Second),
        WithRetryNotModifiedDuration (80 * Second),
        WithRetryAfterErrorDuration (120 * Second)]).retryNotModified = 80 * Second ∧
    (NewReader inMemoryStorage [WithWorkers 10, WithRetryDuration (40 * Second),
        WithRetryNotModifiedDuration (80 * Second),
        WithRetryAfterErrorDuration (120 * Second)]).retryAfterError = 120 * Second :=
  ⟨rfl, rfl, rfl, rfl⟩

/-! ## `mapParsedFeedToFeedAndArticles` -/

/-- The article of an item, field by field. -/
theorem mapItem_fields (item : GofeedItem) :
    (mapItem item).GUID = item.GUID ∧ (mapItem item).Title = item.Title ∧
    (mapItem item).Description = item.Description ∧ (mapItem item).Link = item.Link ∧
    (mapItem item).Published = item.PublishedParsed.getD zeroTime := by
  cases hp : item.PublishedParsed <;> cases hi : item.Image <;>
    simp only [mapItem, hp, hi, Option.getD_none, Option.getD_some] <;>
    (repeat' split) <;> simp

/-- The image of the article of an item. -/
theorem mapItem_image (item : GofeedItem) :
    (∀ image, item.Image = some image →
      (mapItem item).Image = some { Title := image.Title, URL := image.URL }) ∧
    (item.Image = none →
      ∀ media first rest u, item.Extensions.lookup "media" = some media →
        media.lookup "thumbnail" = some (first :: rest) → first.Attrs.lookup "url" = some u →
        (mapItem item).Image = some { Title := "Thumbnail", URL := u }) ∧
    (item.Image = none →
      (¬ ∃ media first rest u, item.Extensions.lookup "media" = some media ∧
        media.lookup "thumbnail" = some (first :: rest) ∧ first.Attrs.lookup "url" = some u) →
      (mapItem item).Image = none) := by
  refine ⟨?_, ?_, ?_⟩
  · intro image h
    simp [mapItem, h]
  · intro h media first rest u h1 h2 h3
    simp [mapItem, h, h1, h2, h3]
  · intro h hno
    cases h1 : item.Extensions.lookup "media" with
    | none => simp [mapItem, h, h1]
    | some media =>
      cases h2 : media.lookup "thumbnail" with
      | none => simp [mapItem, h, h1, h2]
      | some thumb =>
        cases thumb with
        | nil => simp [mapItem, h, h1, h2]
        | cons first rest =>
          cases h3 : first.Attrs.lookup "url" with
          | none => simp [mapItem, h, h1, h2, h3]
          | some u => exact absurd ⟨media, first, rest, u, h1, h2, h3⟩ hno

/-- Claim C18: `mapParsedFeedToFeedAndArticles` sets the `Title` and the `Link` of the feed
from the parsed feed and leaves `FeedLink` and `ModifiedAt` as they are; it returns one
article for each parsed item, in the same order, with `GUID`, `Title`, `Description` and
`Link` copied, `Published` the parsed publication instant or the zero instant when there
is none, and `Image` the parsed image of the item if there is one, else an image titled
`Thumbnail` with the `url` attribute of the first `media:thumbnail` extension when that
attribute exists, else nil. -/
theorem mapParsedFeedToFeedAndArticles_spec (pf : GofeedFeed) (f : Feed) :
    (mapParsedFeedToFeedAndArticles pf f).1.Title = pf.Title ∧
    (mapParsedFeedToFeedAndArticles pf f).1.Link = pf.Link ∧
    (mapParsedFeedToFeedAndArticles pf f).1.FeedLink = f.FeedLink ∧
    (mapParsedFeedToFeedAndArticles pf f).1.ModifiedAt = f.ModifiedAt ∧
    (mapParsedFeedToFeedAndArticles pf f).2.length = pf.Items.length ∧
    ∀ (i : Nat) (item : GofeedItem), pf.Items.get? i = some item →
      ∃ a, (mapParsedFeedToFeedAndArticles pf f).2.get? i = some a ∧
        a.GUID = item.GUID ∧ a.Title = item.Title ∧ a.Description = item.Description ∧
        a.Link = item.Link ∧ a.Published = item.PublishedParsed.getD zeroTime ∧
        (∀ image, item.Image = some image →
          a.Image = some { Title := image.Title, URL := image.URL }) ∧
        (item.Image = none →
          ∀ media first rest u, item.Extensions.lookup "media" = some media →
            media.lookup "thumbnail" = some (first :: rest) →
            first.Attrs.lookup "url" = some u →
            a.Image = some { Title := "Thumbnail", URL := u }) ∧
        (item.Image = none →
          (¬ ∃ media first rest u, item.Extensions.lookup "media" = some media ∧
            media.lookup "thumbnail" = some (first :: rest) ∧
            first.Attrs.lookup "url" = some u) →
          a.Image = none) := by
  refine ⟨rfl, rfl, rfl, rfl, by simp [mapParsedFeedToFeedAndArticles], ?_⟩
  intro i item hi
  have hget : (mapParsedFeedToFeedAndArticles pf f).2.get? i = some (mapItem item) := by
    rw [List.get?_eq_getElem?] at hi ⊢
    simp only [mapParsedFeedToFeedAndArticles, List.getElem?_map, hi, Option.map_some']
  refine ⟨mapItem item, hget, ?_⟩
  obtain ⟨h1, h2, h3, h4, h5⟩ := mapItem_fields item
  obtain ⟨h6, h7, h8⟩ := mapItem_image item
  exact ⟨h1, h2, h3, h4, h5, h6, h7, h8⟩

/-- Test `successful feed` of `TestReader_getFeedContent`: the feed and the articles. -/
theorem test_successful_feed_mapping :
    mapParsedFeedToFeedAndArticles w3schoolsFeed rssFeed =
      ({ FeedLink := "http://rss.local", ModifiedAt := zeroTime,
         Title := "W3Schools Home Page", Link := "https://www.w3schools.com" },
       [ { GUID := "", Link := "https://www.w3schools.com/xml/xml_rss.asp",
           Published := zeroTime, Title := "RSS Tutorial",
           Description := "New RSS tutorial on W3Schools", Image := none },
         { GUID := "", Link := "https://www.w3schools.com/xml", Published := zeroTime,
           Title := "XML Tutorial", Description := "New XML tutorial on W3Schools",
           Image := some { Title := "Thumbnail", URL := "http://image" } } ]) := by
  decide

/-! ## `getFeedContent` -/

/-- A `max-age` of 32 bits times `time.Second` does not overflow a `time.Duration`. -/
theorem wrapInt64_seconds {m : Int} (h1 : -(2 ^ 31) ≤ m) (h2 : m < 2 ^ 31) :
    wrapInt64 (Second * m) = m * Second := by
  unfold wrapInt64 Second
  omega

/-- The delay after a 304: the larger of `retryNotModified` and the delay held. -/
theorem ite_gt_eq_max (a b : Int) (x : Option GofeedFeed) :
    (if b < a then ({ f := x, d := a } : cachedParsedFeed) else { f := x, d := b })
      = { f := x, d := max a b } := by
  by_cases h : b < a
  · rw [if_pos h, max_eq_left (le_of_lt h)]
  · rw [if_neg h, max_eq_right (not_lt.1 h)]

/-- What `getFeedContent` returns for a response: the delay, the parsed feed, the error. -/
theorem getFeedContent_response {σ : Type} (r : Reader σ) (f : Feed) (resp : Response)
    (hrange : MaxAgeInRange resp) :
    (r.getFeedContent f none (.ok resp)).1.d
      = (if resp.StatusCode = 304 then max r.retryNotModified (responseDelay r resp)
         else responseDelay r resp) ∧
    (r.getFeedContent f none (.ok resp)).1.f
      = (if resp.StatusCode < 200 ∨ resp.StatusCode ≥ 300 then none
         else match resp.parse with
           | .ok pf => some pf
           | .error _ => none) ∧
    (r.getFeedContent f none (.ok resp)).2
      = (match resp.close with
         | some ce => some ce
         | none =>
           if resp.StatusCode < 200 ∨ resp.StatusCode ≥ 300 then
             if resp.StatusCode = 304 then some Error.ErrNotModified
             else some (Error.HTTPError resp.StatusCode resp.Status)
           else match resp.parse with
             | .ok _ => none
             | .error err => some err) := by
  have hstatus : resp.StatusCode = 304 → (resp.StatusCode < 200 ∨ resp.StatusCode ≥ 300) := by
    intro h; omega
  have hmul : ∀ directives, resp.cacheControl = .ok directives →
      wrapInt64 (Second * directives.MaxAge) = directives.MaxAge * Second :=
    fun directives hc => wrapInt64_seconds (hrange directives hc).1 (hrange directives hc).2
  cases hc : resp.cacheControl with
  | error e =>
    cases hcl : resp.close <;> cases hp : resp.parse <;>
      by_cases h304 : resp.StatusCode = 304 <;>
      by_cases hnon : (resp.StatusCode < 200 ∨ resp.StatusCode ≥ 300) <;>
      first
        | exact absurd (hstatus h304) hnon
        | simp [Reader.getFeedContent, responseDelay, hc, hcl, hp, h304, hnon, ite_gt_eq_max]
  | ok directives =>
    have hm := hmul directives hc
    by_cases hpos : directives.MaxAge > 0 <;>
      cases hcl : resp.close <;> cases hp : resp.parse <;>
      by_cases h304 : resp.StatusCode = 304 <;>
      by_cases hnon : (resp.StatusCode < 200 ∨ resp.StatusCode ≥ 300) <;>
      first
        | exact absurd (hstatus h304) hnon
        | simp [Reader.getFeedContent, responseDelay, hc, hcl, hp, h304, hnon, hpos, hm,
            ite_gt_eq_max]

/-- Claim C11 as stated fails, twice.  A response with status 200 whose body parses as a
feed, but whose `Close` returns an error, makes `getFeedContent` return that error.  And a
response with status 200 whose body parses and closes without error, but whose
`Cache-Control` header does not parse, so that it has no positive `max-age`, gets the delay
`retry_after_error`, 300 s with the default options, not `retry`, 60 s. -/
theorem getFeedContent_success_as_stated_fails :
    ((200 ≤ responseCloseFails.StatusCode ∧ responseCloseFails.StatusCode < 300) ∧
      responseCloseFails.parse = .ok w3schoolsFeed ∧
      (mockReader.getFeedContent rssFeed none (.ok responseCloseFails)).2
        = some (Error.other "close failed") ∧
      (mockReader.getFeedContent rssFeed none (.ok responseCloseFails)).2 ≠ none) ∧
    ((200 ≤ responseBadCacheControl.StatusCode ∧ responseBadCacheControl.StatusCode < 300) ∧
      responseBadCacheControl.parse = .ok w3schoolsFeed ∧
      responseBadCacheControl.close = none ∧
      mockReader.getFeedContent rssFeed none (.ok responseBadCacheControl)
        = ({ f := some w3schoolsFeed, d := 300 * Second }, none) ∧
      mockReader.retry = 60 * Second ∧
      (mockReader.getFeedContent rssFeed none (.ok responseBadCacheControl)).1.d
        ≠ mockReader.retry) := by
  decide

/-- Claim C11, amended: for a response with a status in [200,300) whose body parses as a
feed and closes without error, `getFeedContent` returns no error, the parsed feed, and a
delay of `max-age` seconds when the `Cache-Control` header parses and yields a positive
`max-age`, of `retry` when it parses and yields none (absent header included), and of
`retry_after_error` when it does not parse. -/
theorem getFeedContent_success {σ : Type} (r : Reader σ) (f : Feed) (resp : Response)
    (pf : GofeedFeed) (hrange : MaxAgeInRange resp)
    (h2xx : 200 ≤ resp.StatusCode ∧ resp.StatusCode < 300) (hparse : resp.parse = .ok pf)
    (hclose : resp.close = none) :
    (r.getFeedContent f none (.ok resp)).2 = none ∧
    (r.getFeedContent f none (.ok resp)).1.f = some pf ∧
    (∀ directives, resp.cacheControl = .ok directives → 0 < directives.MaxAge →
      (r.getFeedContent f none (.ok resp)).1.d = directives.MaxAge * Second) ∧
    (∀ directives, resp.cacheControl = .ok directives → directives.MaxAge ≤ 0 →
      (r.getFeedContent f none (.ok resp)).1.d = r.retry) ∧
    (∀ e, resp.cacheControl = .error e →
      (r.getFeedContent f none (.ok resp)).1.d = r.retryAfterError) := by
  obtain ⟨hd, hf, he⟩ := getFeedContent_response r f resp hrange
  have h304 : ¬ resp.StatusCode = 304 := by omega
  have hnon : ¬ (resp.StatusCode < 200 ∨ resp.StatusCode ≥ 300) := by omega
  rw [if_neg h304] at hd
  rw [if_neg hnon, hparse] at hf
  rw [hclose] at he
  simp only [hnon, if_false, hparse] at he
  refine ⟨he, hf, ?_, ?_, ?_⟩
  · intro directives hc hpos
    rw [hd]
    simp [responseDelay, hc, hpos]
  · intro directives hc hpos
    rw [hd]
    have : ¬ 0 < directives.MaxAge := by omega
    simp [responseDelay, hc, this]
  · intro e hc
    rw [hd]
    simp [responseDelay, hc]

/-- Test `custom feed timeout`: status 200, `max-age=123`, the delay is 123 s. -/
theorem getFeedContent_success_witness :
    MaxAgeInRange { responseCloseFails with close := none } ∧
    (mockReader.getFeedContent rssFeed none
        (.ok { responseCloseFails with close := none })).2 = none ∧
    (mockReader.getFeedContent rssFeed none
        (.ok { responseCloseFails with close := none })).1.f = some w3schoolsFeed ∧
    (mockReader.getFeedContent rssFeed none
        (.ok { responseCloseFails with close := none })).1.d = 123 * Second :=
  have hrange : MaxAgeInRange { responseCloseFails with close := none } := by
    intro directives h
    have hd : directives = { MaxAge := 123 } := by
      simp only [responseCloseFails, Except.ok.injEq] at h
      exact h.symm
    rw [hd]
    decide
  have h := getFeedContent_success mockReader rssFeed { responseCloseFails with close := none }
    w3schoolsFeed hrange (by decide) rfl rfl
  ⟨hrange, h.1, h.2.1, h.2.2.1 { MaxAge := 123 } rfl (by decide)⟩

/-- Claim C12 as stated fails: for a response with status 304 whose `Close` returns an
error, `getFeedContent` returns that error, not `ErrNotModified`. -/
theorem getFeedContent_not_modified_as_stated_fails :
    response304CloseFails.StatusCode = 304 ∧
    (mockReader.getFeedContent rssFeed none (.ok response304CloseFails)).2
      = some (Error.other "close failed") ∧
    (mockReader.getFeedContent rssFeed none (.ok response304CloseFails)).2
      ≠ some Error.ErrNotModified := by
  decide

/-- Claim C12, amended: for a response with status 304, `getFeedContent` returns no parsed
feed and a delay equal to the larger of `retry_not_modified` and the delay derived from the
response, so never below `retry_not_modified`; the error it returns is `ErrNotModified`
when the body closes without error, and the error of `Close` otherwise. -/
theorem getFeedContent_not_modified {σ : Type} (r : Reader σ) (f : Feed) (resp : Response)
    (hrange : MaxAgeInRange resp) (h304 : resp.StatusCode = 304) :
    (resp.close = none →
      (r.getFeedContent f none (.ok resp)).2 = some Error.ErrNotModified) ∧
    (∀ ce, resp.close = some ce → (r.getFeedContent f none (.ok resp)).2 = some ce) ∧
    (r.getFeedContent f none (.ok resp)).1.f = none ∧
    (r.getFeedContent f none (.ok resp)).1.d
      = max r.retryNotModified (responseDelay r resp) ∧
    r.retryNotModified ≤ (r.getFeedContent f none (.ok resp)).1.d := by
  obtain ⟨hd, hf, he⟩ := getFeedContent_response r f resp hrange
  have hnon : resp.StatusCode < 200 ∨ resp.StatusCode ≥ 300 := by omega
  rw [if_pos h304] at hd
  rw [if_pos hnon] at hf
  refine ⟨?_, ?_, hf, hd, ?_⟩
  · intro hcl
    rw [he, hcl]
    simp [h304]
  · intro ce hcl
    rw [he, hcl]
  · rw [hd]
    exact le_max_left _ _

/-- A 304 without `Cache-Control` header, default options: the delay is 120 s. -/
theorem getFeedContent_not_modified_witness :
    MaxAgeInRange response304CloseFails ∧ response304CloseFails.StatusCode = 304 ∧
    (mockReader.getFeedContent rssFeed none (.ok response304CloseFails)).1.f = none ∧
    (mockReader.getFeedContent rssFeed none (.ok response304CloseFails)).1.d
      = max mockReader.retryNotModified (responseDelay mockReader response304CloseFails) ∧
    mockReader.retryNotModified
      ≤ (mockReader.getFeedContent rssFeed none (.ok response304CloseFails)).1.d :=
  have hrange : MaxAgeInRange response304CloseFails := by
    intro directives h
    have hd : directives = { MaxAge := -1 } := by
      simp only [response304CloseFails, Except.ok.injEq] at h
      exact h.symm
    rw [hd]
    decide
  have h := getFeedContent_not_modified mockReader rssFeed response304CloseFails hrange rfl
  ⟨hrange, rfl, h.2.2.1, h.2.2.2.1, h.2.2.2.2⟩

/-- Claim C13, the code at the failing input: the test `invalid feed` (status 200, no
`Cache-Control` header, a body that does not parse, default options) returns the parse
error with the delay `retry`, 60 s, while `retry_after_error` is 300 s. -/
theorem getFeedContent_invalid_feed_delay :
    mockReader.getFeedContent rssFeed none
        (.ok (response200 (.error (Error.other "Failed to detect feed type"))))
      = ({ f := none, d := 60 * Second },
         some (Error.other "Failed to detect feed type")) ∧
    mockReader.retry = 60 * Second ∧ mockReader.retryAfterError = 300 * Second ∧
    (mockReader.getFeedContent rssFeed none
        (.ok (response200 (.error (Error.other "Failed to detect feed type"))))).1.d
      ≠ mockReader.retryAfterError := by
  decide

/-- A body that does not parse: the parse error is returned with the delay derived from
the response, whatever `retry_after_error` is. -/
theorem getFeedContent_parse_error {σ : Type} (r : Reader σ) (f : Feed) (resp : Response)
    (err : Error) (hrange : MaxAgeInRange resp)
    (h2xx : 200 ≤ resp.StatusCode ∧ resp.StatusCode < 300) (hparse : resp.parse = .error err)
    (hclose : resp.close = none) :
    r.getFeedContent f none (.ok resp) = ({ f := none, d := responseDelay r resp }, some err) := by
  obtain ⟨hd, hf, he⟩ := getFeedContent_response r f resp hrange
  have h304 : ¬ resp.StatusCode = 304 := by omega
  have hnon : ¬ (resp.StatusCode < 200 ∨ resp.StatusCode ≥ 300) := by omega
  rw [if_neg h304] at hd
  rw [if_neg hnon, hparse] at hf
  rw [hclose] at he
  simp only [hnon, if_false, hparse] at he
  cases hres : r.getFeedContent f none (.ok resp) with
  | mk cf e =>
    rw [hres] at hd hf he
    cases cf with
    | mk f0 d0 =>
      simp only at hd hf he
      rw [hd, hf, he]

/-- Test `successful feed` of `TestReader_getFeedContent`: no error, the delay `retry`. -/
theorem test_getFeedContent_successful_feed :
    mockReader.getFeedContent rssFeed none (.ok (response200 (.ok w3schoolsFeed)))
      = ({ f := some w3schoolsFeed, d := 60 * Second }, none) := by
  decide

/-! ## The storage that holds pointers -/

/-- What the storage shows under a key: the feed object its pointer points to. -/
theorem lookup_mapValues {V W : Type} (g : V → W) (m : SyncMap V) (k : UUID) :
    (SyncMap.mapValues g m).lookup k = (m.lookup k).map g := by
  cases m with
  | mk entries nd =>
    simp only [SyncMap.mapValues, AList.lookup]
    clear nd
    induction entries with
    | nil => rfl
    | cons e rest ih =>
      by_cases h : k = e.1
      · subst h
        simp only [List.map_cons]
        rw [List.dlookup_cons_eq, List.dlookup_cons_eq]
        rfl
      · simp only [List.map_cons]
        rw [List.dlookup_cons_ne _ _ h,
          List.dlookup_cons_ne _ (⟨e.1, g e.2⟩ : Sigma (fun _ : UUID => W)) h]
        exact ih

theorem values_mapValues {V W : Type} (g : V → W) (m : SyncMap V) :
    (SyncMap.mapValues g m).values = m.values.map g := by
  simp [SyncMap.mapValues, SyncMap.values, List.map_map, Function.comp_def]

/-- The storage that holds pointers, read while the feed objects are as in `heap`, is the
storage that holds the feeds by value: it is built alike, it answers alike, and `Store`
on a pointer is `Store` on the feed object it points to. -/
theorem deref_reads (s : InMemoryStorageRef) (heap : Heap) :
    (∀ n, (NewInMemoryStorageRef n).deref heap = NewInMemoryStorage n) ∧
    (s.deref heap).Feeds = (s.Feeds heap).map (List.map heap) ∧
    (∀ offset, (s.deref heap).Latest offset = s.Latest offset) ∧
    (∀ id offset, (s.deref heap).LatestFromFeed id offset = s.LatestFromFeed id offset) ∧
    (∀ id, (s.deref heap).Article id = s.Article id) ∧
    (∀ p articles,
      (s.Store heap p articles).2 = ((s.deref heap).Store (heap p) articles).2 ∧
      ((s.Store heap p articles).1.deref heap).articles
        = ((s.deref heap).Store (heap p) articles).1.articles ∧
      ((s.Store heap p articles).1.deref heap).minLatest
        = ((s.deref heap).Store (heap p) articles).1.minLatest ∧
      ∀ k, ((s.Store heap p articles).1.deref heap).feeds.lookup k
        = ((s.deref heap).Store (heap p) articles).1.feeds.lookup k) := by
  refine ⟨fun n => rfl, ?_, fun _ => rfl, fun _ _ => rfl, fun _ => rfl, ?_⟩
  · simp only [InMemoryStorage.Feeds, InMemoryStorageRef.Feeds, InMemoryStorageRef.deref,
      values_mapValues, Except.map, sortSlice]
    congr 1
    exact (List.map_insertionSort
      (fun a b : FeedPtr => stringLess (heap b).Title (heap a).Title = false)
      (fun a b : Feed => stringLess b.Title a.Title = false) heap s.feeds.values
      (fun a _ b _ => Iff.rfl)).symm
  · intro p articles
    refine ⟨rfl, rfl, rfl, ?_⟩
    intro k
    simp only [InMemoryStorageRef.deref, InMemoryStorageRef.Store, InMemoryStorage.Store,
      lookup_mapValues]
    by_cases hk : k = (heap p).UUID
    · subst hk
      simp [Feed.UUID]
    · simp [AList.lookup_insert_ne hk, lookup_mapValues]

/-! ## The loop of a worker -/

theorem Heap.write_same (heap : Heap) (p : FeedPtr) (f : Feed) : Heap.write heap p f p = f := by
  simp [Heap.write]

theorem Heap.write_of_ne (heap : Heap) (p q : FeedPtr) (f : Feed) (h : q ≠ p) :
    Heap.write heap p f q = heap q := by
  simp [Heap.write, h]

theorem Heap.write_write (heap : Heap) (p : FeedPtr) (f g : Feed) :
    Heap.write (Heap.write heap p f) p g = Heap.write heap p g := by
  funext q
  by_cases h : q = p <;> simp [Heap.write, h]

/-- When `getFeedContent` returns no error it returns a parsed feed, so the worker never
dereferences a nil parsed feed. -/
theorem getFeedContent_feed_of_no_error {σ : Type} (r : Reader σ) (f : Feed)
    (newRequest : Option Error) (doResult : Except Error Response)
    (h : (r.getFeedContent f newRequest doResult).2 = none) :
    ∃ pf, (r.getFeedContent f newRequest doResult).1.f = some pf := by
  cases newRequest with
  | some err => simp [Reader.getFeedContent] at h
  | none =>
    cases doResult with
    | error err => simp [Reader.getFeedContent] at h
    | ok resp =>
      simp only [Reader.getFeedContent] at h ⊢
      by_cases hnon : (resp.StatusCode < 200 ∨ resp.StatusCode ≥ 300) <;>
        by_cases h304 : resp.StatusCode = 304 <;>
        cases hcl : resp.close <;> cases hp : resp.parse <;>
        simp [hnon, h304, hcl, hp] at h ⊢

/-- An iteration whose fetch returns an error: the feed object is stamped, `Store` is not
called, the feed is queued again with the delay returned and the error is sent. -/
theorem processFeed_of_error {σ : Type} (r : Reader σ) (storage : σ) (heap : Heap)
    (f : FeedPtr) (newRequest : Option Error) (doResult : Except Error Response) (now : Time)
    (err : Error) (h : (r.getFeedContent (heap f) newRequest doResult).2 = some err) :
    r.processFeed storage heap f newRequest doResult now
      = some { heap := stampedHeap heap f now, storage := storage, stored := [],
               queued := [newQueuedFeed f (r.getFeedContent (heap f) newRequest doResult).1.d],
               errors := [err] } := by
  cases hg : r.getFeedContent (heap f) newRequest doResult with
  | mk cf e =>
    rw [hg] at h
    simp only at h
    subst h
    simp only [Reader.processFeed, hg, stampedHeap]

/-- An iteration whose fetch returns the parsed feed `pf`: the feed object is stamped and
mapped, `Store` is called once on that feed with the articles of `pf`, the feed is queued
again with the delay returned, and the error of `Store`, if any, is sent. -/
theorem processFeed_of_parsed {σ : Type} (r : Reader σ) (storage : σ) (heap : Heap)
    (f : FeedPtr) (newRequest : Option Error) (doResult : Except Error Response) (now : Time)
    (pf : GofeedFeed) (h : (r.getFeedContent (heap f) newRequest doResult).2 = none)
    (hpf : (r.getFeedContent (heap f) newRequest doResult).1.f = some pf) :
    r.processFeed storage heap f newRequest doResult now
      = some { heap := mappedHeap heap f now pf,
               storage := (r.s.Store storage (mappedHeap heap f now pf) f
                 (pf.Items.map mapItem)).1,
               stored := [(f, pf.Items.map mapItem)],
               queued := [newQueuedFeed f (r.getFeedContent (heap f) newRequest doResult).1.d],
               errors := match (r.s.Store storage (mappedHeap heap f now pf) f
                   (pf.Items.map mapItem)).2 with
                 | none => []
                 | some e => [Error.other e] } := by
  cases hg : r.getFeedContent (heap f) newRequest doResult with
  | mk cf e =>
    rw [hg] at h hpf
    simp only at h hpf
    subst h
    simp only [Reader.processFeed, hg, hpf, mapParsedFeedToFeedAndArticles, Heap.write_write,
      Heap.write_same, mappedHeap]
    cases hs : r.s.Store storage (Heap.write heap f
        { FeedLink := (heap f).FeedLink, ModifiedAt := now, Title := pf.Title, Link := pf.Link })
        f (pf.Items.map mapItem) with
    | mk st e2 =>
      cases e2 <;> rfl

/-- The body of the loop of a worker always runs to its end. -/
theorem processFeed_isSome {σ : Type} (r : Reader σ) (storage : σ) (heap : Heap) (f : FeedPtr)
    (newRequest : Option Error) (doResult : Except Error Response) (now : Time) :
    ∃ res, r.processFeed storage heap f newRequest doResult now = some res := by
  cases he : (r.getFeedContent (heap f) newRequest doResult).2 with
  | some err => exact ⟨_, processFeed_of_error r storage heap f newRequest doResult now err he⟩
  | none =>
    obtain ⟨pf, hpf⟩ := getFeedContent_feed_of_no_error r (heap f) newRequest doResult he
    exact ⟨_, processFeed_of_parsed r storage heap f newRequest doResult now pf he hpf⟩

/-- Claim C14, the code at the failing input: with the default options, a feed that answers
500 without `Cache-Control` header gets the `HTTPError`, is stamped, and is queued again
with the delay `retry`, 60 s, while `retry_after_error` is 300 s. -/
theorem processFeed_http_error_delay :
    ∃ res, mockReader.processFeed rssStorage rssHeap 0 none (.ok response500) t2020
        = some res ∧
      res.errors = [Error.HTTPError 500 "500 Internal Server Error"] ∧
      res.heap 0 = { rssFeed with ModifiedAt := t2020 } ∧
      res.queued = [newQueuedFeed 0 (60 * Second)] ∧
      mockReader.retryAfterError = 300 * Second ∧
      res.queued ≠ [newQueuedFeed 0 mockReader.retryAfterError] :=
  ⟨_, rfl, rfl, rfl, rfl, rfl, by decide⟩

/-- What the worker does with a feed whose fetch ends with a status outside [200,300) other
than 304: the feed gets an `HTTPError` carrying that status (the error of `Close` when
closing the body fails), is stamped, is not stored, and is queued again once with the delay
derived from the response. -/
theorem processFeed_http_error {σ : Type} (r : Reader σ) (storage : σ) (heap : Heap)
    (f : FeedPtr) (resp : Response) (now : Time) (hrange : MaxAgeInRange resp)
    (hnon : resp.StatusCode < 200 ∨ resp.StatusCode ≥ 300) (h304 : resp.StatusCode ≠ 304) :
    ∃ res, r.processFeed storage heap f none (.ok resp) now = some res ∧
      res.queued = [newQueuedFeed f (responseDelay r resp)] ∧
      res.heap = stampedHeap heap f now ∧
      (resp.close = none →
        res.errors = [Error.HTTPError resp.StatusCode resp.Status]) ∧
      (∀ ce, resp.close = some ce → res.errors = [ce]) ∧
      res.stored = [] ∧ res.storage = storage := by
  obtain ⟨hd, hf, he⟩ := getFeedContent_response r (heap f) resp hrange
  rw [if_neg h304] at hd
  cases hcl : resp.close with
  | none =>
    rw [hcl] at he
    simp only [hnon, h304, if_true, if_false] at he
    refine ⟨_, processFeed_of_error r storage heap f none (.ok resp) now _ he, ?_, rfl, ?_, ?_,
      rfl, rfl⟩
    · simp only [hd]
    · intro _; rfl
    · intro ce hce; cases hce
  | some ce =>
    rw [hcl] at he
    simp only at he
    refine ⟨_, processFeed_of_error r storage heap f none (.ok resp) now _ he, ?_, rfl, ?_, ?_,
      rfl, rfl⟩
    · simp only [hd]
    · intro h; cases h
    · intro ce2 hce
      simp only [Option.some.injEq] at hce
      rw [hce]

set_option maxRecDepth 100000 in
/-- Claim C15 as stated fails: the storage of `cmd/reader` holds the feed object it was
given at start, and `Update` is given the pointer `Feeds` returns.  The worker gets a 304,
calls no `Store`, and stamps the feed object: what the storage holds under the identity of
the feed, and what `GET /feeds` answers, is no longer what it was before the step. -/
theorem processFeed_not_modified_as_stated_fails :
    rssStorage.Feeds rssHeap = .ok [0] ∧
    ∃ res, mockReader.processFeed rssStorage rssHeap 0 none (.ok response304) t2020
        = some res ∧
      res.stored = [] ∧ res.errors = [Error.ErrNotModified] ∧
      (rssStorage.deref rssHeap).feeds.lookup rssFeed.UUID = some rssFeed ∧
      (res.storage.deref res.heap).feeds.lookup rssFeed.UUID
        = some { rssFeed with ModifiedAt := t2020 } ∧
      mockAPI.Feeds rssStorage rssHeap jsonEncode
        = { code := 200, body := Body.feeds [rssFeed] } ∧
      mockAPI.Feeds res.storage res.heap jsonEncode
        = { code := 200, body := Body.feeds [{ rssFeed with ModifiedAt := t2020 }] } ∧
      mockAPI.Feeds res.storage res.heap jsonEncode
        ≠ mockAPI.Feeds rssStorage rssHeap jsonEncode :=
  ⟨by decide,
    { heap := stampedHeap rssHeap 0 t2020, storage := rssStorage, stored := [],
      queued := [newQueuedFeed 0 (120 * Second)], errors := [Error.ErrNotModified] },
    rfl, rfl, rfl, by decide, by decide, by decide, by decide, by decide⟩

/-- Claim C15, amended: a worker that processes a feed whose response is 304 does not call
`Store`: the maps of the storage after the iteration are those before it, and the one
write of the iteration is the stamp of the feed object processed, whose `ModifiedAt`
becomes the current time; in general `Store` is called only when `getFeedContent` returned
no error.  Read through the in-memory storage, the article partitions are those before the
iteration and every feed is as before, but for the `ModifiedAt` of the feed processed when
the storage points to it. -/
theorem processFeed_stores_only_without_error {σ : Type} (r : Reader σ) (storage : σ)
    (heap : Heap) (f : FeedPtr) (newRequest : Option Error)
    (doResult : Except Error Response) (now : Time) :
    (∀ resp, newRequest = none → doResult = .ok resp → resp.StatusCode = 304 →
      ∃ res, r.processFeed storage heap f newRequest doResult now = some res ∧
        res.stored = [] ∧ res.storage = storage ∧ res.heap = stampedHeap heap f now) ∧
    (∀ res, r.processFeed storage heap f newRequest doResult now = some res →
      (r.getFeedContent (heap f) newRequest doResult).2 ≠ none →
      res.stored = [] ∧ res.storage = storage ∧ res.heap = stampedHeap heap f now) ∧
    (∀ res, r.processFeed storage heap f newRequest doResult now = some res →
      res.stored ≠ [] → (r.getFeedContent (heap f) newRequest doResult).2 = none) ∧
    (stampedHeap heap f now f = { heap f with ModifiedAt := now } ∧
      ∀ q, q ≠ f → stampedHeap heap f now q = heap q) ∧
    (∀ s : InMemoryStorageRef,
      (s.deref (stampedHeap heap f now)).articles = (s.deref heap).articles ∧
      (s.deref (stampedHeap heap f now)).minLatest = (s.deref heap).minLatest ∧
      ∀ k,
        (s.feeds.lookup k = none →
          (s.deref heap).feeds.lookup k = none ∧
          (s.deref (stampedHeap heap f now)).feeds.lookup k = none) ∧
        (∀ p, s.feeds.lookup k = some p →
          (s.deref heap).feeds.lookup k = some (heap p) ∧
          (s.deref (stampedHeap heap f now)).feeds.lookup k
            = some (if p = f then { heap f with ModifiedAt := now } else heap p))) := by
  have herr : ∀ res, r.processFeed storage heap f newRequest doResult now = some res →
      (r.getFeedContent (heap f) newRequest doResult).2 ≠ none →
      res.stored = [] ∧ res.storage = storage ∧ res.heap = stampedHeap heap f now := by
    intro res hres hne
    cases he : (r.getFeedContent (heap f) newRequest doResult).2 with
    | none => exact absurd he hne
    | some err =>
      rw [processFeed_of_error r storage heap f newRequest doResult now err he] at hres
      simp only [Option.some.injEq] at hres
      rw [← hres]
      exact ⟨rfl, rfl, rfl⟩
  refine ⟨?_, herr, ?_, ⟨?_, ?_⟩, ?_⟩
  · intro resp hn hd h304
    subst hn hd
    have hne : (r.getFeedContent (heap f) none (.ok resp)).2 ≠ none := by
      have hnon : resp.StatusCode < 200 ∨ resp.StatusCode ≥ 300 := by omega
      simp only [Reader.getFeedContent, hnon, h304, if_true]
      cases resp.close <;> simp
    obtain ⟨res, hres⟩ := processFeed_isSome r storage heap f none (.ok resp) now
    exact ⟨res, hres, herr res hres hne⟩
  · intro res hres hstored
    by_contra hne
    exact hstored (herr res hres hne).1
  · exact Heap.write_same _ _ _
  · intro q hq
    exact Heap.write_of_ne _ _ _ _ hq
  · intro s
    refine ⟨rfl, rfl, ?_⟩
    intro k
    simp only [InMemoryStorageRef.deref, lookup_mapValues]
    refine ⟨?_, ?_⟩
    · intro h
      rw [h]
      exact ⟨rfl, rfl⟩
    · intro p h
      rw [h]
      refine ⟨rfl, ?_⟩
      by_cases hp : p = f
      · subst hp
        simp [stampedHeap, Heap.write]
      · simp [stampedHeap, Heap.write, hp]

/-! ## The routes of the API -/

set_option maxRecDepth 100000 in
/-- Claim C19 as stated fails: the storage of the tests was given one more article, dated
before the year 0.  On `GET /article/{id}` with the id of that article, which parses and
which the store finds, and on `GET /latest/{id}` with the id of its feed, the response is
not 200 with the result of the store: `time.Time.MarshalJSON` fails on the year, and the
handler answers 500 with the message `could not generate response`. -/
theorem routeArticle_as_stated_fails :
    (matchesParam (UUID.toCanonical ancientArticle.UUID) = true ∧
      parseCanonical (UUID.toCanonical ancientArticle.UUID) = .ok ancientArticle.UUID ∧
      ancientStorage.Article ancientArticle.UUID = .ok ancientArticle ∧
      routeArticle mockAPI ancientStorage jsonEncode parseCanonical
          { uuid := UUID.toCanonical ancientArticle.UUID, offset := .error (Error.other "parse") }
        = { code := 500, body := Body.message "could not generate response" } ∧
      routeArticle mockAPI ancientStorage jsonEncode parseCanonical
          { uuid := UUID.toCanonical ancientArticle.UUID, offset := .error (Error.other "parse") }
        ≠ { code := 200, body := Body.article ancientArticle }) ∧
    (matchesParam (UUID.toCanonical mockFeed1.UUID) = true ∧
      parseCanonical (UUID.toCanonical mockFeed1.UUID) = .ok mockFeed1.UUID ∧
      ancientStorage.LatestFromFeed mockFeed1.UUID (t2020 + 1000)
        = .ok [mockArticle12, mockArticle11, ancientArticle] ∧
      routeLatestFromFeed mockAPI ancientStorage jsonEncode parseCanonical
          { uuid := UUID.toCanonical mockFeed1.UUID, offset := .error (Error.other "parse") }
          (t2020 + 1000)
        = { code := 500, body := Body.message "could not generate response" }) := by
  decide

/-- Claim C19, amended: on the routes `GET /article/{id}` and `GET /latest/{id}`, when the
id does not parse as a UUID the response is 400 with the message `UUID not found`; when it
parses and the lookup of the store fails the response is 500 with the message `could not
retrieve article`, respectively `could not retrieve latest articles from feed`; otherwise
the response is 200 with the result of the store when encoding it succeeds, and 500 with
the message `could not generate response` when encoding it fails.  A request is on one of
the routes when the router matches its pattern, that is when the id is one path segment
that is not empty; to the others the router answers 404. -/
theorem routes_by_uuid {σ : Type} (a : API σ) (storage : σ) (encode : Body → Option Error)
    (parse : String → Except Error UUID) (r : Request) (now : Time) :
    (matchesParam r.uuid = false →
      routeArticle a storage encode parse r = NotFound ∧
      routeLatestFromFeed a storage encode parse r now = NotFound) ∧
    (matchesParam r.uuid = true →
      (∀ e, parse r.uuid = .error e →
        routeArticle a storage encode parse r
          = { code := 400, body := Body.message "UUID not found" } ∧
        routeLatestFromFeed a storage encode parse r now
          = { code := 400, body := Body.message "UUID not found" }) ∧
      (∀ u, parse r.uuid = .ok u →
        (∀ e, a.s.Article storage u = .error e →
          routeArticle a storage encode parse r
            = { code := 500, body := Body.message "could not retrieve article" }) ∧
        (∀ e, a.s.LatestFromFeed storage u (timeOffsetFromRequest r now) = .error e →
          routeLatestFromFeed a storage encode parse r now
            = { code := 500,
                body := Body.message "could not retrieve latest articles from feed" }) ∧
        (∀ article, a.s.Article storage u = .ok article →
          (encode (Body.article article) = none →
            routeArticle a storage encode parse r
              = { code := 200, body := Body.article article }) ∧
          (encode (Body.article article) ≠ none →
            routeArticle a storage encode parse r
              = { code := 500, body := Body.message "could not generate response" })) ∧
        (∀ articles,
          a.s.LatestFromFeed storage u (timeOffsetFromRequest r now) = .ok articles →
          (encode (Body.articles articles) = none →
            routeLatestFromFeed a storage encode parse r now
              = { code := 200, body := Body.articles articles }) ∧
          (encode (Body.articles articles) ≠ none →
            routeLatestFromFeed a storage encode parse r now
              = { code := 500, body := Body.message "could not generate response" })))) := by
  have henc : ∀ v, (encode v = none → encodeOr encode v = { code := 200, body := v }) ∧
      (encode v ≠ none →
        encodeOr encode v = { code := 500, body := Body.message "could not generate response" }) := by
    intro v
    unfold encodeOr
    cases encode v with
    | none => exact ⟨fun _ => rfl, fun h => absurd rfl h⟩
    | some e => exact ⟨fun h => Option.noConfusion h, fun _ => rfl⟩
  refine ⟨?_, ?_⟩
  · intro hm
    simp [routeArticle, routeLatestFromFeed, hm]
  · intro hm
    refine ⟨?_, ?_⟩
    · intro e he
      simp [routeArticle, routeLatestFromFeed, hm, middlewareUUID, he, API.Article,
        API.LatestFromFeed, UUIDFromContext, WithMessage, StatusBadRequest]
    · intro u hu
      refine ⟨?_, ?_, ?_, ?_⟩
      · intro e he
        simp [routeArticle, hm, middlewareUUID, hu, API.Article, UUIDFromContext, he,
          WithMessage, StatusInternalServerError]
      · intro e he
        simp [routeLatestFromFeed, hm, middlewareUUID, hu, API.LatestFromFeed,
          UUIDFromContext, he, WithMessage, StatusInternalServerError]
      · intro article ha
        have h : routeArticle a storage encode parse r
            = encodeOr encode (Body.article article) := by
          simp [routeArticle, hm, middlewareUUID, hu, API.Article, UUIDFromContext, ha]
        rw [h]
        exact henc _
      · intro articles ha
        have h : routeLatestFromFeed a storage encode parse r now
            = encodeOr encode (Body.articles articles) := by
          simp [routeLatestFromFeed, hm, middlewareUUID, hu, API.LatestFromFeed,
            UUIDFromContext, ha]
        rw [h]
        exact henc _

/-- What `jsonEncode` says of an article and of a list of articles: the encoding succeeds
exactly when every `Published` has a year from 0 to 9999. -/
theorem jsonEncode_articles (articles : List Article) :
    (∀ a : Article, jsonEncode (Body.article a) = none ↔
      yearZero ≤ a.Published ∧ a.Published < year10000) ∧
    (jsonEncode (Body.articles articles) = none ↔
      ∀ a ∈ articles, yearZero ≤ a.Published ∧ a.Published < year10000) := by
  have hone : ∀ t : Time, marshalTime t = none ↔ yearZero ≤ t ∧ t < year10000 := by
    intro t
    unfold marshalTime
    by_cases h : t < yearZero ∨ year10000 ≤ t
    · rw [if_pos h]
      simp only [reduceCtorEq, false_iff, not_and, not_lt]
      intro h1
      rcases h with h | h
      · exact absurd h1 (not_le.2 h)
      · exact h
    · rw [if_neg h]
      simp only [true_iff]
      push_neg at h
      exact h
  refine ⟨fun a => hone a.Published, ?_⟩
  simp only [jsonEncode]
  induction articles with
  | nil => simp
  | cons a rest ih =>
    cases hm : marshalTime a.Published with
    | none =>
      simp only [List.filterMap_cons, hm]
      rw [ih]
      have ha := (hone a.Published).1 hm
      simp [ha]
    | some e =>
      simp only [List.filterMap_cons, hm]
      have ha : ¬ (yearZero ≤ a.Published ∧ a.Published < year10000) := by
        intro h
        rw [(hone a.Published).2 h] at hm
        cases hm
      simp [ha]

set_option maxRecDepth 100000 in
/-- Tests `getting specific article`, `getting non-existant article`, `getting latest from
non-existant feed` and `getting latest from specific feed` of `TestAPI_Endpoints`, and an
id that does not parse; a request with an empty id is answered by the router. -/
theorem test_routes_by_uuid :
    routeArticle mockAPI (mockStorageRef 4) jsonEncode parseCanonical
        { uuid := UUID.toCanonical (UUIDFromString "https://mock2.local/article/2"), offset := .error (Error.other "parse") }
      = { code := 200, body := Body.article mockArticle22 } ∧
    routeArticle mockAPI (mockStorageRef 4) jsonEncode parseCanonical
        { uuid := UUID.toCanonical (UUIDFromString "oops"), offset := .error (Error.other "parse") }
      = { code := 500, body := Body.message "could not retrieve article" } ∧
    routeLatestFromFeed mockAPI (mockStorageRef 4) jsonEncode
        parseCanonical
        { uuid := UUID.toCanonical (UUIDFromString "oops"), offset := .error (Error.other "parse") } (t2020 + 1000)
      = { code := 500, body := Body.message "could not retrieve latest articles from feed" } ∧
    routeArticle mockAPI (mockStorageRef 4) jsonEncode parseCanonical
        { uuid := "oops", offset := .error (Error.other "parse") }
      = { code := 400, body := Body.message "UUID not found" } ∧
    routeLatestFromFeed mockAPI (mockStorageRef 4) jsonEncode
        parseCanonical
        { uuid := UUID.toCanonical (UUIDFromString "https://mock2.local"), offset := .error (Error.other "parse") }
        (t2020 + 1000)
      = { code := 200, body := Body.articles [mockArticle22, mockArticle21] } ∧
    routeArticle mockAPI (mockStorageRef 4) jsonEncode parseCanonical
        { uuid := "", offset := .error (Error.other "parse") }
      = { code := 404, body := Body.text "404 page not found\n" } := by
  decide

set_option maxRecDepth 100000 in
/-- Test `getting feeds` of `TestAPI_Endpoints`, and the storage of the tests read at the
instant it was built: it is the storage `mockStorage` of feeds held by value. -/
theorem test_feeds_route :
    mockAPI.Feeds (mockStorageRef 2) mockHeap jsonEncode
      = { code := 200, body := Body.feeds [mockFeed1, mockFeed2] } ∧
    ((mockStorageRef 2).deref mockHeap).Feeds = (mockStorage 2).Feeds ∧
    ((mockStorageRef 2).deref mockHeap).articles = (mockStorage 2).articles :=
  ⟨by decide, by decide, rfl⟩

/-! ## `Update` with a cancelled context -/

theorem cancelledRun_init {σ : Type} (r : Reader σ) (feeds : List FeedPtr) (heap : Heap)
    (storage : σ) (hfeeds : feeds ≠ []) :
    CancelledRun heap storage (r.Update true feeds heap storage) := by
  refine ⟨rfl, rfl, ?_, rfl, rfl, ⟨rfl, rfl⟩, ?_, ?_⟩
  · intro w hw
    exact Or.inl (List.eq_of_mem_replicate hw)
  · intro _
    simpa [Reader.Update] using hfeeds
  · simp [Reader.Update, stepsToClose]

theorem workers_set_idle {l : List WorkerPC} {j : Nat} {x : WorkerPC}
    (h : ∀ w ∈ l, w = WorkerPC.ranging ∨ w = WorkerPC.returned)
    (hx : x = WorkerPC.ranging ∨ x = WorkerPC.returned) :
    ∀ w ∈ l.set j x, w = WorkerPC.ranging ∨ w = WorkerPC.returned := by
  intro w hw
  rcases List.mem_or_eq_of_mem_set hw with h1 | h1
  · exact h w h1
  · rw [h1]; exact hx

theorem worker_idle_of_get {l : List WorkerPC} {j : Nat} {x : WorkerPC}
    (h : ∀ w ∈ l, w = WorkerPC.ranging ∨ w = WorkerPC.returned) (hj : l.get? j = some x) :
    x = WorkerPC.ranging ∨ x = WorkerPC.returned :=
  h x (List.get?_mem hj)

/-- A step of a run started with a cancelled context keeps what holds all along it. -/
theorem cancelledRun_step {σ : Type} (r : Reader σ) (heap : Heap) (storage : σ)
    (s s2 : UpdateState σ) (hinv : CancelledRun heap storage s) (hstep : Step r s s2) :
    CancelledRun heap storage s2 := by
  obtain ⟨hctx, hwait, hwork, herrs, hpanic, hstore, hqueue, hclosed⟩ := hinv
  obtain ⟨_, htrans⟩ := hstep
  cases htrans with
  | cancel => exact ⟨rfl, hwait, hwork, herrs, hpanic, hstore, hqueue, hclosed⟩
  | dispatcherReceive qf rest hd hq =>
    refine ⟨hctx, hwait, hwork, herrs, hpanic, hstore, ?_, ?_⟩
    · intro h; cases h
    · simp only [stepsToClose, hd] at hclosed ⊢
      simpa using hclosed
  | dispatcherRangeEnd hd hq hc => exact absurd hq (hqueue hd)
  | dispatcherCancelled qf hd hc =>
    refine ⟨hctx, hwait, hwork, herrs, hpanic, hstore, ?_, ?_⟩
    · intro h; cases h
    · simp only [stepsToClose, hd] at hclosed ⊢
      simpa using hclosed
  | dispatcherSpawn qf hd hc => rw [hctx] at hc; cases hc
  | dispatcherCloseErr hd =>
    refine ⟨hctx, hwait, hwork, herrs, hpanic, hstore, ?_, ?_⟩
    · intro h; cases h
    · simp [stepsToClose]
  | dispatcherCloseFeed hd =>
    refine ⟨hctx, hwait, hwork, herrs, hpanic, hstore, ?_, ?_⟩
    · intro h; cases h
    · simp only [stepsToClose, hd] at hclosed ⊢
      simpa using hclosed
  | dispatcherCloseQueued hd =>
    refine ⟨hctx, hwait, hwork, herrs, hpanic, hstore, ?_, ?_⟩
    · intro h; cases h
    · simp only [stepsToClose, hd] at hclosed ⊢
      simpa using hclosed
  | waiterCancelled i qf hw hc => rw [hwait] at hw; cases hw
  | waiterFired i qf hw => rw [hwait] at hw; cases hw
  | waiterSendClosed i f hw hc => rw [hwait] at hw; cases hw
  | handOver i j f hw hc hj => rw [hwait] at hw; cases hw
  | workerRangeEnd j hj hc =>
    exact ⟨hctx, hwait, workers_set_idle hwork (Or.inr rfl), herrs, hpanic, hstore, hqueue,
      hclosed⟩
  | workerCancelled j f hj hc =>
    rcases worker_idle_of_get hwork hj with h | h <;> cases h
  | workerFetch j f hj hc =>
    rcases worker_idle_of_get hwork hj with h | h <;> cases h
  | workerProcessed j f newRequest doResult now res hj hres =>
    rcases worker_idle_of_get hwork hj with h | h <;> cases h
  | workerNilFeed j f newRequest doResult now hj hres =>
    rcases worker_idle_of_get hwork hj with h | h <;> cases h
  | workerQueue j qf queued errors hj hc hlen =>
    rcases worker_idle_of_get hwork hj with h | h <;> cases h
  | workerQueueClosed j qf queued errors hj hc =>
    rcases worker_idle_of_get hwork hj with h | h <;> cases h
  | workerEmit j err errors hj hc =>
    rcases worker_idle_of_get hwork hj with h | h <;> cases h
  | workerEmitClosed j err errors hj hc =>
    rcases worker_idle_of_get hwork hj with h | h <;> cases h
  | workerContinue j hj =>
    rcases worker_idle_of_get hwork hj with h | h <;> cases h

theorem cancelledRun_reachable {σ : Type} (r : Reader σ) (feeds : List FeedPtr)
    (heap : Heap) (storage : σ) (hfeeds : feeds ≠ []) (s : UpdateState σ)
    (hreach : Reachable r true feeds heap storage s) : CancelledRun heap storage s := by
  induction hreach with
  | refl => exact cancelledRun_init r feeds heap storage hfeeds
  | tail _ hstep ih => exact cancelledRun_step r heap storage _ _ ih hstep

/-- As long as `errChan` is open in a run started with a cancelled context, the staging
goroutine can step, and its step brings the close of `errChan` nearer. -/
theorem cancelledRun_progress {σ : Type} (r : Reader σ) (heap : Heap) (storage : σ)
    (s : UpdateState σ) (hinv : CancelledRun heap storage s) :
    s.errClosed = true ∨ ∃ s2, Step r s s2 ∧ stepsToClose s2 < stepsToClose s := by
  obtain ⟨hctx, hwait, hwork, herrs, hpanic, hstore, hqueue, hclosed⟩ := hinv
  cases hd : s.dispatcher with
  | ranging =>
    right
    cases hq : s.queuedChan with
    | nil => exact absurd hq (hqueue hd)
    | cons qf rest =>
      exact ⟨_, ⟨hpanic, Transition.dispatcherReceive s qf rest hd hq⟩,
        by simp [stepsToClose, hd]⟩
  | selecting qf =>
    right
    exact ⟨_, ⟨hpanic, Transition.dispatcherCancelled s qf hd hctx⟩,
      by simp [stepsToClose, hd]⟩
  | closingErr =>
    right
    exact ⟨_, ⟨hpanic, Transition.dispatcherCloseErr s hd⟩, by simp [stepsToClose, hd]⟩
  | closingFeed => left; exact hclosed.2 (by simp [stepsToClose, hd])
  | closingQueued => left; exact hclosed.2 (by simp [stepsToClose, hd])
  | returned => left; exact hclosed.2 (by simp [stepsToClose, hd])

/-- Claim C20: in a run of `Update` called with an already cancelled context and a feed
list that is not empty, no waiter is ever started, no worker ever holds a feed (so no fetch
is made and the feed objects and the storage are untouched), no goroutine panics, and no
error is ever received on the returned channel; as long as that channel is open the staging
goroutine can step, and it closes the channel within three of its steps. -/
theorem Update_cancelled {σ : Type} (r : Reader σ) (feeds : List FeedPtr) (heap : Heap)
    (storage : σ) (s : UpdateState σ) (hfeeds : feeds ≠ [])
    (hreach : Reachable r true feeds heap storage s) :
    s.waiters = [] ∧
    (∀ w ∈ s.workers, w = WorkerPC.ranging ∨ w = WorkerPC.returned) ∧
    s.errors = [] ∧ s.panicked = false ∧ (s.heap = heap ∧ s.storage = storage) ∧
    stepsToClose s ≤ 3 ∧ (s.errClosed = true ↔ stepsToClose s = 0) ∧
    (s.errClosed = true ∨ ∃ s2, Step r s s2 ∧ stepsToClose s2 < stepsToClose s) := by
  have hinv := cancelledRun_reachable r feeds heap storage hfeeds s hreach
  have hprog := cancelledRun_progress r heap storage s hinv
  obtain ⟨_, hwait, hwork, herrs, hpanic, hstore, _, hclosed⟩ := hinv
  refine ⟨hwait, hwork, herrs, hpanic, hstore, ?_, hclosed, hprog⟩
  unfold stepsToClose
  split <;> omega

/-- The run of `TestReader_Update_ClosedWithContext`, after the staging goroutine has
received the queued feed. -/
theorem Update_cancelled_witness :
    [0] ≠ ([] : List FeedPtr) ∧
    Reachable mockReader true [0] rssHeap rssStorage
      { mockReader.Update true [0] rssHeap rssStorage with
        dispatcher := DispatcherPC.selecting (newQueuedFeed 0 mockReader.retry),
        queuedChan := [] } ∧
    ({ mockReader.Update true [0] rssHeap rssStorage with
        dispatcher := DispatcherPC.selecting (newQueuedFeed 0 mockReader.retry),
        queuedChan := [] } : UpdateState InMemoryStorageRef).errors = [] :=
  have hreach : Reachable mockReader true [0] rssHeap rssStorage
      { mockReader.Update true [0] rssHeap rssStorage with
        dispatcher := DispatcherPC.selecting (newQueuedFeed 0 mockReader.retry),
        queuedChan := [] } :=
    Relation.ReflTransGen.single
      ⟨rfl, Transition.dispatcherReceive (mockReader.Update true [0] rssHeap rssStorage)
        (newQueuedFeed 0 mockReader.retry) [] rfl rfl⟩
  ⟨by decide, hreach,
    (Update_cancelled mockReader [0] rssHeap rssStorage _ (by decide) hreach).2.2.1⟩

/-! ## Pages of `latest` -/

/-- The last article of a front part of a list in descending order is published no later
than every article of that part. -/
theorem publishedDesc_getLast {E : List Article} (hsorted : E.Sorted PublishedDesc)
    {n : Nat} {last a : Article} (hlast : (E.take n).getLast? = some last)
    (ha : a ∈ E.take n) : last.Published ≤ a.Published := by
  have hs : (E.take n).Sorted PublishedDesc := hsorted.sublist (List.take_sublist _ _)
  obtain ⟨front, hfront⟩ : ∃ front, E.take n = front ++ [last] := by
    have hne : E.take n ≠ [] := by
      intro h
      rw [h] at hlast
      cases hlast
    refine ⟨(E.take n).dropLast, ?_⟩
    have h1 := List.dropLast_append_getLast hne
    have h2 : (E.take n).getLast hne = last := by
      rw [List.getLast?_eq_getLast _ hne] at hlast
      exact Option.some.inj hlast
    rw [h2] at h1
    exact h1.symm
  rw [hfront] at ha hs
  rcases List.mem_append.1 ha with h | h
  · have hp := List.pairwise_append.1 hs
    exact (publishedDesc_iff a last).1 (hp.2.2 a h last (List.mem_singleton_self _))
  · rw [List.mem_singleton.1 h]

/-- Claim C23: the pages of `latest` tile the timeline.  When the page returned for
`offset` is not empty and `t` is the instant of its last article, the page consists of
exactly the input articles published from `t` on and before `offset`; so the page for the
offset `t` shares no article with it, and every input article published before `offset` is
in the page or published before `t`. -/
theorem latest_pages_tile (s : InMemoryStorage) (articles : List Article) (offset : Time) :
    ∃ page, s.latest articles offset = .ok page ∧
      ∀ last, page.getLast? = some last →
        (∀ a, a ∈ page ↔
          a ∈ articles ∧ last.Published ≤ a.Published ∧ a.Published < offset) ∧
        page.Perm (articles.filter
          (fun a => decide (last.Published ≤ a.Published ∧ a.Published < offset))) ∧
        (∃ next, s.latest articles last.Published = .ok next ∧ ∀ a ∈ next, a ∉ page) ∧
        (∀ a ∈ articles, a.Published < offset → a ∈ page ∨ a.Published < last.Published) := by
  obtain ⟨n, hn, heq, hor, _⟩ := latest_take s articles offset
  refine ⟨_, heq, ?_⟩
  intro last hlast
  have hsorted := eligibleDesc_sorted articles offset
  -- every eligible article outside the page is published before the last one of the page
  have hout : ∀ b ∈ (eligibleDesc articles offset).drop n, b.Published < last.Published := by
    intro b hb
    rcases hor with hlen | hstop
    · rw [hlen, List.drop_length] at hb
      cases hb
    · exact stopsAfter_strict hsorted hstop (List.mem_of_mem_getLast? hlast) hb
  have hmem : ∀ a, a ∈ (eligibleDesc articles offset).take n ↔
      a ∈ articles ∧ last.Published ≤ a.Published ∧ a.Published < offset := by
    intro a
    constructor
    · intro ha
      have h1 := mem_eligibleDesc.1 (List.mem_of_mem_take ha)
      exact ⟨h1.1, publishedDesc_getLast hsorted hlast ha, h1.2⟩
    · rintro ⟨h1, h2, h3⟩
      have hE : a ∈ eligibleDesc articles offset := mem_eligibleDesc.2 ⟨h1, h3⟩
      rw [← List.take_append_drop n (eligibleDesc articles offset), List.mem_append] at hE
      rcases hE with h | h
      · exact h
      · exact absurd (hout a h) (not_lt.2 h2)
  refine ⟨hmem, ?_, ?_, ?_⟩
  · -- the page is the eligible list filtered by the instant of its last article
    have hfilter : (eligibleDesc articles offset).filter
        (fun a => decide (last.Published ≤ a.Published))
          = (eligibleDesc articles offset).take n := by
      conv_lhs => rw [← List.take_append_drop n (eligibleDesc articles offset)]
      rw [List.filter_append]
      have h1 : ((eligibleDesc articles offset).take n).filter
          (fun a => decide (last.Published ≤ a.Published))
            = (eligibleDesc articles offset).take n := by
        rw [List.filter_eq_self]
        intro a ha
        exact decide_eq_true (publishedDesc_getLast hsorted hlast ha)
      have h2 : ((eligibleDesc articles offset).drop n).filter
          (fun a => decide (last.Published ≤ a.Published)) = [] := by
        rw [List.filter_eq_nil_iff]
        intro a ha
        simpa using hout a ha
      rw [h1, h2, List.append_nil]
    rw [← hfilter]
    have hperm : (eligibleDesc articles offset).Perm
        (articles.filter (fun a => offset.After a.Published)) :=
      (sortSlice_perm _ articles).filter _
    have h3 := hperm.filter (fun a => decide (last.Published ≤ a.Published))
    rw [List.filter_filter] at h3
    have hfun : (fun a : Article =>
        (decide (last.Published ≤ a.Published) && offset.After a.Published))
          = (fun a => decide (last.Published ≤ a.Published ∧ a.Published < offset)) := by
      funext a
      simp [Time.After]
    rw [hfun] at h3
    exact h3
  · obtain ⟨next, hnext, hin⟩ := latest_before s articles last.Published
    refine ⟨next, hnext, ?_⟩
    intro a ha hpage
    exact absurd (hin a ha).2 (not_lt.2 ((hmem a).1 hpage).2.1)
  · intro a ha hoff
    by_cases h : last.Published ≤ a.Published
    · exact Or.inl ((hmem a).2 ⟨ha, h, hoff⟩)
    · exact Or.inr (not_le.1 h)

set_option maxRecDepth 100000 in
/-- The pages of the mock articles with minimum 3: three articles, then the oldest one. -/
theorem test_latest_pages :
    (NewInMemoryStorage 3).latest mockArticles (t2020 + 10)
      = .ok [mockArticle22, mockArticle12, mockArticle21] ∧
    (NewInMemoryStorage 3).latest mockArticles mockArticle21.Published
      = .ok [mockArticle11] := by
  decide

/-! ## Every run of `Update` -/

theorem sum_map_set {α : Type} (f : α → Nat) (l : List α) (i : Nat) (x y : α)
    (h : l.get? i = some x) :
    ((l.set i y).map f).sum + f x = (l.map f).sum + f y := by
  induction l generalizing i with
  | nil => simp at h
  | cons a rest ih =>
    cases i with
    | zero =>
      simp only [List.get?_cons_zero, Option.some.injEq] at h
      subst h
      simp only [List.set_cons_zero, List.map_cons, List.sum_cons]
      omega
    | succ k =>
      simp only [List.get?_cons_succ] at h
      have := ih k h
      simp only [List.set_cons_succ, List.map_cons, List.sum_cons]
      omega

theorem sum_map_replicate_zero {α : Type} (f : α → Nat) (n : Nat) (x : α) (h : f x = 0) :
    ((List.replicate n x).map f).sum = 0 := by
  induction n with
  | zero => rfl
  | succ k ih => simp [List.replicate_succ, h, ih]

theorem runInvariant_init {σ : Type} (r : Reader σ) (ctxDone : Bool) (feeds : List FeedPtr)
    (heap : Heap) (storage : σ) :
    RunInvariant r feeds (r.Update ctxDone feeds heap storage) := by
  refine ⟨by simp [Reader.Update], rfl, ?_, fun _ => rfl, fun _ => ⟨rfl, rfl, rfl, rfl⟩⟩
  simp only [feedsInFlight, Reader.Update, List.length_map, DispatcherPC.held, List.map_nil,
    List.sum_nil, sum_map_replicate_zero WorkerPC.held r.workers WorkerPC.ranging rfl]
  omega

/-- An iteration of a worker sends the feed once on `queuedChan`. -/
theorem processFeed_queued_length {σ : Type} (r : Reader σ) (storage : σ) (heap : Heap)
    (f : FeedPtr) (newRequest : Option Error) (doResult : Except Error Response) (now : Time)
    (res : WorkerResult σ)
    (h : r.processFeed storage heap f newRequest doResult now = some res) :
    res.queued.length = 1 := by
  cases he : (r.getFeedContent (heap f) newRequest doResult).2 with
  | some err =>
    rw [processFeed_of_error r storage heap f newRequest doResult now err he] at h
    simp only [Option.some.injEq] at h
    rw [← h]
    rfl
  | none =>
    obtain ⟨pf, hpf⟩ := getFeedContent_feed_of_no_error r (heap f) newRequest doResult he
    rw [processFeed_of_parsed r storage heap f newRequest doResult now pf he hpf] at h
    simp only [Option.some.injEq] at h
    rw [← h]
    rfl

/-- A step of a run of `Update` keeps what holds all along every run. -/
theorem runInvariant_step {σ : Type} (r : Reader σ) (feeds : List FeedPtr)
    (s s2 : UpdateState σ) (hinv : RunInvariant r feeds s) (hstep : Step r s s2) :
    RunInvariant r feeds s2 := by
  obtain ⟨hlen, hcap, hflight, hctx, hloop⟩ := hinv
  obtain ⟨hpanic, htrans⟩ := hstep
  unfold feedsInFlight at hflight
  cases htrans with
  | cancel =>
    exact ⟨hlen, hcap, hflight, (fun h => by cases h), hloop⟩
  | dispatcherReceive qf rest hd hq =>
    refine ⟨hlen, hcap, ?_, fun _ => rfl, ?_⟩
    · simp only [feedsInFlight, DispatcherPC.held]
      rw [hq, hd] at hflight
      simp only [List.length_cons, DispatcherPC.held] at hflight
      omega
    · intro _
      exact hloop (by rw [hd]; rfl)
  | dispatcherRangeEnd hd hq hc =>
    have := (hloop (by rw [hd]; rfl)).1
    rw [this] at hc
    cases hc
  | dispatcherCancelled qf hd hc =>
    refine ⟨hlen, hcap, ?_, ?_, fun h => by cases h⟩
    · simp only [feedsInFlight, DispatcherPC.held]
      rw [hd] at hflight
      simp only [DispatcherPC.held] at hflight
      omega
    · intro h
      rw [hc] at h
      cases h
  | dispatcherSpawn qf hd hc =>
    refine ⟨hlen, hcap, ?_, fun _ => rfl, ?_⟩
    · simp only [feedsInFlight, DispatcherPC.held, List.map_append, List.sum_append,
        List.map_cons, List.map_nil, List.sum_cons, List.sum_nil, WaiterPC.held]
      rw [hd] at hflight
      simp only [DispatcherPC.held] at hflight
      omega
    · intro _
      exact hloop (by rw [hd]; rfl)
  | dispatcherCloseErr hd =>
    refine ⟨hlen, hcap, ?_, ?_, fun h => by cases h⟩
    · simp only [feedsInFlight, DispatcherPC.held]
      rw [hd] at hflight
      simp only [DispatcherPC.held] at hflight
      omega
    · intro h
      have := hctx h
      rw [hd] at this
      cases this
  | dispatcherCloseFeed hd =>
    refine ⟨hlen, hcap, ?_, ?_, fun h => by cases h⟩
    · simp only [feedsInFlight, DispatcherPC.held]
      rw [hd] at hflight
      simp only [DispatcherPC.held] at hflight
      omega
    · intro h
      have := hctx h
      rw [hd] at this
      cases this
  | dispatcherCloseQueued hd =>
    refine ⟨hlen, hcap, ?_, ?_, fun h => by cases h⟩
    · simp only [feedsInFlight, DispatcherPC.held]
      rw [hd] at hflight
      simp only [DispatcherPC.held] at hflight
      omega
    · intro h
      have := hctx h
      rw [hd] at this
      cases this
  | waiterCancelled i qf hw hc =>
    refine ⟨hlen, hcap, ?_, hctx, hloop⟩
    have h := sum_map_set WaiterPC.held s.waiters i _ WaiterPC.returned hw
    simp only [WaiterPC.held] at h
    simp only [feedsInFlight]
    omega
  | waiterFired i qf hw =>
    refine ⟨hlen, hcap, ?_, hctx, hloop⟩
    have h := sum_map_set WaiterPC.held s.waiters i _ (WaiterPC.sending qf.f) hw
    simp only [WaiterPC.held] at h
    simp only [feedsInFlight]
    omega
  | waiterSendClosed i f hw hc =>
    refine ⟨hlen, hcap, hflight, hctx, ?_⟩
    intro h
    have := (hloop h).2.1
    rw [this] at hc
    cases hc
  | handOver i j f hw hc hj =>
    refine ⟨by simpa using hlen, hcap, ?_, hctx, hloop⟩
    have h1 := sum_map_set WaiterPC.held s.waiters i _ WaiterPC.returned hw
    have h2 := sum_map_set WorkerPC.held s.workers j _ (WorkerPC.selecting f) hj
    simp only [WaiterPC.held, WorkerPC.held] at h1 h2
    simp only [feedsInFlight]
    omega
  | workerRangeEnd j hj hc =>
    refine ⟨by simpa using hlen, hcap, ?_, hctx, hloop⟩
    have h2 := sum_map_set WorkerPC.held s.workers j _ WorkerPC.returned hj
    simp only [WorkerPC.held] at h2
    simp only [feedsInFlight]
    omega
  | workerCancelled j f hj hc =>
    refine ⟨by simpa using hlen, hcap, ?_, hctx, hloop⟩
    have h2 := sum_map_set WorkerPC.held s.workers j _ WorkerPC.returned hj
    simp only [WorkerPC.held] at h2
    simp only [feedsInFlight]
    omega
  | workerFetch j f hj hc =>
    refine ⟨by simpa using hlen, hcap, ?_, hctx, hloop⟩
    have h2 := sum_map_set WorkerPC.held s.workers j _ (WorkerPC.fetching f) hj
    simp only [WorkerPC.held] at h2
    simp only [feedsInFlight]
    omega
  | workerProcessed j f newRequest doResult now res hj hres =>
    refine ⟨by simpa using hlen, hcap, ?_, hctx, hloop⟩
    have h2 := sum_map_set WorkerPC.held s.workers j _
      (WorkerPC.sending res.queued res.errors) hj
    have h3 := processFeed_queued_length r s.storage s.heap f newRequest doResult now res hres
    simp only [WorkerPC.held, h3] at h2
    simp only [feedsInFlight]
    omega
  | workerNilFeed j f newRequest doResult now hj hres =>
    obtain ⟨res, h⟩ := processFeed_isSome r s.storage s.heap f newRequest doResult now
    rw [h] at hres
    cases hres
  | workerQueue j qf queued errors hj hc hlt =>
    refine ⟨by simpa using hlen, hcap, ?_, hctx, hloop⟩
    have h2 := sum_map_set WorkerPC.held s.workers j _ (WorkerPC.sending queued errors) hj
    simp only [WorkerPC.held, List.length_cons] at h2
    simp only [feedsInFlight, List.length_append, List.length_singleton]
    omega
  | workerQueueClosed j qf queued errors hj hc =>
    refine ⟨hlen, hcap, hflight, hctx, ?_⟩
    intro h
    have := (hloop h).1
    rw [this] at hc
    cases hc
  | workerEmit j err errors hj hc =>
    refine ⟨by simpa using hlen, hcap, ?_, hctx, hloop⟩
    have h2 := sum_map_set WorkerPC.held s.workers j _ (WorkerPC.sending [] errors) hj
    simp only [WorkerPC.held, List.length_nil] at h2
    simp only [feedsInFlight]
    omega
  | workerEmitClosed j err errors hj hc =>
    refine ⟨hlen, hcap, hflight, hctx, ?_⟩
    intro h
    have := (hloop h).2.2.1
    rw [this] at hc
    cases hc
  | workerContinue j hj =>
    refine ⟨by simpa using hlen, hcap, ?_, hctx, hloop⟩
    have h2 := sum_map_set WorkerPC.held s.workers j _ WorkerPC.ranging hj
    simp only [WorkerPC.held, List.length_nil] at h2
    simp only [feedsInFlight]
    omega

theorem runInvariant_reachable {σ : Type} (r : Reader σ) (ctxDone : Bool)
    (feeds : List FeedPtr) (heap : Heap) (storage : σ) (s : UpdateState σ)
    (hreach : Reachable r ctxDone feeds heap storage s) : RunInvariant r feeds s := by
  induction hreach with
  | refl => exact runInvariant_init r ctxDone feeds heap storage
  | tail _ hstep ih => exact runInvariant_step r feeds _ _ ih hstep

theorem get?_set_of_get? {α : Type} {l : List α} {i : Nat} {x y : α}
    (h : l.get? i = some x) : (l.set i y).get? i = some y := by
  rw [List.get?_eq_getElem?] at h ⊢
  rw [List.getElem?_set_self', h]
  rfl

theorem get?_set_of_ne {α : Type} (l : List α) {i j : Nat} (y : α) (h : i ≠ j) :
    (l.set i y).get? j = l.get? j := by
  rw [List.get?_eq_getElem?, List.get?_eq_getElem?, List.getElem?_set_ne h]

/-- Claim C21: in every run of `Update`, in every state, the number of feeds being fetched,
that is of workers inside `getFeedContent`, is at most the configured number of workers,
which is the number of worker goroutines. -/
theorem Update_fetching_bounded {σ : Type} (r : Reader σ) (ctxDone : Bool)
    (feeds : List FeedPtr) (heap : Heap) (storage : σ) (s : UpdateState σ)
    (hreach : Reachable r ctxDone feeds heap storage s) :
    s.workers.length = r.workers ∧ fetchingCount s ≤ r.workers := by
  have hinv := runInvariant_reachable r ctxDone feeds heap storage s hreach
  refine ⟨hinv.1, ?_⟩
  rw [← hinv.1]
  exact List.length_filter_le _ _

/-- What one iteration of a worker does, whatever the storage and the outcome of the fetch:
it stamps the feed object with the current time and writes to no other, sends the feed once
on `queuedChan` with the delay the fetch returned, and sends an error on `errChan` exactly
when the fetch or `Store` failed. -/
theorem processFeed_outcomes {σ : Type} (r : Reader σ) (storage : σ) (heap : Heap)
    (f : FeedPtr) (newRequest : Option Error) (doResult : Except Error Response) (now : Time) :
    ∃ res, r.processFeed storage heap f newRequest doResult now = some res ∧
      (res.heap f).ModifiedAt = now ∧ (res.heap f).FeedLink = (heap f).FeedLink ∧
      (∀ q, q ≠ f → res.heap q = heap q) ∧
      res.queued = [newQueuedFeed f (r.getFeedContent (heap f) newRequest doResult).1.d] ∧
      (∀ err, (r.getFeedContent (heap f) newRequest doResult).2 = some err →
        res.errors = [err] ∧ res.stored = [] ∧ res.storage = storage ∧
        res.heap = stampedHeap heap f now) ∧
      ((r.getFeedContent (heap f) newRequest doResult).2 = none →
        ∃ pf, (r.getFeedContent (heap f) newRequest doResult).1.f = some pf ∧
          res.heap = mappedHeap heap f now pf ∧
          res.stored = [(f, pf.Items.map mapItem)] ∧
          res.storage = (r.s.Store storage res.heap f (pf.Items.map mapItem)).1 ∧
          ((r.s.Store storage res.heap f (pf.Items.map mapItem)).2 = none →
            res.errors = []) ∧
          (∀ e, (r.s.Store storage res.heap f (pf.Items.map mapItem)).2 = some e →
            res.errors = [Error.other e])) := by
  rcases hopt : (r.getFeedContent (heap f) newRequest doResult).2 with _ | err
  · obtain ⟨pf, hpf⟩ := getFeedContent_feed_of_no_error r (heap f) newRequest doResult hopt
    refine ⟨_, processFeed_of_parsed r storage heap f newRequest doResult now pf hopt hpf,
      ?_, ?_, ?_, rfl, ?_, ?_⟩
    · simp [mappedHeap, Heap.write]
    · simp [mappedHeap, Heap.write]
    · intro q hq
      exact Heap.write_of_ne _ _ _ _ hq
    · intro err h
      cases h
    · intro _
      refine ⟨pf, hpf, rfl, rfl, rfl, ?_, ?_⟩
      · intro h
        simp only [h]
      · intro e h
        simp only [h]
  · refine ⟨_, processFeed_of_error r storage heap f newRequest doResult now err hopt,
      ?_, ?_, ?_, rfl, ?_, ?_⟩
    · simp [stampedHeap, Heap.write]
    · simp [stampedHeap, Heap.write]
    · intro q hq
      exact Heap.write_of_ne _ _ _ _ hq
    · intro err2 h
      simp only [Option.some.injEq] at h
      rw [h]
      exact ⟨rfl, rfl, rfl, rfl⟩
    · intro h
      cases h

/-- In every run of `Update`, a worker leaves `getFeedContent` only into the sends of
`processFeed`; the feeds in the pipeline never exceed the feeds given; and while the
context is not cancelled no goroutine has panicked, the send on `queuedChan` finds the
channel open with room in its buffer, and the send on `errChan` finds the channel open. -/
theorem worker_requeues_once {σ : Type} (r : Reader σ) (ctxDone : Bool)
    (feeds : List FeedPtr) (heap : Heap) (storage : σ) (s : UpdateState σ)
    (hreach : Reachable r ctxDone feeds heap storage s) :
    (∀ j f s2, s.workers.get? j = some (WorkerPC.fetching f) → Step r s s2 →
      s2.workers.get? j = some (WorkerPC.fetching f) ∨
      ∃ newRequest doResult now res,
        r.processFeed s.storage s.heap f newRequest doResult now = some res ∧
        s2.workers.get? j = some (WorkerPC.sending res.queued res.errors) ∧
        s2.storage = res.storage ∧ s2.heap = res.heap) ∧
    feedsInFlight s ≤ feeds.length ∧
    (s.ctxDone = false →
      s.panicked = false ∧
      (∀ j qf queued errors,
        s.workers.get? j = some (WorkerPC.sending (qf :: queued) errors) →
        ∃ s2, Step r s s2 ∧ s2.queuedChan = s.queuedChan ++ [qf] ∧
          s2.workers.get? j = some (WorkerPC.sending queued errors)) ∧
      (∀ j err errors,
        s.workers.get? j = some (WorkerPC.sending [] (err :: errors)) →
        ∃ s2, Step r s s2 ∧ s2.errors = s.errors ++ [err] ∧
          s2.workers.get? j = some (WorkerPC.sending [] errors))) := by
  obtain ⟨hlen, hcap, hflight, hctx, hloop⟩ :=
    runInvariant_reachable r ctxDone feeds heap storage s hreach
  refine ⟨?_, hflight, ?_⟩
  · intro j f s2 hj hstep
    obtain ⟨_, htrans⟩ := hstep
    -- a step of another goroutine leaves the worker where it is
    have hother : ∀ (j2 : Nat) (x y : WorkerPC), s.workers.get? j2 = some x →
        x ≠ WorkerPC.fetching f →
        (s.workers.set j2 y).get? j = some (WorkerPC.fetching f) := by
      intro j2 x y hj2 hx
      have hne : j2 ≠ j := by
        intro h
        rw [h, hj] at hj2
        exact hx (Option.some.inj hj2).symm
      rw [get?_set_of_ne _ _ hne]
      exact hj
    cases htrans with
    | cancel => exact Or.inl hj
    | dispatcherReceive qf rest hd hq => exact Or.inl hj
    | dispatcherRangeEnd hd hq hc => exact Or.inl hj
    | dispatcherCancelled qf hd hc => exact Or.inl hj
    | dispatcherSpawn qf hd hc => exact Or.inl hj
    | dispatcherCloseErr hd => exact Or.inl hj
    | dispatcherCloseFeed hd => exact Or.inl hj
    | dispatcherCloseQueued hd => exact Or.inl hj
    | waiterCancelled i qf hw hc => exact Or.inl hj
    | waiterFired i qf hw => exact Or.inl hj
    | waiterSendClosed i f2 hw hc => exact Or.inl hj
    | handOver i j2 f2 hw hc hj2 => exact Or.inl (hother j2 _ _ hj2 (by intro h; cases h))
    | workerRangeEnd j2 hj2 hc => exact Or.inl (hother j2 _ _ hj2 (by intro h; cases h))
    | workerCancelled j2 f2 hj2 hc =>
      exact Or.inl (hother j2 _ _ hj2 (by intro h; cases h))
    | workerFetch j2 f2 hj2 hc => exact Or.inl (hother j2 _ _ hj2 (by intro h; cases h))
    | workerProcessed j2 f2 newRequest doResult now res hj2 hres =>
      by_cases hjj : j2 = j
      · subst hjj
        rw [hj] at hj2
        have hf : f = f2 := by
          have := Option.some.inj hj2
          cases this
          rfl
        subst hf
        exact Or.inr ⟨newRequest, doResult, now, res, hres, get?_set_of_get? hj, rfl, rfl⟩
      · left
        show (s.workers.set j2 _).get? j = _
        rw [get?_set_of_ne _ _ hjj]
        exact hj
    | workerNilFeed j2 f2 newRequest doResult now hj2 hres => exact Or.inl hj
    | workerQueue j2 qf queued errors hj2 hc hlt =>
      exact Or.inl (hother j2 _ _ hj2 (by intro h; cases h))
    | workerQueueClosed j2 qf queued errors hj2 hc => exact Or.inl hj
    | workerEmit j2 err errors hj2 hc =>
      exact Or.inl (hother j2 _ _ hj2 (by intro h; cases h))
    | workerEmitClosed j2 err errors hj2 hc => exact Or.inl hj
    | workerContinue j2 hj2 => exact Or.inl (hother j2 _ _ hj2 (by intro h; cases h))
  · intro hlive
    obtain ⟨hqc, hfc, hec, hpanic⟩ := hloop (hctx hlive)
    refine ⟨hpanic, ?_, ?_⟩
    · intro j qf queued errors hj
      -- the worker holds a feed, so the buffer of `queuedChan` is not full
      have hroom : s.queuedChan.length < s.queuedCap := by
        have h2 := sum_map_set WorkerPC.held s.workers j _ WorkerPC.ranging hj
        simp only [WorkerPC.held, List.length_cons] at h2
        unfold feedsInFlight at hflight
        omega
      exact ⟨_, ⟨hpanic, Transition.workerQueue s j qf queued errors hj hqc hroom⟩, rfl,
        get?_set_of_get? hj⟩
    · intro j err errors hj
      exact ⟨_, ⟨hpanic, Transition.workerEmit s j err errors hj hec⟩, rfl,
        get?_set_of_get? hj⟩

/-- The state `runFetching` is a state of a run of `Update`. -/
theorem reachable_runFetching :
    Reachable mockReader false [0] rssHeap rssStorage runFetching := by
  have h0 : Reachable mockReader false [0] rssHeap rssStorage
      (mockReader.Update false [0] rssHeap rssStorage) := Relation.ReflTransGen.refl
  have h1 := h0.tail ⟨rfl, Transition.dispatcherReceive _
    (newQueuedFeed 0 mockReader.retry) [] rfl rfl⟩
  have h2 := h1.tail ⟨rfl, Transition.dispatcherSpawn _
    (newQueuedFeed 0 mockReader.retry) rfl rfl⟩
  have h3 := h2.tail ⟨rfl, Transition.waiterFired _ 0
    (newQueuedFeed 0 mockReader.retry) rfl⟩
  have h4 := h3.tail ⟨rfl, Transition.handOver _ 0 0 0 rfl rfl rfl⟩
  have h5 := h4.tail ⟨rfl, Transition.workerFetch _ 0 0 rfl rfl⟩
  exact h5

/-- The state `runSending` is a state of a run of `Update`. -/
theorem reachable_runSending :
    Reachable mockReader false [0] rssHeap rssStorage runSending := by
  have h6 := reachable_runFetching.tail ⟨rfl, Transition.workerProcessed runFetching 0 0
    none (.ok response500) t2020
    { heap := stampedHeap rssHeap 0 t2020, storage := rssStorage, stored := [],
      queued := [newQueuedFeed 0 (60 * Second)],
      errors := [Error.HTTPError 500 "500 Internal Server Error"] } rfl rfl⟩
  exact h6

/-- The state `runFetchingOfTwo` is a state of a run of `Update`. -/
theorem reachable_runFetchingOfTwo :
    Reachable mockReader false [0, 1] rssHeap rssStorage runFetchingOfTwo := by
  have h0 : Reachable mockReader false [0, 1] rssHeap rssStorage
      (mockReader.Update false [0, 1] rssHeap rssStorage) := Relation.ReflTransGen.refl
  have h1 := h0.tail ⟨rfl, Transition.dispatcherReceive _
    (newQueuedFeed 0 mockReader.retry) [newQueuedFeed 1 mockReader.retry] rfl rfl⟩
  have h2 := h1.tail ⟨rfl, Transition.dispatcherSpawn _
    (newQueuedFeed 0 mockReader.retry) rfl rfl⟩
  have h3 := h2.tail ⟨rfl, Transition.waiterFired _ 0
    (newQueuedFeed 0 mockReader.retry) rfl⟩
  have h4 := h3.tail ⟨rfl, Transition.handOver _ 0 0 0 rfl rfl rfl⟩
  have h5 := h4.tail ⟨rfl, Transition.workerFetch _ 0 0 rfl rfl⟩
  exact h5

/-- One worker of eight is fetching in `runFetching`. -/
theorem Update_fetching_bounded_witness :
    Reachable mockReader false [0] rssHeap rssStorage runFetching ∧
    fetchingCount runFetching = 1 ∧
    runFetching.workers.length = mockReader.workers ∧
    fetchingCount runFetching ≤ mockReader.workers :=
  ⟨reachable_runFetching, by decide,
    (Update_fetching_bounded mockReader false [0] rssHeap rssStorage runFetching
      reachable_runFetching).1,
    (Update_fetching_bounded mockReader false [0] rssHeap rssStorage runFetching
      reachable_runFetching).2⟩

/-- In `runSending` the first worker can send the feed on `queuedChan`. -/
theorem worker_requeues_once_at_runSending :
    Reachable mockReader false [0] rssHeap rssStorage runSending ∧
    runSending.ctxDone = false ∧
    ∃ s2, Step mockReader runSending s2 ∧
      s2.queuedChan = runSending.queuedChan ++ [newQueuedFeed 0 (60 * Second)] ∧
      s2.workers.get? 0 = some (WorkerPC.sending []
        [Error.HTTPError 500 "500 Internal Server Error"]) :=
  ⟨reachable_runSending, rfl,
    ((worker_requeues_once mockReader false [0] rssHeap rssStorage runSending
      reachable_runSending).2.2 rfl).2.1 0 _ _ _ rfl⟩

/-- Claim C22, the code at the failing input: two runs of `Update` with the default
options in which a worker takes a feed while the context is open, and the context is
cancelled while the worker is inside `getFeedContent`, which then returns an error.  In the
run over one feed the worker queues the feed again, the staging goroutine receives it, finds
the context cancelled and closes `errChan`, and the send of the error by the worker meets
the closed channel: the program panics and the error is never received.  In the run over
two feeds the staging goroutine receives the second feed, finds the context cancelled and
closes the three channels while the worker is still fetching; the send of the feed on
`queuedChan` meets the closed channel: the program panics, the feed is not queued again and
the error is never received. -/
theorem Update_cancel_during_fetch_can_panic :
    (Reachable mockReader false [0] rssHeap rssStorage runFetching ∧
      runFetching.ctxDone = false ∧
      runFetching.workers.get? 0 = some (WorkerPC.fetching 0) ∧
      ∃ s, Relation.ReflTransGen (Step mockReader) runFetching s ∧
        s.panicked = true ∧ s.errors = [] ∧ s.errClosed = true ∧
        s.workers.get? 0
          = some (WorkerPC.sending [] [Error.other "context canceled"])) ∧
    (Reachable mockReader false [0, 1] rssHeap rssStorage runFetchingOfTwo ∧
      runFetchingOfTwo.ctxDone = false ∧
      runFetchingOfTwo.workers.get? 0 = some (WorkerPC.fetching 0) ∧
      ∃ s, Relation.ReflTransGen (Step mockReader) runFetchingOfTwo s ∧
        s.panicked = true ∧ s.errors = [] ∧ s.queuedClosed = true ∧ s.queuedChan = [] ∧
        s.workers.get? 0
          = some (WorkerPC.sending [newQueuedFeed 0 (300 * Second)]
              [Error.other "context canceled"])) := by
  refine ⟨⟨reachable_runFetching, rfl, rfl, ?_⟩, ⟨reachable_runFetchingOfTwo, rfl, rfl, ?_⟩⟩
  · have h5 : Relation.ReflTransGen (Step mockReader) runFetching runFetching :=
      Relation.ReflTransGen.refl
    have h6 := h5.tail ⟨rfl, Transition.cancel runFetching⟩
    have h7 := h6.tail ⟨rfl, Transition.workerProcessed _ 0 0
      none (.error (Error.other "context canceled")) t2020
      { heap := stampedHeap rssHeap 0 t2020, storage := rssStorage, stored := [],
        queued := [newQueuedFeed 0 (300 * Second)],
        errors := [Error.other "context canceled"] } rfl rfl⟩
    have h8 := h7.tail ⟨rfl, Transition.workerQueue _ 0 _ [] _ rfl rfl (by decide)⟩
    have h9 := h8.tail ⟨rfl, Transition.dispatcherReceive _ _ [] rfl rfl⟩
    have h10 := h9.tail ⟨rfl, Transition.dispatcherCancelled _ _ rfl rfl⟩
    have h11 := h10.tail ⟨rfl, Transition.dispatcherCloseErr _ rfl⟩
    have h12 := h11.tail ⟨rfl, Transition.workerEmitClosed _ 0
      (Error.other "context canceled") [] rfl rfl⟩
    exact ⟨_, h12, rfl, rfl, rfl, rfl⟩
  · have h5 : Relation.ReflTransGen (Step mockReader) runFetchingOfTwo runFetchingOfTwo :=
      Relation.ReflTransGen.refl
    have h6 := h5.tail ⟨rfl, Transition.cancel runFetchingOfTwo⟩
    have h7 := h6.tail ⟨rfl, Transition.dispatcherReceive _
      (newQueuedFeed 1 (60 * Second)) [] rfl rfl⟩
    have h8 := h7.tail ⟨rfl, Transition.dispatcherCancelled _ _ rfl rfl⟩
    have h9 := h8.tail ⟨rfl, Transition.dispatcherCloseErr _ rfl⟩
    have h10 := h9.tail ⟨rfl, Transition.dispatcherCloseFeed _ rfl⟩
    have h11 := h10.tail ⟨rfl, Transition.dispatcherCloseQueued _ rfl⟩
    have h12 := h11.tail ⟨rfl, Transition.workerProcessed _ 0 0
      none (.error (Error.other "context canceled")) t2020
      { heap := stampedHeap rssHeap 0 t2020, storage := rssStorage, stored := [],
        queued := [newQueuedFeed 0 (300 * Second)],
        errors := [Error.other "context canceled"] } rfl rfl⟩
    have h13 := h12.tail ⟨rfl, Transition.workerQueueClosed _ 0
      (newQueuedFeed 0 (300 * Second)) [] [Error.other "context canceled"] rfl rfl⟩
    exact ⟨_, h13, rfl, rfl, rfl, rfl, rfl⟩

end Reader
